import Mathlib

/-!
# gnuplot.hpp: a shallow embedding of the `Gnuplot` class

The class is a command serializer: every method either edits the session
fields or composes script text and hands it to `sendcommand`.

Conventions of the embedding

* `std::string` and `std::stringstream` are `String`; `os << x` is `os ++ render x`.
* A method that can stop on `assert`, on an exception of `vector::at`, or on
  undefined behaviour returns `Except Fault _`; `assert` is modelled as active
  (no `NDEBUG`).
* `std::vector<T>` is `List T`; `v[i]` past the end is `Fault.undefined`.
* `double` is IEEE 754 binary64 (`Double`): NaN, the infinities, negative zero
  and the finite values, each finite value given by its exact rational; the
  arithmetic of `histogram` rounds the result of every single operation to
  nearest, ties to even, with gradual underflow and overflow to an infinity
  (no extended precision, no fused multiply-add).  Where a method only stores
  and prints finite values (the point accumulator, staged points) the value is
  carried as its exact rational (`ℚ`).
* `int` is `Int` with an explicit 32-bit range; `size_t` is `Nat`.
-/

namespace GnuplotHpp

/-! ## Faults -/

/-- Ways a call can stop without returning normally. -/
inductive Fault
  /-- a failed `assert(...)` (process abort) -/
  | assertion
  /-- `std::out_of_range` thrown by `vector::at` -/
  | out_of_range
  /-- undefined behaviour: `operator[]` past the end, or a NaN/out-of-range
  floating value converted to `int` -/
  | undefined
  deriving DecidableEq, Repr

deriving instance DecidableEq for Except

/-! ## Stream insertion -/

/-- Text produced by `os << x` for a value of type `α` (the overload of
`operator<<` the template argument selects). -/
class StreamInsert (α : Type) where
  /-- rendered text of one value -/
  render : α → String

export StreamInsert (render)

/-- Insertion `os << n` for the integer types that are not character types
(`short`, `int`, `long`, `long long` and their unsigned variants, an unsigned
value being a non-negative one): optional minus sign and decimal digits. -/
instance : StreamInsert Int := ⟨fun n => toString n⟩

/-- Insertion `os << n` for `size_t` and the other unsigned integer types that
are not character types. -/
instance : StreamInsert Nat := ⟨fun n => toString n⟩

/-- Insertion `os << c` for the character types `char`, `signed char` and
`unsigned char`: the character itself, not its code. -/
instance : StreamInsert Char := ⟨fun c => String.singleton c⟩

/-! ## The default formatting of `double` by `operator<<`

A stream in its default state formats a `double` like `printf("%g")`: six
significant digits, rounded to nearest (ties to even on the exact value),
fixed notation when the decimal exponent `X` satisfies `-4 ≤ X < 6` and
scientific notation otherwise, trailing zeros of the fraction removed.  The
repository never changes precision or format flags. -/

/-- Digits with the trailing zeros removed. -/
def stripTrailingZeros (cs : List Char) : List Char :=
  (cs.reverse.dropWhile fun ch => ch == '0').reverse

/-- Test `10 ^ e ≤ n / d` on exact values, for `d > 0`. -/
def pow10Le (e : Int) (n d : Nat) : Bool :=
  if 0 ≤ e then decide (10 ^ e.toNat * d ≤ n) else decide (d ≤ n * 10 ^ (-e).toNat)

/-- The decimal exponent `X` of `n / d > 0`: `10 ^ X ≤ n / d < 10 ^ (X + 1)`.
With `e` the difference of the digit counts of `n` and `d`, `X` is `e` or `e - 1`. -/
def decimalExponent (n d : Nat) : Int :=
  let e : Int := ((Nat.toDigits 10 n).length : Int) - ((Nat.toDigits 10 d).length : Int)
  if pow10Le e n d then e else e - 1

/-- Quotient `a / b` rounded to the nearest integer, ties to even. -/
def roundHalfEven (a b : Nat) : Nat :=
  let q := a / b
  let r := a % b
  if 2 * r < b then q
  else if b < 2 * r then q + 1
  else if q % 2 = 0 then q else q + 1

/-- The six significant digits of `n / d`, as a number, for decimal exponent `X`. -/
def significand6 (n d : Nat) (X : Int) : Nat :=
  if X ≤ 5 then roundHalfEven (n * 10 ^ (5 - X).toNat) d
  else roundHalfEven n (d * 10 ^ (X - 5).toNat)

/-- Fraction digits as printed: nothing when they are all zeros, else a
decimal point and the digits without trailing zeros. -/
def fractionText (cs : List Char) : String :=
  let f := stripTrailingZeros cs
  if f.isEmpty then "" else "." ++ String.mk f

/-- Rendering of the positive value `n / d`. -/
def renderPositive (n d : Nat) : String :=
  let X0 := decimalExponent n d
  let m0 := significand6 n d X0
  let X := if m0 = 1000000 then X0 + 1 else X0
  let m := if m0 = 1000000 then 100000 else m0
  let ds := Nat.toDigits 10 m
  if -4 ≤ X ∧ X < 6 then
    if 0 ≤ X then
      String.mk (ds.take (X.toNat + 1)) ++ fractionText (ds.drop (X.toNat + 1))
    else
      "0." ++ String.mk (List.replicate ((-X).toNat - 1) '0') ++ String.mk (stripTrailingZeros ds)
  else
    String.mk (ds.take 1) ++ fractionText (ds.drop 1) ++ "e" ++ (if X < 0 then "-" else "+")
      ++ (if X.natAbs < 10 then "0" else "") ++ toString X.natAbs

/-- Rendering of a finite `double` by `os << x` (default precision 6). -/
def renderDouble (q : ℚ) : String :=
  if q = 0 then "0"
  else (if q < 0 then "-" else "") ++ renderPositive q.num.natAbs q.den

/-- Insertion `os << x` for a finite `double`. -/
instance : StreamInsert ℚ := ⟨renderDouble⟩

/-- A value of type `double` (IEEE 754 binary64): a NaN of either sign, the
two infinities, negative zero, or a finite value given exactly (`val 0` is
positive zero).  The payload of a NaN is not represented. -/
inductive Double
  /-- not-a-number with the sign bit clear, as the macro `NAN` -/
  | nan
  /-- a finite value; `val 0` is `+0.0` -/
  | val (q : ℚ)
  /-- positive infinity -/
  | pinf
  /-- negative infinity -/
  | ninf
  /-- negative zero `-0.0` -/
  | nzero
  /-- not-a-number with the sign bit set -/
  | nnan
  deriving DecidableEq

/-- Test `2 ^ e ≤ n / d` on exact values, for `d > 0`. -/
def pow2Le (e : Int) (n d : Nat) : Bool :=
  if 0 ≤ e then decide (2 ^ e.toNat * d ≤ n) else decide (d ≤ n * 2 ^ (-e).toNat)

/-- The binary exponent `e` of `n / d > 0`: `2 ^ e ≤ n / d < 2 ^ (e + 1)`.
With `e` the difference of the bit counts of `n` and `d`, it is `e` or `e - 1`. -/
def binaryExponent (n d : Nat) : Int :=
  let e : Int := ((Nat.toDigits 2 n).length : Int) - ((Nat.toDigits 2 d).length : Int)
  if pow2Le e n d then e else e - 1

/-- The rational `m * 2 ^ s`. -/
def scale2 (m : Nat) (s : Int) : ℚ :=
  if 0 ≤ s then ((m * 2 ^ s.toNat : Nat) : ℚ) else (m : ℚ) / ((2 ^ (-s).toNat : Nat) : ℚ)

/-- Signed zero. -/
def Double.zero (neg : Bool) : Double := if neg then .nzero else .val 0

/-- Signed infinity. -/
def Double.inf (neg : Bool) : Double := if neg then .ninf else .pinf

/-- The significand `m` and the exponent `s` of the `double` nearest to
`n / d > 0`, whose magnitude is `m * 2 ^ s`: 53 significant bits for a normal
result, multiples of `2 ^ -1074` below `2 ^ -1022` (gradual underflow); ties go
to the even significand. -/
def roundedSignificand (n d : Nat) : Nat × Int :=
  let e := binaryExponent n d
  let s : Int := if e < -1022 then -1074 else e - 52
  (if 0 ≤ s then roundHalfEven n (d * 2 ^ s.toNat) else roundHalfEven (n * 2 ^ (-s).toNat) d, s)

/-- The `double` of sign `neg` and magnitude `m * 2 ^ s`: a signed zero when
the significand is zero, an infinity from `2 ^ 1024` on. -/
def packMagnitude (neg : Bool) (m : Nat) (s : Int) : Double :=
  if m = 0 then Double.zero neg
  else if (2 : ℚ) ^ 1024 ≤ scale2 m s then Double.inf neg
  else .val (if neg then - scale2 m s else scale2 m s)

/-- Rounding of an exact result to `double`: round to nearest, ties to even. -/
def round64 (q : ℚ) : Double :=
  if q = 0 then .val 0
  else
    let ms := roundedSignificand q.num.natAbs q.den
    packMagnitude (decide (q < 0)) ms.1 ms.2

/-- The test `std::isnan`. -/
def Double.isnan : Double → Bool
  | .nan => true
  | .nnan => true
  | _ => false

/-- The sign bit. -/
def Double.signbit : Double → Bool
  | .nan => false
  | .val q => decide (q < 0)
  | .pinf => false
  | .ninf => true
  | .nzero => true
  | .nnan => true

/-- Whether the value is an infinity. -/
def Double.isinf : Double → Bool
  | .pinf => true
  | .ninf => true
  | _ => false

/-- Whether the value is a zero of either sign. -/
def Double.iszero : Double → Bool
  | .val q => decide (q = 0)
  | .nzero => true
  | _ => false

/-- Whether the value is a number: `std::isfinite`, false for the NaNs and the
infinities. -/
def Double.isfinite : Double → Bool
  | .val _ => true
  | .nzero => true
  | _ => false

/-- The exact value of a finite `double` (0 for the other ones). -/
def Double.toRat : Double → ℚ
  | .val q => q
  | _ => 0

/-- Unary minus. -/
def Double.neg : Double → Double
  | .nan => .nnan
  | .val q => if q = 0 then .nzero else .val (-q)
  | .pinf => .ninf
  | .ninf => .pinf
  | .nzero => .val 0
  | .nnan => .nan

/-- The sum `a + b` of two `double`s.  Which NaN an operation yields is left
open by IEEE 754 and is not observable in this class, where a computed NaN is
only converted to `int`; the model yields `nan`. -/
def Double.add (a b : Double) : Double :=
  if a.isnan || b.isnan then .nan
  else if a.isinf then (if b.isinf && (a.signbit != b.signbit) then .nan else a)
  else if b.isinf then b
  else if a.iszero && b.iszero then Double.zero (a.signbit && b.signbit)
  else if a.toRat + b.toRat = 0 then .val 0
  else round64 (a.toRat + b.toRat)

/-- The difference `a - b`. -/
def Double.sub (a b : Double) : Double := a.add b.neg

/-- The product `a * b`. -/
def Double.mul (a b : Double) : Double :=
  if a.isnan || b.isnan then .nan
  else if (a.isinf && b.iszero) || (a.iszero && b.isinf) then .nan
  else if a.isinf || b.isinf then Double.inf (a.signbit != b.signbit)
  else if a.iszero || b.iszero then Double.zero (a.signbit != b.signbit)
  else round64 (a.toRat * b.toRat)

/-- The quotient `a / b`. -/
def Double.div (a b : Double) : Double :=
  if a.isnan || b.isnan then .nan
  else if (a.isinf && b.isinf) || (a.iszero && b.iszero) then .nan
  else if a.isinf || b.iszero then Double.inf (a.signbit != b.signbit)
  else if b.isinf || a.iszero then Double.zero (a.signbit != b.signbit)
  else round64 (a.toRat / b.toRat)

/-- The comparison `a < b`: false when either side is NaN; the zeros are equal. -/
def Double.lt (a b : Double) : Bool :=
  if a.isnan || b.isnan then false
  else match a, b with
    | .pinf, _ => false
    | _, .ninf => false
    | .ninf, _ => true
    | _, .pinf => true
    | x, y => decide (x.toRat < y.toRat)

/-- Conversion of a `size_t` to `double`. -/
def Double.ofNat (n : Nat) : Double := round64 (n : ℚ)

/-- A decimal integer literal of type `double`. -/
instance (n : Nat) : OfNat Double n := ⟨round64 (n : ℚ)⟩

instance : Add Double := ⟨Double.add⟩

instance : Sub Double := ⟨Double.sub⟩

instance : Mul Double := ⟨Double.mul⟩

instance : Div Double := ⟨Double.div⟩

/-- Insertion `os << x` for a `double`: the infinities print as `inf` and
`-inf`, negative zero as `-0`, a NaN as `nan` or `-nan`. -/
instance : StreamInsert Double := ⟨fun x =>
  match x with
  | .nan => "nan"
  | .val q => renderDouble q
  | .pinf => "inf"
  | .ninf => "-inf"
  | .nzero => "-0"
  | .nnan => "-nan"⟩

/-! ## Data model -/

/-- The draw styles, `enum class LineStyle`. -/
inductive LineStyle
  | DOTS | LINES | POINTS | LINESPOINTS | STEPS | BOXES
  | X_ERROR_BARS | Y_ERROR_BARS | XY_ERROR_BARS | VECTORS | PM3D
  deriving DecidableEq, Repr

/-- One pending point series, `struct GnuplotSeries`. -/
structure GnuplotSeries where
  data_string : String
  line_style : LineStyle
  title : String
  column_range : String
  deriving DecidableEq, Repr

/-- One registered 3D function, `struct Gnuplot3dFunctionSeries`. -/
structure Gnuplot3dFunctionSeries where
  function_string : String
  is_plane : Bool
  title : String
  deriving DecidableEq, Repr

/-- One staged annotated point, `struct GnuplotDots`. -/
structure GnuplotDots where
  coordinates : List ℚ
  title : String
  deriving DecidableEq, Repr

/-- The fields of `class Gnuplot`.  `connection` tells whether the `FILE*` is
non-null; `pipe` is the text written to it so far. -/
structure Gnuplot where
  list_of_x : List ℚ
  list_of_y : List ℚ
  list_of_xerr : List ℚ
  list_of_yerr : List ℚ
  useAutoshow : Bool
  connection : Bool
  pipe : String
  series : List GnuplotSeries
  series3d : List Gnuplot3dFunctionSeries
  dots : List GnuplotDots
  files_to_delete : List String
  os3d : String
  xrange : String
  yrange : String
  zrange : String
  is_3dplot : Bool
  has_dot : Bool
  is_3dplotfunc : Bool
  deriving DecidableEq, Repr

/-! ## Helpers of the class -/

/-- The private `escape_quotes`: every single quote is doubled. -/
def escape_quotes (s : String) : String :=
  s.data.foldl (fun result ch => if ch != '\'' then result.push ch else result ++ "''") ""

/-- The private `format_range(min, max)`. -/
def format_range (min max : Double) : String :=
  if min.isnan && max.isnan then "[]"
  else
    let os := ""
    let os := os ++ "["
    let os := if min.isnan then os ++ "*" else os ++ render min
    let os := os ++ ":"
    let os := if max.isnan then os ++ "*" else os ++ render max
    let os := os ++ "]"
    os

/-- The private `style_to_str(style)`: every style without a `case` falls to
`default`. -/
def style_to_str : LineStyle → String
  | .DOTS => "dots"
  | .POINTS => "points"
  | .LINESPOINTS => "linespoints"
  | .STEPS => "steps"
  | .BOXES => "boxes"
  | .X_ERROR_BARS => "xerrorbars"
  | .Y_ERROR_BARS => "yerrorbars"
  | .XY_ERROR_BARS => "xyerrorbars"
  | .VECTORS => "vectors"
  | _ => "lines"

/-! ## Command channel -/

/-- The bytes `fputs` writes for `str.c_str()`: the text up to the first NUL. -/
def c_str (s : String) : String :=
  String.mk (s.data.takeWhile fun ch => ch != Char.ofNat 0)

/-- The method `sendcommand(str)`: the new session and the returned flag.  The
overloads for `std::string` and `std::stringstream` forward to the one taking
`const char*`. -/
def sendcommand (g : Gnuplot) (str : String) : Gnuplot × Bool :=
  if !g.connection then (g, false)
  else ({ g with pipe := g.pipe ++ c_str str ++ "\n" }, true)

/-! ## Plot property setters -/

/-- Method `set_title(title)`. -/
def set_title (g : Gnuplot) (title : String) : Gnuplot × Bool :=
  let os := ""
  let os := os ++ "set title '" ++ escape_quotes title ++ "'"
  sendcommand g os

/-- Method `set_xlabel(label)`. -/
def set_xlabel (g : Gnuplot) (label : String) : Gnuplot × Bool :=
  let os := ""
  let os := os ++ "set xlabel '" ++ escape_quotes label ++ "'"
  sendcommand g os

/-- Method `set_ylabel(label)`. -/
def set_ylabel (g : Gnuplot) (label : String) : Gnuplot × Bool :=
  let os := ""
  let os := os ++ "set ylabel '" ++ escape_quotes label ++ "'"
  sendcommand g os

/-- Method `set_zlabel(label)`. -/
def set_zlabel (g : Gnuplot) (label : String) : Gnuplot × Bool :=
  let os := ""
  let os := os ++ "set zlabel '" ++ escape_quotes label ++ "'"
  sendcommand g os

/-- Method `set_xrange(min, max)`; the defaults of both arguments are NaN. -/
def set_xrange (g : Gnuplot) (min max : Double) : Gnuplot :=
  { g with xrange := format_range min max }

/-- Method `set_yrange(min, max)`; the defaults of both arguments are NaN. -/
def set_yrange (g : Gnuplot) (min max : Double) : Gnuplot :=
  { g with yrange := format_range min max }

/-- Method `set_zrange(min, max)`; the defaults of both arguments are NaN. -/
def set_zrange (g : Gnuplot) (min max : Double) : Gnuplot :=
  { g with zrange := format_range min max }

/-- Method `reset()`. -/
def reset (g : Gnuplot) : Gnuplot :=
  let g := { g with series := [] }
  let g := set_xrange g Double.nan Double.nan
  let g := set_yrange g Double.nan Double.nan
  { g with is_3dplot := false }

/-- The constructor (the branch compiled outside Windows).  `opened` tells
whether `popen` returned a stream; `has_dot` is the indeterminate initial value
of the member the constructor leaves uninitialised. -/
def construct (opened : Bool) (has_dot : Bool) : Gnuplot :=
  let g : Gnuplot :=
    { list_of_x := [], list_of_y := [], list_of_xerr := [], list_of_yerr := []
      useAutoshow := true
      connection := opened
      pipe := ""
      series := [], series3d := [], dots := [], files_to_delete := []
      os3d := ""
      xrange := "", yrange := "", zrange := ""
      is_3dplot := false
      has_dot := has_dot
      is_3dplotfunc := false }
  let g := set_xrange g Double.nan Double.nan
  let g := set_yrange g Double.nan Double.nan
  let g := set_zrange g Double.nan Double.nan
  let g := (sendcommand g "set terminal qt linewidth 1.5\n").1
  let g := (sendcommand g "set encoding koi8r\n").1
  let g := (sendcommand g "set minussign\n").1
  let g := (sendcommand g "set size ratio 0.8\n").1
  let g := (sendcommand g "set autoscale noextend\n").1
  let g := (sendcommand g "set decimalsign \",\"\n").1
  let g := (sendcommand g "set colorsequence classic").1
  g

/-! ## Series encoder: `_print_ith_elements` and `_plot` -/

/-- The variadic `_print_ith_elements`: one recursion step per remaining
argument vector.  `os` receives `v[i]` and a space; on the first row (`i = 0`)
`fmts` receives the column index, preceded by `:` when it is not the first.
The result is the pair of streams `(os, fmts)`. -/
def _print_ith_elements {α : Type} [StreamInsert α] (os fmts : String) (index : Nat) (i : Nat) :
    List (List α) → Except Fault (String × String)
  | [] => .ok (os, fmts)
  | v :: args =>
    match v[i]? with
    | none => .error Fault.undefined
    | some x =>
      let os := os ++ render x ++ " "
      let fmts :=
        if i = 0 then
          (if index > 1 then fmts ++ ":" else fmts) ++ toString index
        else fmts
      _print_ith_elements os fmts (index + 1) i args

/-- The loop `for (i = 0; i < v.size(); ++i)` of `_plot`, started at row `i`
with `n` rows left. -/
def _plot_rows {α : Type} [StreamInsert α] (cols : List (List α)) :
    Nat → Nat → String → String → Except Fault (String × String)
  | 0, _, os, fmts => .ok (os, fmts)
  | n + 1, i, os, fmts =>
    match _print_ith_elements os fmts 1 i cols with
    | .error e => .error e
    | .ok (os, fmts) => _plot_rows cols n (i + 1) (os ++ "\n") fmts

/-- The method `_plot(label, style, is_this_3dplot, v, args...)`: `v` is the
primary sequence and `args` the remaining argument vectors, in order. -/
def _plot {α : Type} [StreamInsert α] (g : Gnuplot) (label : String) (style : LineStyle)
    (is_this_3dplot : Bool) (v : List α) (args : List (List α)) : Except Fault Gnuplot :=
  if v.isEmpty then .ok g
  else if !g.series.isEmpty && g.is_3dplot != is_this_3dplot then .error Fault.assertion
  else
    match _plot_rows (v :: args) v.length 0 "" "" with
    | .error e => .error e
    | .ok (os, fmtstring) =>
      .ok { g with
        series := g.series ++ [⟨os, style, label, fmtstring⟩]
        is_3dplot := is_this_3dplot }

/-! ### The public entry points that forward to `_plot` -/

/-- Method `plot(y, label, style)`. -/
def plot_y {α : Type} [StreamInsert α] (g : Gnuplot) (y : List α) (label : String)
    (style : LineStyle) : Except Fault Gnuplot :=
  _plot g label style false y []

/-- Method `plot(x, y, label, style)`. -/
def plot {α : Type} [StreamInsert α] (g : Gnuplot) (x y : List α) (label : String)
    (style : LineStyle) : Except Fault Gnuplot :=
  _plot g label style false x [y]

/-- Method `plot_xerr(x, y, err, label)`. -/
def plot_xerr {α : Type} [StreamInsert α] (g : Gnuplot) (x y err : List α) (label : String) :
    Except Fault Gnuplot :=
  _plot g label LineStyle.X_ERROR_BARS false x [y, err]

/-- Method `plot_yerr(x, y, err, label)`. -/
def plot_yerr {α : Type} [StreamInsert α] (g : Gnuplot) (x y err : List α) (label : String) :
    Except Fault Gnuplot :=
  _plot g label LineStyle.Y_ERROR_BARS false x [y, err]

/-- Method `plot_xyerr(x, y, xerr, yerr, label)`. -/
def plot_xyerr {α : Type} [StreamInsert α] (g : Gnuplot) (x y xerr yerr : List α)
    (label : String) : Except Fault Gnuplot :=
  _plot g label LineStyle.XY_ERROR_BARS false x [y, xerr, yerr]

/-- Method `plot_vectors(x, y, vx, vy, label)`. -/
def plot_vectors {α : Type} [StreamInsert α] (g : Gnuplot) (x y vx vy : List α)
    (label : String) : Except Fault Gnuplot :=
  _plot g label LineStyle.VECTORS false x [y, vx, vy]

/-- Method `plot3d(x, y, z, label, style)` (the overload taking vectors). -/
def plot3d {α : Type} [StreamInsert α] (g : Gnuplot) (x y z : List α) (label : String)
    (style : LineStyle) : Except Fault Gnuplot :=
  _plot g label style true x [y, z]

/-- Method `plot_vectors3d(x, y, z, vx, vy, vz, label)`. -/
def plot_vectors3d {α : Type} [StreamInsert α] (g : Gnuplot) (x y z vx vy vz : List α)
    (label : String) : Except Fault Gnuplot :=
  _plot g label LineStyle.VECTORS true x [y, z, vx, vy, vz]

/-! ## Staging of 3D functions and annotated points -/

/-- Method `plot3d(func, label, use_color_gradient)` (the overload taking an
expression). -/
def plot3d_function (g : Gnuplot) (func : String) (label : String) (use_color_gradient : Bool) :
    Gnuplot :=
  let g := { g with is_3dplotfunc := true }
  { g with series3d := g.series3d ++ [⟨func, !use_color_gradient, label⟩] }

/-- Method `plot_dot(point, label)`. -/
def plot_dot (g : Gnuplot) (point : List ℚ) (label : String) : Gnuplot :=
  let g := { g with has_dot := true }
  { g with dots := g.dots ++ [⟨point, label⟩] }

/-! ## Machine integers -/

/-- Smallest value of `int`. -/
def INT_MIN : Int := -2147483648

/-- Largest value of `int`. -/
def INT_MAX : Int := 2147483647

/-- The conversion `static_cast<int>(x)` of a `double`: truncation toward zero,
undefined when the truncated value is not representable, in particular for a
NaN and for the infinities. -/
def static_cast_int : Double → Except Fault Int
  | .val x =>
    let t := x.num.tdiv x.den
    if INT_MIN ≤ t ∧ t ≤ INT_MAX then .ok t else .error Fault.undefined
  | .nzero => .ok 0
  | _ => .error Fault.undefined

/-- The conversion of a `size_t` to `int`, as in `int(nbins)` and
`(int)list_of_x.size()`: reduction modulo `2 ^ 32` into the range of `int`. -/
def int_of_size_t (n : Nat) : Int :=
  ((n : Int) + 2147483648) % 4294967296 - 2147483648

/-! ## Point accumulator -/

/-- The private `check_consistency()`: three assertions in sequence. -/
def check_consistency (g : Gnuplot) : Except Fault Unit :=
  if g.list_of_x.length != g.list_of_y.length then .error Fault.assertion
  else if g.list_of_xerr.length > 0 && g.list_of_xerr.length != g.list_of_x.length then
    .error Fault.assertion
  else if g.list_of_yerr.length > 0 && g.list_of_yerr.length != g.list_of_y.length then
    .error Fault.assertion
  else .ok ()

/-- Method `add_point_xerr(x, y, err)`. -/
def add_point_xerr (g : Gnuplot) (x y err : ℚ) : Except Fault Gnuplot :=
  match check_consistency g with
  | .error e => .error e
  | .ok () =>
    .ok { g with
      list_of_x := g.list_of_x ++ [x]
      list_of_y := g.list_of_y ++ [y]
      list_of_xerr := g.list_of_xerr ++ [err] }

/-- Method `add_point_yerr(x, y, err)`. -/
def add_point_yerr (g : Gnuplot) (x y err : ℚ) : Except Fault Gnuplot :=
  match check_consistency g with
  | .error e => .error e
  | .ok () =>
    .ok { g with
      list_of_x := g.list_of_x ++ [x]
      list_of_y := g.list_of_y ++ [y]
      list_of_yerr := g.list_of_yerr ++ [err] }

/-- Method `add_point_xyerr(x, y, xerr, yerr)`. -/
def add_point_xyerr (g : Gnuplot) (x y xerr yerr : ℚ) : Except Fault Gnuplot :=
  match check_consistency g with
  | .error e => .error e
  | .ok () =>
    .ok { g with
      list_of_x := g.list_of_x ++ [x]
      list_of_y := g.list_of_y ++ [y]
      list_of_xerr := g.list_of_xerr ++ [xerr]
      list_of_yerr := g.list_of_yerr ++ [yerr] }

/-- Method `add_point(x, y)`. -/
def add_point (g : Gnuplot) (x y : ℚ) : Except Fault Gnuplot :=
  match check_consistency g with
  | .error e => .error e
  | .ok () =>
    .ok { g with
      list_of_x := g.list_of_x ++ [x]
      list_of_y := g.list_of_y ++ [y] }

/-- Method `add_point(y)`: the abscissa is the current number of points. -/
def add_point_y (g : Gnuplot) (y : ℚ) : Except Fault Gnuplot :=
  add_point g (g.list_of_x.length : ℚ) y

/-- Method `get_num_of_points()`: the size converted by `(int)`. -/
def get_num_of_points (g : Gnuplot) : Except Fault Int :=
  match check_consistency g with
  | .error e => .error e
  | .ok () => .ok (int_of_size_t g.list_of_x.length)

/-- Method `get_points_x()`. -/
def get_points_x (g : Gnuplot) : List ℚ := g.list_of_x

/-- Method `get_points_y()`. -/
def get_points_y (g : Gnuplot) : List ℚ := g.list_of_y

/-- Method `plot(label, style)` on the accumulated points. -/
def plot_accumulated (g : Gnuplot) (label : String) (style : LineStyle) : Except Fault Gnuplot :=
  match check_consistency g with
  | .error e => .error e
  | .ok () => _plot g label style false g.list_of_x [g.list_of_y]

/-- Method `plot_xerr(label)` on the accumulated points. -/
def plot_xerr_accumulated (g : Gnuplot) (label : String) : Except Fault Gnuplot :=
  match check_consistency g with
  | .error e => .error e
  | .ok () => plot_xerr g g.list_of_x g.list_of_y g.list_of_xerr label

/-- Method `plot_yerr(label)` on the accumulated points. -/
def plot_yerr_accumulated (g : Gnuplot) (label : String) : Except Fault Gnuplot :=
  match check_consistency g with
  | .error e => .error e
  | .ok () => plot_yerr g g.list_of_x g.list_of_y g.list_of_yerr label

/-- Method `plot_xyerr(label)` on the accumulated points. -/
def plot_xyerr_accumulated (g : Gnuplot) (label : String) : Except Fault Gnuplot :=
  match check_consistency g with
  | .error e => .error e
  | .ok () => plot_xyerr g g.list_of_x g.list_of_y g.list_of_xerr g.list_of_yerr label

/-! ## Histogram -/

/-- The value `*std::min_element(values.begin(), values.end())`: the first
element no later element is below, compared with `<` of `double`; the list is
non-empty at the only call. -/
def min_element : List Double → Double
  | [] => 0
  | x :: xs => xs.foldl (fun smallest v => if v.lt smallest then v else smallest) x

/-- The value `*std::max_element(values.begin(), values.end())`; the list is
non-empty at the only call. -/
def max_element : List Double → Double
  | [] => 0
  | x :: xs => xs.foldl (fun largest v => if largest.lt v then v else largest) x

/-- The bin index of one value, lines 452 to 454: the quotient, computed in
`double`, converted to `int`, and decremented when it reaches `int(nbins)`.
Decrementing `INT_MIN` overflows, which is undefined. -/
def bin_index (min binwidth : Double) (nbins : Nat) (val : Double) : Except Fault Int :=
  match static_cast_int ((val - min) / binwidth) with
  | .error e => .error e
  | .ok index =>
    if index ≥ int_of_size_t nbins then
      if index = INT_MIN then .error Fault.undefined else .ok (index - 1)
    else .ok index

/-- The statement `bins.at(index)++`: the `int` index converts to `size_t`, so
a negative one is out of range like one past the end. -/
def vector_at_incr (bins : List Nat) (index : Int) : Except Fault (List Nat) :=
  if 0 ≤ index ∧ index.toNat < bins.length then
    .ok (bins.set index.toNat (bins.getD index.toNat 0 + 1))
  else .error Fault.out_of_range

/-- The counting loop `for (const auto& val : values)`. -/
def histogram_count (min binwidth : Double) (nbins : Nat) :
    List Double → List Nat → Except Fault (List Nat)
  | [], bins => .ok bins
  | val :: rest, bins =>
    match bin_index min binwidth nbins val with
    | .error e => .error e
    | .ok index =>
      match vector_at_incr bins index with
      | .error e => .error e
      | .ok bins => histogram_count min binwidth nbins rest bins

/-- The output loop `for (size_t i = 0; i < nbins; ++i)`, started at `i` with
`n` rows left; `bins` has `nbins` entries, so `bins[i]` is in range.  In
`i + 0.5` the index is converted to `double`. -/
def histogram_rows (min binwidth : Double) (bins : List Nat) : Nat → Nat → String → String
  | 0, _, os => os
  | n + 1, i, os =>
    histogram_rows min binwidth bins n (i + 1)
      (os ++ render (min + binwidth * (Double.ofNat i + Double.val (1 / 2))) ++ " "
        ++ render (bins.getD i 0) ++ "\n")

/-- Method `histogram(values, nbins, label, style)` for `T = double`.  In
`(max - min) / nbins` the bin count is converted to `double`. -/
def histogram (g : Gnuplot) (values : List Double) (nbins : Nat) (label : String)
    (style : LineStyle) : Except Fault Gnuplot :=
  if ¬ (nbins > 0) then .error Fault.assertion
  else if values.isEmpty then .ok g
  else if !g.series.isEmpty && g.is_3dplot then .error Fault.assertion
  else
    let min := min_element values
    let max := max_element values
    let binwidth := (max - min) / Double.ofNat nbins
    match histogram_count min binwidth nbins values (List.replicate nbins 0) with
    | .error e => .error e
    | .ok bins =>
      let os := histogram_rows min binwidth bins nbins 0 ""
      .ok { g with
        series := g.series ++ [⟨os, style, label, "1:2"⟩]
        is_3dplot := false }

/-! ## Composition of the script: `show` -/

/-- The loop of `show` writing one named data block per pending series,
started at series number `i`. -/
def show_blocks : List GnuplotSeries → Nat → String → String
  | [], _, os => os
  | s :: rest, i, os =>
    show_blocks rest (i + 1)
      (os ++ "$Datablock" ++ toString i ++ " << EOD\n" ++ s.data_string ++ "\nEOD\n")

/-- The loop of `show` writing one clause of the plot statement per pending
series; `size` is `series.size()`. -/
def show_clauses (size : Nat) : List GnuplotSeries → Nat → String → String
  | [], _, os => os
  | s :: rest, i, os =>
    let os := os ++ "$Datablock" ++ toString i ++ " using " ++ s.column_range ++ " with "
      ++ style_to_str s.line_style ++ " title '" ++ escape_quotes s.title ++ "'"
    let os := if i + 1 < size then os ++ ", " else os
    show_clauses size rest (i + 1) os

/-- The loop of `show` defining one engine-side function per registered
expression. -/
def show_functions : List Gnuplot3dFunctionSeries → Nat → String → String
  | [], _, os3d => os3d
  | s :: rest, i, os3d =>
    show_functions rest (i + 1) (os3d ++ "\nf" ++ toString (i + 1) ++ "(x,y)=" ++ s.function_string)

/-- The loop of `show` writing one parametric surface per registered
expression; `size` is `series3d.size()`. -/
def show_surfaces (size : Nat) : List Gnuplot3dFunctionSeries → Nat → String → String
  | [], _, os3d => os3d
  | s :: rest, i, os3d =>
    let os3d := os3d ++ "u, v, f" ++ toString (i + 1) ++ "(u,v)" ++ " title '" ++ s.title ++ "'"
    let os3d := if !s.is_plane then os3d ++ " with pm3d" else os3d
    let os3d := if i + 1 < size then os3d ++ ", \\\n" else os3d
    show_surfaces size rest (i + 1) os3d

/-- The loop of `show` over the staged points: each reads `coordinates[0]`,
`coordinates[1]` and `coordinates[2]`. -/
def show_dots : List GnuplotDots → String → Except Fault String
  | [], os3d => .ok os3d
  | point :: rest, os3d =>
    match point.coordinates[0]?, point.coordinates[1]?, point.coordinates[2]? with
    | some c0, some c1, some c2 =>
      show_dots rest
        (os3d ++ ", '-'  with points pt 7 lc rgb 'red' title '" ++ point.title ++ "'\n"
          ++ render c0 ++ " " ++ render c1 ++ " " ++ render c2)
    | _, _, _ => .error Fault.undefined

/-- Method `show(call_reset)`: the new session and the returned flag. -/
def show_ (g : Gnuplot) (call_reset : Bool) : Except Fault (Gnuplot × Bool) :=
  let g := { g with useAutoshow := false }
  let result := false
  let os := "" ++ "set style fill transparent solid 0.5\n"
  let os := show_blocks g.series 0 os
  if g.is_3dplotfunc then
    let fs3d := "" ++ "set xrange " ++ g.xrange ++ "\n"
      ++ "set yrange " ++ g.yrange ++ "\n"
      ++ "set zrange " ++ g.zrange ++ "\n"
    let g := (sendcommand g fs3d).1
    let os3d := show_functions g.series3d 0 g.os3d
    let os3d := os3d ++ "\nset samples 100"
    let os3d := os3d ++ "\nset isosamples 301"
    let os3d := os3d ++ "\nset hidden3d"
    let os3d := os3d ++ "\nset parametric"
    let os3d := os3d ++ "\nset urange " ++ g.xrange
    let os3d := os3d ++ "\nset vrange " ++ g.yrange
    let os3d := os3d ++ "\nsplot "
    let os3d := show_surfaces g.series3d.length g.series3d 0 os3d
    let dotted : Except Fault String :=
      if g.has_dot then
        match show_dots g.dots os3d with
        | .error e => .error e
        | .ok os3d => .ok (os3d ++ "\ne")
      else .ok os3d
    match dotted with
    | .error e => .error e
    | .ok os3d =>
      let g := { g with os3d := os3d }
      let g := (sendcommand g os3d).1
      let g := if result && call_reset then reset g else g
      .ok (g, result)
  else
    let os :=
      if g.is_3dplot then
        let os := os ++ "set hidden3d\n"
        let os := os ++ "set dgrid3d 40,40\nset pm3d \n"
        os ++ "splot " ++ g.xrange ++ " " ++ g.yrange ++ " " ++ g.zrange ++ " "
      else
        os ++ "plot " ++ g.xrange ++ " " ++ g.yrange ++ " "
    let os := show_clauses g.series.length g.series 0 os
    let sent := sendcommand g os
    let g := sent.1
    let result := sent.2
    let g := if result && call_reset then reset g else g
    .ok (g, result)

/-! ## Reading a data block back (the reader side of the round trip) -/

/-- Split a text into its newline-terminated rows; `cur` is the row being
read, reversed.  Text after the last newline, if any, is a last row. -/
def splitRowsAux : List Char → List Char → List (List Char)
  | [], cur => if cur.isEmpty then [] else [cur.reverse]
  | ch :: cs, cur =>
    if ch = '\n' then cur.reverse :: splitRowsAux cs [] else splitRowsAux cs (ch :: cur)

/-- The rows of a data block. -/
def splitRows (block : String) : List (List Char) :=
  splitRowsAux block.data []

/-- Split a row into its whitespace-separated tokens; `cur` is the token being
read, reversed. -/
def tokensAux : List Char → List Char → List (List Char)
  | [], cur => if cur.isEmpty then [] else [cur.reverse]
  | ch :: cs, cur =>
    if ch.isWhitespace then
      if cur.isEmpty then tokensAux cs [] else cur.reverse :: tokensAux cs []
    else tokensAux cs (ch :: cur)

/-- The whitespace-separated tokens of a row. -/
def tokens (row : List Char) : List (List Char) :=
  tokensAux row []

/-- Value of a decimal digit character. -/
def digitValue (ch : Char) : Option Nat :=
  if ch.isDigit then some (ch.toNat - 48) else none

/-- Read decimal digits left to right onto the value `acc`. -/
def parseNatAux : Nat → List Char → Option Nat
  | acc, [] => some acc
  | acc, ch :: cs =>
    match digitValue ch with
    | none => none
    | some v => parseNatAux (10 * acc + v) cs

/-- Read an unsigned decimal numeral: at least one digit and only digits. -/
def parseNat (cs : List Char) : Option Nat :=
  if cs.isEmpty then none else parseNatAux 0 cs

/-- Read a decimal integer: an optional minus sign and an unsigned numeral. -/
def parseInt : List Char → Option Int
  | '-' :: cs => (parseNat cs).map fun (n : Nat) => -(n : Int)
  | cs => (parseNat cs).map fun (n : Nat) => (n : Int)

/-- Read a data block back: its rows, each as the list of its tokens read as
integers. -/
def parseBlock (block : String) : List (List (Option Int)) :=
  (splitRows block).map fun row => (tokens row).map parseInt

/-- The number a list of decimal digits denotes. -/
def digitsValue (cs : List Char) : Nat :=
  cs.foldl (fun acc ch => 10 * acc + (ch.toNat - 48)) 0

/-! ### Reading the text of a `double` back -/

/-- The rational `a * 10 ^ k`. -/
def scale10 (a : ℚ) (k : Int) : ℚ :=
  if 0 ≤ k then a * ((10 ^ k.toNat : Nat) : ℚ) else a / ((10 ^ (-k).toNat : Nat) : ℚ)

/-- Read a mantissa: digits, then optionally a decimal point and digits. -/
def parseMantissa (cs : List Char) : Option ℚ :=
  match parseNat (cs.takeWhile Char.isDigit), cs.dropWhile Char.isDigit with
  | some a, [] => some (a : ℚ)
  | some a, '.' :: fp =>
    (parseNat fp).map fun (b : Nat) => (a : ℚ) + (b : ℚ) / ((10 ^ fp.length : Nat) : ℚ)
  | _, _ => none

/-- Read a decimal exponent: a sign and digits. -/
def parseExponent : List Char → Option Int
  | '+' :: ds => (parseNat ds).map fun (n : Nat) => (n : Int)
  | '-' :: ds => (parseNat ds).map fun (n : Nat) => -(n : Int)
  | _ => none

/-- Read an unsigned decimal numeral in fixed or scientific notation: the exact
value it denotes. -/
def parseUnsigned (cs : List Char) : Option ℚ :=
  match parseMantissa (cs.takeWhile fun ch => ch != 'e'), cs.dropWhile fun ch => ch != 'e' with
  | some a, [] => some a
  | some a, _ :: ex => (parseExponent ex).map fun (k : Int) => scale10 a k
  | _, _ => none

/-- Read a decimal numeral with an optional minus sign: the exact value it
denotes. -/
def parseDecimal : List Char → Option ℚ
  | '-' :: rest => (parseUnsigned rest).map fun (q : ℚ) => -q
  | cs => parseUnsigned cs

/-- Read a token as a `double`, as `strtod` does: `nan`, `-nan`, `inf`,
`-inf`, or a decimal numeral with an optional minus sign, converted to the
nearest `double`. -/
def parseDouble (cs : List Char) : Option Double :=
  if cs = ['n', 'a', 'n'] then some .nan
  else if cs = ['-', 'n', 'a', 'n'] then some .nnan
  else if cs = ['i', 'n', 'f'] then some .pinf
  else if cs = ['-', 'i', 'n', 'f'] then some .ninf
  else
    match cs with
    | '-' :: rest => (parseUnsigned rest).map fun (q : ℚ) => (round64 q).neg
    | _ => (parseUnsigned cs).map round64

/-- Read a data block back: its rows, each as the list of its tokens read as
`double`s. -/
def parseBlockDouble (block : String) : List (List (Option Double)) :=
  (splitRows block).map fun row => (tokens row).map parseDouble

/-- The six significant digits `m` and the decimal exponent `X` that
`operator<<` prints for `n / d > 0`: `100000 ≤ m < 1000000` and the printed
value is `m * 10 ^ (X - 5)`. -/
def sixDigits (n d : Nat) : Nat × Int :=
  let X0 := decimalExponent n d
  let m0 := significand6 n d X0
  (if m0 = 1000000 then 100000 else m0, if m0 = 1000000 then X0 + 1 else X0)

/-- The text of six digits `m` with decimal exponent `X`: fixed notation when
`-4 ≤ X < 6`, scientific notation otherwise. -/
def formatDigits (m : Nat) (X : Int) : String :=
  let ds := Nat.toDigits 10 m
  if -4 ≤ X ∧ X < 6 then
    if 0 ≤ X then
      String.mk (ds.take (X.toNat + 1)) ++ fractionText (ds.drop (X.toNat + 1))
    else
      "0." ++ String.mk (List.replicate ((-X).toNat - 1) '0') ++ String.mk (stripTrailingZeros ds)
  else
    String.mk (ds.take 1) ++ fractionText (ds.drop 1) ++ "e" ++ (if X < 0 then "-" else "+")
      ++ (if X.natAbs < 10 then "0" else "") ++ toString X.natAbs

/-- The value `q > 0` rounded to six significant decimal digits, as
`operator<<` prints it. -/
def sixDigitValue (q : ℚ) : ℚ :=
  scale10 ((sixDigits q.num.natAbs q.den).1 : ℚ) ((sixDigits q.num.natAbs q.den).2 - 5)

/-- A value rounded to six significant decimal digits, ties to even. -/
def sixDigitRounding (q : ℚ) : ℚ :=
  if q = 0 then 0 else if q < 0 then -sixDigitValue (-q) else sixDigitValue q

/-- The relation "`r` is `q` rounded to six significant decimal digits", stated
without reference to the way it is computed: with `X` the decimal exponent of
`q ≠ 0`, `r` is a multiple of `10 ^ (X - 5)`, the unit of the sixth
significant digit of `q`, and lies within half that unit of `q`. -/
def IsSixDigitRounding (q r : ℚ) : Prop :=
  ∃ X : Int, (10 : ℚ) ^ X ≤ |q| ∧ |q| < (10 : ℚ) ^ (X + 1) ∧
    (∃ k : Nat, |r| = (k : ℚ) * (10 : ℚ) ^ (X - 5)) ∧
    2 * |r - q| ≤ (10 : ℚ) ^ (X - 5)

/-- What reading the printed text of a `double` gives back: for a finite
non-zero value the `double` nearest to its rounding to six significant decimal
digits, with its sign; zeros, infinities and NaN as they are. -/
def readBack : Double → Double
  | .val q =>
    if q = 0 then .val 0
    else if q < 0 then (round64 (sixDigitValue (-q))).neg
    else round64 (sixDigitValue q)
  | x => x

/-- A rational that is the value of a finite `double`: rounding leaves it as
it is. -/
def IsDouble (q : ℚ) : Prop := round64 q = Double.val q

instance (q : ℚ) : Decidable (IsDouble q) := by
  unfold IsDouble
  infer_instance

/-- A value with at most six significant decimal digits: zero, or `M * 10 ^ K`
in magnitude for a six-digit number `M`. -/
def SixDigit (q : ℚ) : Prop :=
  q = 0 ∨ ∃ (M : Nat) (K : Int), 100000 ≤ M ∧ M < 1000000 ∧ |q| = scale10 (M : ℚ) K

/-! ## Specification vocabulary for the series encoder -/

/-- The values of the sequences at index `i`, in argument order; a sequence
too short to have one contributes nothing. -/
def valuesAt {α : Type} (cols : List (List α)) (i : Nat) : List α :=
  cols.filterMap fun s => s[i]?

/-- Row `i` of a data block in the words of the specification: the rendered
values of the sequences at index `i`, in argument order, each followed by one
space. -/
def rowText {α : Type} [StreamInsert α] (cols : List (List α)) (i : Nat) : String :=
  String.join ((valuesAt cols i).map fun x => render x ++ " ")

/-- The column-range descriptor of `n` columns in the words of the
specification: the 1-based indices `1..n` joined by `:`. -/
def columnDescriptor (n : Nat) : String :=
  String.intercalate ":" ((List.range' 1 n).map toString)

/-- The dimensionality check of `_plot` and `histogram` passes: nothing is
pending, or the session flag agrees with the new series. -/
def dimOk (g : Gnuplot) (d : Bool) : Prop :=
  g.series = [] ∨ g.is_3dplot = d

instance (g : Gnuplot) (d : Bool) : Decidable (dimOk g d) := by
  unfold dimOk; infer_instance

/-- Text written to `fmts` on the first row for `n` columns numbered from `idx`. -/
def fmtFrom (idx n : Nat) : String :=
  String.join ((List.range' idx n).map fun k => (if k > 1 then ":" else "") ++ toString k)


/-! ## Vocabulary for splitting a block -/

/-- A word: non-empty and free of whitespace. -/
def IsWord (w : List Char) : Prop :=
  w ≠ [] ∧ ∀ ch ∈ w, ch.isWhitespace = false

/-- The characters of a row made of the given words, each followed by a space. -/
def rowChars (ws : List (List Char)) : List Char :=
  (ws.map fun w => w ++ [' ']).flatten

/-- The characters of a block made of the given rows, each followed by a newline. -/
def blockChars (rows : List (List (List Char))) : List Char :=
  (rows.map fun ws => rowChars ws ++ ['\n']).flatten

/-! ## Vocabulary for the point accumulator -/

/-- The accumulated sequences violate one of the three conditions asserted by
`check_consistency`. -/
def Inconsistent (g : Gnuplot) : Prop :=
  g.list_of_x.length ≠ g.list_of_y.length ∨
  (g.list_of_xerr ≠ [] ∧ g.list_of_xerr.length ≠ g.list_of_x.length) ∨
  (g.list_of_yerr ≠ [] ∧ g.list_of_yerr.length ≠ g.list_of_y.length)

instance (g : Gnuplot) : Decidable (Inconsistent g) := by
  unfold Inconsistent; infer_instance

/-- The session after `add_point_xerr(1, 1, 0.5)` and then `add_point(2, 2)` on a
freshly constructed session: two points, one x error. -/
def mixedAccumulator : Gnuplot :=
  match (add_point_xerr (construct true false) 1 1 (1 / 2)).bind fun g => add_point g 2 2 with
  | .ok g => g
  | .error _ => construct true false

/-! ## Vocabulary for the histogram -/

/-- The floor of a `double` that has one: of a finite value. -/
def floorOf : Double → Option Int
  | .val q => some ⌊q⌋
  | .nzero => some 0
  | _ => none

/-- The bin of a value in the words of the specification, the arithmetic being
that of `double`: the floor of `(v - min) / binwidth`, an index equal to `nbins`
being folded into `nbins - 1`; none when the quotient is NaN or an infinity. -/
def binOf (min binwidth : Double) (nbins : Nat) (v : Double) : Option Int :=
  (floorOf ((v - min) / binwidth)).map fun k =>
    if k = (nbins : Int) then (nbins : Int) - 1 else k

/-- Number of values whose bin is `i`. -/
def binCount (min binwidth : Double) (nbins : Nat) (values : List Double) (i : Nat) : Nat :=
  values.countP fun v => decide (binOf min binwidth nbins v = some (i : Int))

/-- Row `i` of a histogram block: the bin center `min + binwidth * (i + 0.5)`
in `double` arithmetic, a space, the count, a newline. -/
def histogramRow (min binwidth : Double) (count : Nat) (i : Nat) : String :=
  render (min + binwidth * (Double.ofNat i + Double.val (1 / 2))) ++ " " ++ render count ++ "\n"

/-- The bin width `(max - min) / nbins` of a call, in `double` arithmetic. -/
def binWidth (values : List Double) (nbins : Nat) : Double :=
  (max_element values - min_element values) / Double.ofNat nbins

/-- Whether every index the counting loop computes for `values` is a valid
index of the `nbins` bins (no NaN or infinite quotient, no index outside
`[0, nbins - 1]`). -/
def binsInRange (min binwidth : Double) (nbins : Nat) (values : List Double) : Bool :=
  values.all fun v =>
    match bin_index min binwidth nbins v with
    | .ok k => decide (0 ≤ k ∧ k < (nbins : Int))
    | .error _ => false

/-- A `double` that is not a negative finite value. -/
def Double.NotNegative (x : Double) : Prop :=
  ∀ q, x = .val q → 0 ≤ q

/-! ## Reachable sessions -/

/-- The sessions reachable from construction, each with the list of the
dimensionalities its pending series were added with (`true` for 3D), oldest
first.  The steps are a call of `_plot` (reached from `plot`, `plot_xerr`,
`plot_yerr`, `plot_xyerr`, `plot_vectors`, `plot3d`, `plot_vectors3d` and the
accumulator variants), of `histogram`, of `show`, of `reset`, and any step that
leaves the pending series and the flag as they are (the setters, the point
accumulator, `plot3d` on an expression, `plot_dot`, a call on an empty
sequence). -/
inductive Reachable : Gnuplot → List Bool → Prop
  | start (opened has_dot : Bool) : Reachable (construct opened has_dot) []
  | plot {α : Type} [StreamInsert α] {g g1 : Gnuplot} {dims : List Bool} (label : String)
      (style : LineStyle) (d : Bool) (v : List α) (args : List (List α)) :
      Reachable g dims → v ≠ [] → _plot g label style d v args = .ok g1 →
      Reachable g1 (dims ++ [d])
  | histogram {g g1 : Gnuplot} {dims : List Bool} (values : List Double) (nbins : Nat)
      (label : String) (style : LineStyle) :
      Reachable g dims → values ≠ [] → histogram g values nbins label style = .ok g1 →
      Reachable g1 (dims ++ [false])
  | show_ {g g1 : Gnuplot} {dims : List Bool} (call_reset result : Bool) :
      Reachable g dims → show_ g call_reset = .ok (g1, result) →
      Reachable g1 (if result && call_reset then [] else dims)
  | reset {g : Gnuplot} {dims : List Bool} :
      Reachable g dims → Reachable (reset g) []
  | other {g g1 : Gnuplot} {dims : List Bool} :
      Reachable g dims → g1.series = g.series → g1.is_3dplot = g.is_3dplot →
      Reachable g1 dims

/-- The session after `plot3d([1], [2], [3])` on a freshly constructed session:
one pending 3D series. -/
def session3d : Gnuplot :=
  match plot3d (construct true false) [(1 : Int)] [2] [3] "" LineStyle.LINES with
  | .ok g => g
  | .error _ => construct true false

/-! ## Vocabulary for ranges and quoting -/

/-- One bound of a range in the words of the specification: `*` when unset,
else the value as the stream renders it. -/
def boundText : Double → String
  | .nan => "*"
  | .nnan => "*"
  | .val q => renderDouble q
  | .pinf => "inf"
  | .ninf => "-inf"
  | .nzero => "-0"

/-- Replace every doubled single quote by one single quote, left to right. -/
def collapseQuotes : List Char → List Char
  | '\'' :: '\'' :: rest => '\'' :: collapseQuotes rest
  | ch :: rest => ch :: collapseQuotes rest
  | [] => []

/-! ## Sequences of accumulator calls -/

/-- One call of the point accumulator. -/
inductive AccOp
  /-- the call `add_point(x, y)` -/
  | add_point (x y : ℚ)
  /-- the call `add_point(y)` -/
  | add_point_y (y : ℚ)
  /-- the call `add_point_xerr(x, y, err)` -/
  | add_point_xerr (x y err : ℚ)
  /-- the call `add_point_yerr(x, y, err)` -/
  | add_point_yerr (x y err : ℚ)
  /-- the call `add_point_xyerr(x, y, xerr, yerr)` -/
  | add_point_xyerr (x y xerr yerr : ℚ)
  deriving DecidableEq

/-- Perform one accumulator call. -/
def AccOp.apply : AccOp → Gnuplot → Except Fault Gnuplot
  | .add_point x y, g => GnuplotHpp.add_point g x y
  | .add_point_y y, g => GnuplotHpp.add_point_y g y
  | .add_point_xerr x y err, g => GnuplotHpp.add_point_xerr g x y err
  | .add_point_yerr x y err, g => GnuplotHpp.add_point_yerr g x y err
  | .add_point_xyerr x y xerr yerr, g => GnuplotHpp.add_point_xyerr g x y xerr yerr

/-- Perform accumulator calls in order, stopping at the first that fails. -/
def run_ops : List AccOp → Gnuplot → Except Fault Gnuplot
  | [], g => .ok g
  | op :: rest, g =>
    match op.apply g with
    | .error e => .error e
    | .ok g1 => run_ops rest g1

/-- The four accumulator sequences are empty. -/
def EmptyAccumulator (g : Gnuplot) : Prop :=
  g.list_of_x = [] ∧ g.list_of_y = [] ∧ g.list_of_xerr = [] ∧ g.list_of_yerr = []

/-! ## Vocabulary for the script composed by `show` -/

/-- The named data block of pending series number `i`. -/
def blockText (i : Nat) (s : GnuplotSeries) : String :=
  "$Datablock" ++ toString i ++ " << EOD\n" ++ s.data_string ++ "\nEOD\n"

/-- The clause of the plot statement for pending series number `i`. -/
def clauseText (i : Nat) (s : GnuplotSeries) : String :=
  "$Datablock" ++ toString i ++ " using " ++ s.column_range ++ " with "
    ++ style_to_str s.line_style ++ " title '" ++ escape_quotes s.title ++ "'"

/-- The opening of the plot statement: `plot` with the x and y ranges for a 2D
session; the three surface directives and `splot` with the three ranges for a
3D session. -/
def plotHeader (g : Gnuplot) : String :=
  if g.is_3dplot then
    "set hidden3d\n" ++ "set dgrid3d 40,40\nset pm3d \n"
      ++ "splot " ++ g.xrange ++ " " ++ g.yrange ++ " " ++ g.zrange ++ " "
  else
    "plot " ++ g.xrange ++ " " ++ g.yrange ++ " "

/-- The script of the point-series branch in the words of the specification:
the fill-style directive, the named blocks in order, the opening of the plot
statement, and the clauses joined by a comma and a space. -/
def pointScript (g : Gnuplot) : String :=
  "set style fill transparent solid 0.5\n"
    ++ String.join (g.series.enum.map fun p => blockText p.1 p.2)
    ++ plotHeader g
    ++ String.intercalate ", " (g.series.enum.map fun p => clauseText p.1 p.2)

/-- The three range assignments `show` sends first in function mode. -/
def rangesText (g : Gnuplot) : String :=
  "" ++ "set xrange " ++ g.xrange ++ "\n"
    ++ "set yrange " ++ g.yrange ++ "\n"
    ++ "set zrange " ++ g.zrange ++ "\n"

/-- The function-plot script `show` builds in function mode (lines 511 to 547),
written onto the buffer `os3d`; it reads the session only through the
registered functions, the x and y ranges and the staged points. -/
def function_script (series3d : List Gnuplot3dFunctionSeries) (xrange yrange : String)
    (has_dot : Bool) (dots : List GnuplotDots) (os3d : String) : Except Fault String :=
  let os3d := show_functions series3d 0 os3d
  let os3d := os3d ++ "\nset samples 100"
  let os3d := os3d ++ "\nset isosamples 301"
  let os3d := os3d ++ "\nset hidden3d"
  let os3d := os3d ++ "\nset parametric"
  let os3d := os3d ++ "\nset urange " ++ xrange
  let os3d := os3d ++ "\nset vrange " ++ yrange
  let os3d := os3d ++ "\nsplot "
  let os3d := show_surfaces series3d.length series3d 0 os3d
  if has_dot then
    match show_dots dots os3d with
    | .error e => .error e
    | .ok os3d => .ok (os3d ++ "\ne")
  else .ok os3d

/-- In function mode, `show` on session `g` sent the script `t` and ended in
session `g1`: the ranges were sent, `t` was stored in `os3d` and sent. -/
def SentFunctionScript (g : Gnuplot) (t : String) (g1 : Gnuplot) : Prop :=
  g1 = (sendcommand
    { (sendcommand { g with useAutoshow := false } (rangesText g)).1 with os3d := t } t).1

/-- The overlay statement of one staged point in the words of the
specification: the inline-data clause with the title, a newline, and the
coordinates of the point separated by spaces. -/
def overlayText (p : GnuplotDots) : String :=
  ", '-'  with points pt 7 lc rgb 'red' title '" ++ p.title ++ "'\n"
    ++ String.intercalate " " (p.coordinates.map render)

/-- The function definitions `show` writes, on an empty buffer. -/
def functionsText (l : List Gnuplot3dFunctionSeries) (i : Nat) : String :=
  show_functions l i ""

/-- The surfaces of the `splot` statement `show` writes, on an empty buffer. -/
def surfacesText (size : Nat) (l : List Gnuplot3dFunctionSeries) (i : Nat) : String :=
  show_surfaces size l i ""

/-- The overlay statements `show` writes, on an empty buffer. -/
def dotsText (l : List GnuplotDots) : Except Fault String :=
  show_dots l ""

/-- The definition of registered function number `i`, as `show` writes it. -/
def functionDefText (i : Nat) (s : Gnuplot3dFunctionSeries) : String :=
  "\nf" ++ toString (i + 1) ++ "(x,y)=" ++ s.function_string

/-- The surface of the `splot` statement for registered function number `i`. -/
def surfaceText (i : Nat) (s : Gnuplot3dFunctionSeries) : String :=
  "u, v, f" ++ toString (i + 1) ++ "(u,v)" ++ " title '" ++ s.title ++ "'"
    ++ (if s.is_plane then "" else " with pm3d")

/-- The overlay statement `show` writes for a staged point: the inline-data
clause with the title, a newline, and the first three coordinates separated by
spaces. -/
def overlayHead (p : GnuplotDots) : String :=
  ", '-'  with points pt 7 lc rgb 'red' title '" ++ p.title ++ "'\n"
    ++ String.intercalate " " ((p.coordinates.take 3).map render)

/-- The text one call of `show` in function mode adds to the buffer `os3d`:
the function definitions, the sampling and parametric settings with the u and
v ranges, the `splot` statement with one surface per function, and, with
staged points, their overlay statements and the end-of-data mark. -/
def functionPlotText (g : Gnuplot) : String :=
  String.join (g.series3d.enum.map fun p => functionDefText p.1 p.2)
    ++ "\nset samples 100" ++ "\nset isosamples 301" ++ "\nset hidden3d" ++ "\nset parametric"
    ++ "\nset urange " ++ g.xrange ++ "\nset vrange " ++ g.yrange ++ "\nsplot "
    ++ String.intercalate ", \\\n" (g.series3d.enum.map fun p => surfaceText p.1 p.2)
    ++ (if g.has_dot then String.join (g.dots.map overlayHead) ++ "\ne" else "")

/-- The text one call of `show` in function mode writes to an open channel, for
a session `g` and the script `script` it sends: the three range assignments
and the script, each ended by the newline `sendcommand` adds. -/
def sentText (g : Gnuplot) (script : String) : String :=
  rangesText g ++ "\n" ++ script ++ "\n"

/-- Whether a text has no NUL character, so that `c_str()` is the whole text. -/
def NulFree (s : String) : Prop := Char.ofNat 0 ∉ s.data

instance (s : String) : Decidable (NulFree s) := by
  unfold NulFree
  infer_instance

/-! ## Sample sessions in function mode -/

/-- The session after `plot3d("x*y", "f")` on a freshly constructed session with
an open channel: one registered function. -/
def functionSession : Gnuplot :=
  plot3d_function (construct true true) "x*y" "f" false

/-- The session `functionSession` after `plot_dot({1, 2, 3}, "p")`. -/
def dottedSession : Gnuplot :=
  plot_dot functionSession [1, 2, 3] "p"

/-- The session after `plot3d("x*y", "f")` on a freshly constructed session whose
channel could not be opened. -/
def closedFunctionSession : Gnuplot :=
  plot3d_function (construct false false) "x*y" "f" false

/-- The session after `plot3d` of an expression with a NUL character between
`x` and `y`, on a freshly constructed session with an open channel. -/
def nulFunctionSession : Gnuplot :=
  plot3d_function (construct true false) (String.mk ['x', Char.ofNat 0, 'y']) "f" false

/-- The session a `show(true)` leaves, or the session itself if `show` does
not return. -/
def afterShow (g : Gnuplot) : Gnuplot :=
  match show_ g true with
  | .ok p => p.1
  | .error _ => g

/-- The session after `plot([1, 2], [3, 4], "a'b")` on a freshly constructed
session with an open channel. -/
def plottedSession : Gnuplot :=
  match plot (construct true false) [(1 : Int), 2] [3, 4] "a'b" LineStyle.LINES with
  | .ok g => g
  | .error _ => construct true false

/-! ## Helper lemmas on strings -/

theorem join_nil : String.join [] = "" := rfl

theorem join_cons (a : String) (l : List String) :
    String.join (a :: l) = a ++ String.join l := by
  apply String.ext
  simp [String.data_join, String.data_append]

theorem join_append (l₁ l₂ : List String) :
    String.join (l₁ ++ l₂) = String.join l₁ ++ String.join l₂ := by
  apply String.ext
  simp [String.data_join, String.data_append]

theorem str_empty_append (s : String) : "" ++ s = s := by
  apply String.ext; simp [String.data_append]

theorem intercalate_go_eq (acc sep : String) (l : List String) :
    String.intercalate.go acc sep l = acc ++ String.join (l.map fun a => sep ++ a) := by
  induction l generalizing acc with
  | nil => simp [String.intercalate.go, join_nil]
  | cons a l ih =>
    simp only [String.intercalate.go, List.map_cons, join_cons, ih]
    simp [String.append_assoc]

theorem fmtFrom_zero (idx : Nat) : fmtFrom idx 0 = "" := rfl

theorem fmtFrom_succ (idx n : Nat) :
    fmtFrom idx (n + 1) = ((if idx > 1 then ":" else "") ++ toString idx) ++ fmtFrom (idx + 1) n := by
  simp [fmtFrom, List.range'_succ, join_cons]

theorem fmtFrom_one (n : Nat) : fmtFrom 1 n = columnDescriptor n := by
  cases n with
  | zero => rfl
  | succ n =>
    rw [fmtFrom_succ]
    simp only [columnDescriptor, List.range'_succ, List.map_cons, String.intercalate,
      intercalate_go_eq]
    have h : ∀ k ∈ List.range' 2 n, ((if k > 1 then ":" else "") ++ toString k)
        = ":" ++ toString k := by
      intro k hk
      have : 2 ≤ k := (List.mem_range'_1.mp hk).1
      rw [if_pos (by omega)]
    simp only [fmtFrom, List.map_map]
    rw [List.map_congr_left h]
    simp [str_empty_append]
    rfl

/-! ## The series encoder -/

theorem rowText_nil {α : Type} [StreamInsert α] (i : Nat) :
    rowText ([] : List (List α)) i = "" := rfl

theorem rowText_cons {α : Type} [StreamInsert α] (v : List α) (args : List (List α)) (i : Nat)
    (x : α) (h : v[i]? = some x) :
    rowText (v :: args) i = (render x ++ " ") ++ rowText args i := by
  simp [rowText, valuesAt, List.filterMap_cons, h, join_cons]

/-- With every column long enough, `_print_ith_elements` appends row `i` to `os`
and, on the first row only, the numbered columns to `fmts`. -/
theorem print_ith_in_bounds {α : Type} [StreamInsert α] (cols : List (List α)) (os fmts : String)
    (idx i : Nat) (h : ∀ s ∈ cols, i < s.length) :
    _print_ith_elements os fmts idx i cols
      = .ok (os ++ rowText cols i, if i = 0 then fmts ++ fmtFrom idx cols.length else fmts) := by
  induction cols generalizing os fmts idx with
  | nil =>
    simp [_print_ith_elements, rowText_nil, fmtFrom_zero]
  | cons v args ih =>
    have hv : i < v.length := h v (List.mem_cons_self _ _)
    have hx : v[i]? = some v[i] := List.getElem?_eq_getElem hv
    have hargs : ∀ s ∈ args, i < s.length := fun s hs => h s (List.mem_cons_of_mem _ hs)
    simp only [_print_ith_elements, hx]
    rw [ih _ _ _ hargs, rowText_cons v args i _ hx, List.length_cons, fmtFrom_succ]
    by_cases hi : i = 0
    · by_cases h1 : idx > 1 <;> simp [hi, h1, String.append_assoc, str_empty_append]
    · simp [hi, String.append_assoc]

/-- If `_print_ith_elements` returns, every column has an element at `i`. -/
theorem print_ith_ok_bounds {α : Type} [StreamInsert α] (cols : List (List α)) (os fmts : String)
    (idx i : Nat) (p : String × String)
    (h : _print_ith_elements os fmts idx i cols = .ok p) : ∀ s ∈ cols, i < s.length := by
  induction cols generalizing os fmts idx with
  | nil => intro s hs; cases hs
  | cons v args ih =>
    simp only [_print_ith_elements] at h
    cases hx : v[i]? with
    | none => simp [hx] at h
    | some x =>
      simp only [hx] at h
      intro s hs
      rcases List.mem_cons.mp hs with rfl | hs
      · by_contra hlt
        rw [List.getElem?_eq_none (by omega)] at hx
        cases hx
      · exact ih _ _ _ h s hs

/-- The row loop, with every column long enough for rows `i .. i+n-1`. -/
theorem plot_rows_in_bounds {α : Type} [StreamInsert α] (cols : List (List α)) (n i : Nat)
    (os fmts : String) (h : ∀ s ∈ cols, i + n ≤ s.length) :
    _plot_rows cols n i os fmts
      = .ok (os ++ String.join ((List.range' i n).map fun k => rowText cols k ++ "\n"),
             if i = 0 ∧ 0 < n then fmts ++ fmtFrom 1 cols.length else fmts) := by
  induction n generalizing i os fmts with
  | zero => simp [_plot_rows, join_nil]
  | succ n ih =>
    have hi : ∀ s ∈ cols, i < s.length := fun s hs => by have := h s hs; omega
    have hn : ∀ s ∈ cols, (i + 1) + n ≤ s.length := fun s hs => by have := h s hs; omega
    simp only [_plot_rows, print_ith_in_bounds cols os fmts 1 i hi]
    rw [ih (i + 1) _ _ hn, List.range'_succ, List.map_cons, join_cons]
    by_cases h0 : i = 0 <;> simp [h0, String.append_assoc]

/-- If the row loop returns after at least one row, every column is long enough. -/
theorem plot_rows_ok_bounds {α : Type} [StreamInsert α] (cols : List (List α)) (n i : Nat)
    (os fmts : String) (p : String × String)
    (h : _plot_rows cols n i os fmts = .ok p) : ∀ s ∈ cols, 0 < n → i + n ≤ s.length := by
  induction n generalizing i os fmts with
  | zero => intro s _ hn; omega
  | succ n ih =>
    simp only [_plot_rows] at h
    cases hp : _print_ith_elements os fmts 1 i cols with
    | error e => simp [hp] at h
    | ok q =>
      obtain ⟨os1, fmts1⟩ := q
      simp only [hp] at h
      intro s hs _
      have h1 := print_ith_ok_bounds cols os fmts 1 i _ hp s hs
      rcases Nat.eq_zero_or_pos n with hn | hn
      · omega
      · have := ih (i + 1) _ _ h s hs hn
        omega

theorem dimOk_iff (g : Gnuplot) (d : Bool) :
    (!g.series.isEmpty && g.is_3dplot != d) = false ↔ dimOk g d := by
  unfold dimOk
  cases hs : g.series <;> cases hf : g.is_3dplot <;> cases d <;> simp

theorem valuesAt_in_bounds {α : Type} (cols : List (List α)) (i : Nat)
    (h : ∀ s ∈ cols, i < s.length) :
    (valuesAt cols i).map some = cols.map fun col => col[i]? := by
  induction cols with
  | nil => rfl
  | cons v args ih =>
    have hv : i < v.length := h v (List.mem_cons_self _ _)
    have hx : v[i]? = some v[i] := List.getElem?_eq_getElem hv
    have := ih fun s hs => h s (List.mem_cons_of_mem _ hs)
    simp only [valuesAt] at this
    simp [valuesAt, List.filterMap_cons, hx, this]

/-- A call of `_plot` on a non-empty primary sequence whose dimensionality check
passes and whose other sequences are at least as long: the appended series. -/
theorem plot_appends {α : Type} [StreamInsert α] (g : Gnuplot) (label : String)
    (style : LineStyle) (d : Bool) (v : List α) (args : List (List α))
    (hv : v ≠ []) (hdim : dimOk g d) (hlen : ∀ a ∈ args, v.length ≤ a.length) :
    _plot g label style d v args
      = .ok { g with
          series := g.series ++
            [⟨String.join ((List.range v.length).map fun i => rowText (v :: args) i ++ "\n"),
              style, label, columnDescriptor (args.length + 1)⟩]
          is_3dplot := d } := by
  have hcols : ∀ s ∈ v :: args, 0 + v.length ≤ s.length := by
    intro s hs
    rcases List.mem_cons.mp hs with rfl | hs
    · omega
    · have := hlen s hs; omega
  have hpos : 0 < v.length := List.length_pos.mpr hv
  have hne : v.isEmpty = false := by cases v <;> simp_all
  unfold _plot
  rw [if_neg (by simp [hne]), if_neg (by simp [(dimOk_iff g d).mpr hdim]),
    plot_rows_in_bounds (v :: args) v.length 0 "" "" hcols]
  simp [hpos, str_empty_append, fmtFrom_one, List.range_eq_range']

/-- A failed dimensionality check stops `_plot` on the assertion. -/
theorem plot_asserts {α : Type} [StreamInsert α] (g : Gnuplot) (label : String)
    (style : LineStyle) (d : Bool) (v : List α) (args : List (List α))
    (hv : v ≠ []) (hdim : ¬ dimOk g d) :
    _plot g label style d v args = .error Fault.assertion := by
  have hne : v.isEmpty = false := by cases v <;> simp_all
  have hb : (!g.series.isEmpty && g.is_3dplot != d) = true := by
    cases hc : (!g.series.isEmpty && g.is_3dplot != d)
    · exact absurd ((dimOk_iff g d).mp hc) hdim
    · rfl
  unfold _plot
  rw [if_neg (by simp [hne]), if_pos hb]

/-- When `_plot` returns on a non-empty primary sequence, the dimensionality
check passed and no sequence is shorter than the primary one. -/
theorem plot_ok_inv {α : Type} [StreamInsert α] (g g1 : Gnuplot) (label : String)
    (style : LineStyle) (d : Bool) (v : List α) (args : List (List α))
    (hv : v ≠ []) (h : _plot g label style d v args = .ok g1) :
    dimOk g d ∧ ∀ a ∈ args, v.length ≤ a.length := by
  have hne : v.isEmpty = false := by cases v <;> simp_all
  have hpos : 0 < v.length := List.length_pos.mpr hv
  by_cases hdim : dimOk g d
  · refine ⟨hdim, ?_⟩
    unfold _plot at h
    rw [if_neg (by simp [hne]), if_neg (by simp [(dimOk_iff g d).mpr hdim])] at h
    cases hp : _plot_rows (v :: args) v.length 0 "" "" with
    | error e => simp [hp] at h
    | ok p =>
      intro a ha
      have := plot_rows_ok_bounds (v :: args) v.length 0 "" "" p hp a
        (List.mem_cons_of_mem _ ha) hpos
      omega
  · rw [plot_asserts g label style d v args hv hdim] at h
    cases h

/-- The public plot methods are calls of `_plot` on their argument vectors, in
order, with the style and dimensionality of the method. -/
theorem plot_methods_forward {α : Type} [StreamInsert α] (g : Gnuplot) (label : String)
    (style : LineStyle) (x y z e1 e2 e3 : List α) :
    plot_y g y label style = _plot g label style false y [] ∧
    plot g x y label style = _plot g label style false x [y] ∧
    plot_xerr g x y e1 label = _plot g label LineStyle.X_ERROR_BARS false x [y, e1] ∧
    plot_yerr g x y e1 label = _plot g label LineStyle.Y_ERROR_BARS false x [y, e1] ∧
    plot_xyerr g x y e1 e2 label = _plot g label LineStyle.XY_ERROR_BARS false x [y, e1, e2] ∧
    plot_vectors g x y e1 e2 label = _plot g label LineStyle.VECTORS false x [y, e1, e2] ∧
    plot3d g x y z label style = _plot g label style true x [y, z] ∧
    plot_vectors3d g x y z e1 e2 e3 label
      = _plot g label LineStyle.VECTORS true x [y, z, e1, e2, e3] :=
  ⟨rfl, rfl, rfl, rfl, rfl, rfl, rfl, rfl⟩

/-- C1 (series encoder rows).  For a non-empty primary sequence `v` and further
sequences `args` all of the length `L` of `v`: whenever `_plot` returns it has
appended one series whose data block is the concatenation, for `i = 0 .. L-1`, of
row `i` followed by a newline, row `i` being the rendered values
`v[i], args_1[i], ..., args_k[i]` in that order, each followed by one space, no
sequence being skipped; and it does return when the dimensionality check
passes. -/
theorem plot_data_block_rows {α : Type} [StreamInsert α] (g : Gnuplot) (label : String)
    (style : LineStyle) (d : Bool) (v : List α) (args : List (List α))
    (hv : v ≠ []) (hlen : ∀ a ∈ args, a.length = v.length) :
    (∀ g1, _plot g label style d v args = .ok g1 →
      ∃ s : GnuplotSeries, g1 = { g with series := g.series ++ [s], is_3dplot := d } ∧
        s.data_string
          = String.join ((List.range v.length).map fun i =>
              String.join ((valuesAt (v :: args) i).map fun x => render x ++ " ") ++ "\n") ∧
        ∀ i, i < v.length →
          (valuesAt (v :: args) i).map some = (v :: args).map fun col => col[i]?) ∧
    (dimOk g d → ∃ g1, _plot g label style d v args = .ok g1) := by
  have hge : ∀ a ∈ args, v.length ≤ a.length := fun a ha => (hlen a ha).ge
  constructor
  · intro g1 h
    obtain ⟨hdim, _⟩ := plot_ok_inv g g1 label style d v args hv h
    rw [plot_appends g label style d v args hv hdim hge] at h
    cases h
    refine ⟨_, rfl, rfl, ?_⟩
    intro i hi
    apply valuesAt_in_bounds
    intro s hs
    rcases List.mem_cons.mp hs with rfl | hs
    · exact hi
    · rw [hlen s hs]; exact hi
  · intro hdim
    exact ⟨_, plot_appends g label style d v args hv hdim hge⟩

/-- Witness of `plot_data_block_rows`: `plot_xerr` on three integer sequences
of length two, on a freshly constructed session. -/
theorem plot_data_block_rows_witness :
    (∀ g1, _plot (construct true false) "e" LineStyle.X_ERROR_BARS false [(1 : Int), 2]
        [[3, 4], [5, 6]] = .ok g1 →
      ∃ s : GnuplotSeries,
        g1 = { construct true false with
          series := (construct true false).series ++ [s], is_3dplot := false } ∧
        s.data_string
          = String.join ((List.range [(1 : Int), 2].length).map fun i =>
              String.join ((valuesAt ([(1 : Int), 2] :: [[3, 4], [5, 6]]) i).map
                fun x => render x ++ " ") ++ "\n") ∧
        ∀ i, i < [(1 : Int), 2].length →
          (valuesAt ([(1 : Int), 2] :: [[3, 4], [5, 6]]) i).map some
            = ([(1 : Int), 2] :: [[3, 4], [5, 6]]).map fun col => col[i]?) ∧
    (dimOk (construct true false) false →
      ∃ g1, _plot (construct true false) "e" LineStyle.X_ERROR_BARS false [(1 : Int), 2]
        [[3, 4], [5, 6]] = .ok g1) :=
  plot_data_block_rows (construct true false) "e" LineStyle.X_ERROR_BARS false [1, 2]
    [[3, 4], [5, 6]] (by decide) (by decide)

/-- C2 (column-range descriptor).  For a non-empty primary sequence, whenever
`_plot` returns it has appended exactly one series and that series has the
descriptor `1:2:...:N` for the `N` sequences passed, whatever their length; and
it does return when the dimensionality check passes and no sequence is shorter
than the primary one. -/
theorem plot_column_range {α : Type} [StreamInsert α] (g : Gnuplot) (label : String)
    (style : LineStyle) (d : Bool) (v : List α) (args : List (List α)) (hv : v ≠ []) :
    (∀ g1, _plot g label style d v args = .ok g1 →
      ∃ s : GnuplotSeries, g1.series = g.series ++ [s] ∧
        s.column_range = String.intercalate ":" ((List.range' 1 (args.length + 1)).map toString)) ∧
    (dimOk g d → (∀ a ∈ args, v.length ≤ a.length) →
      ∃ g1, _plot g label style d v args = .ok g1) := by
  constructor
  · intro g1 h
    obtain ⟨hdim, hlen⟩ := plot_ok_inv g g1 label style d v args hv h
    rw [plot_appends g label style d v args hv hdim hlen] at h
    cases h
    exact ⟨_, rfl, rfl⟩
  · intro hdim hlen
    exact ⟨_, plot_appends g label style d v args hv hdim hlen⟩

/-- Witness of `plot_column_range`: four sequences, the last ones longer than
the first. -/
theorem plot_column_range_witness :
    (∀ g1, _plot (construct true false) "" LineStyle.VECTORS false [(1 : Int)] [[2], [3, 9], [4, 8]]
        = .ok g1 →
      ∃ s : GnuplotSeries, g1.series = (construct true false).series ++ [s] ∧
        s.column_range
          = String.intercalate ":" ((List.range' 1 (([[2], [3, 9], [4, 8]] : List (List Int)).length + 1)).map toString)) ∧
    (dimOk (construct true false) false →
      (∀ a ∈ ([[2], [3, 9], [4, 8]] : List (List Int)), [(1 : Int)].length ≤ a.length) →
      ∃ g1, _plot (construct true false) "" LineStyle.VECTORS false [(1 : Int)] [[2], [3, 9], [4, 8]]
        = .ok g1) :=
  plot_column_range (construct true false) "" LineStyle.VECTORS false [1] [[2], [3, 9], [4, 8]]
    (by decide)

/-! ## Decimal rendering of integers and its reader -/

theorem digitValue_digitChar (k : Nat) (h : k < 10) : digitValue (Nat.digitChar k) = some k := by
  interval_cases k <;> rfl

theorem isDigit_digitChar (k : Nat) (h : k < 10) : (Nat.digitChar k).isDigit = true := by
  interval_cases k <;> rfl

theorem isDigit_not_whitespace (ch : Char) (h : ch.isDigit = true) : ch.isWhitespace = false := by
  cases hw : ch.isWhitespace with
  | false => rfl
  | true =>
    simp only [Char.isWhitespace, Bool.or_eq_true, decide_eq_true_eq] at hw
    rcases hw with ((rfl | rfl) | rfl) | rfl <;> simp [Char.isDigit] at h

theorem isDigit_ne_minus (ch : Char) (h : ch.isDigit = true) : ch ≠ '-' := by
  rintro rfl
  simp [Char.isDigit] at h

/-- Every character produced by `Nat.toDigitsCore` in base ten is a digit. -/
theorem toDigitsCore_isDigit (fuel n : Nat) (acc : List Char)
    (hacc : ∀ ch ∈ acc, ch.isDigit = true) :
    ∀ ch ∈ Nat.toDigitsCore 10 fuel n acc, ch.isDigit = true := by
  induction fuel generalizing n acc with
  | zero => simpa [Nat.toDigitsCore] using hacc
  | succ fuel ih =>
    have hd : ∀ ch ∈ Nat.digitChar (n % 10) :: acc, ch.isDigit = true := by
      intro ch hch
      rcases List.mem_cons.mp hch with rfl | hch
      · exact isDigit_digitChar _ (Nat.mod_lt _ (by decide))
      · exact hacc ch hch
    simp only [Nat.toDigitsCore]
    split
    · exact hd
    · exact ih _ _ hd

theorem toDigitsCore_ne_nil (fuel n : Nat) (acc : List Char) (h : 0 < fuel) :
    Nat.toDigitsCore 10 fuel n acc ≠ [] := by
  induction fuel generalizing n acc with
  | zero => omega
  | succ fuel ih =>
    simp only [Nat.toDigitsCore]
    split
    · simp
    · rename_i hn
      rcases Nat.eq_zero_or_pos fuel with h0 | h0
      · subst h0; simp [Nat.toDigitsCore]
      · exact ih _ _ h0

/-- Reading the digits of `n` from value zero reaches `n`. -/
theorem parseNatAux_toDigitsCore (fuel n : Nat) (acc : List Char) (h : n < fuel) :
    parseNatAux 0 (Nat.toDigitsCore 10 fuel n acc) = parseNatAux n acc := by
  induction fuel generalizing n acc with
  | zero => omega
  | succ fuel ih =>
    simp only [Nat.toDigitsCore]
    have hd := digitValue_digitChar (n % 10) (Nat.mod_lt _ (by decide))
    split
    · rename_i h0
      have : n % 10 = n := Nat.mod_eq_of_lt (by omega)
      simp only [parseNatAux, hd]
      rw [this]
      simp
    · rename_i h0
      rw [ih (n / 10) _ (by omega)]
      simp only [parseNatAux, hd]
      congr 1
      omega

theorem toString_nat_data (n : Nat) : (toString n).data = Nat.toDigits 10 n := rfl

theorem parseNat_toDigits (n : Nat) : parseNat (Nat.toDigits 10 n) = some n := by
  have hne : Nat.toDigits 10 n ≠ [] := toDigitsCore_ne_nil _ _ _ (Nat.succ_pos n)
  have he : (Nat.toDigits 10 n).isEmpty = false := by
    cases h : Nat.toDigits 10 n with
    | nil => exact absurd h hne
    | cons _ _ => rfl
  unfold parseNat
  rw [he]
  simp only [Bool.false_eq_true, if_false]
  exact parseNatAux_toDigitsCore (n + 1) n [] (Nat.lt_succ_self n)

theorem toDigits_isDigit (n : Nat) : ∀ ch ∈ Nat.toDigits 10 n, ch.isDigit = true :=
  toDigitsCore_isDigit _ _ _ (by intro ch h; cases h)

theorem toString_int_data (n : Int) :
    (toString n).data
      = if 0 ≤ n then Nat.toDigits 10 n.toNat else '-' :: Nat.toDigits 10 n.natAbs := by
  cases n with
  | ofNat m => simp; rfl
  | negSucc m =>
    have : ¬ (0 : Int) ≤ Int.negSucc m := (Int.negSucc_lt_zero m).not_le
    rw [if_neg this]
    rfl

/-- Reading back the decimal text of an integer gives the integer. -/
theorem parseInt_toString (n : Int) : parseInt (toString n).data = some n := by
  rw [toString_int_data]
  split
  · rename_i h
    have hne : Nat.toDigits 10 n.toNat ≠ [] := toDigitsCore_ne_nil _ _ _ (Nat.succ_pos _)
    have hp := parseNat_toDigits n.toNat
    have hdig := toDigits_isDigit n.toNat
    cases hl : Nat.toDigits 10 n.toNat with
    | nil => exact absurd hl hne
    | cons a l =>
      rw [hl] at hp hdig
      have ha : a ≠ '-' := isDigit_ne_minus a (hdig a (List.mem_cons_self _ _))
      unfold parseInt
      split
      · rename_i heq
        cases heq
        exact absurd rfl ha
      · rw [hp]
        simp [Int.toNat_of_nonneg h]
  · rename_i h
    simp only [parseInt, parseNat_toDigits, Option.map_some']
    congr 1
    omega

/-- The decimal text of an integer is non-empty and free of whitespace. -/
theorem toString_int_clean (n : Int) :
    (toString n).data ≠ [] ∧ ∀ ch ∈ (toString n).data, ch.isWhitespace = false := by
  rw [toString_int_data]
  split
  · exact ⟨toDigitsCore_ne_nil _ _ _ (Nat.succ_pos _),
      fun ch h => isDigit_not_whitespace ch (toDigits_isDigit _ ch h)⟩
  · refine ⟨by simp, ?_⟩
    intro ch h
    rcases List.mem_cons.mp h with rfl | h
    · rfl
    · exact isDigit_not_whitespace ch (toDigits_isDigit _ ch h)

/-! ## Splitting a block into rows and tokens -/

theorem tokensAux_word (w rest cur : List Char) (hw : ∀ ch ∈ w, ch.isWhitespace = false) :
    tokensAux (w ++ rest) cur = tokensAux rest (w.reverse ++ cur) := by
  induction w generalizing cur with
  | nil => rfl
  | cons a w ih =>
    have ha : a.isWhitespace = false := hw a (List.mem_cons_self _ _)
    have hw1 : ∀ ch ∈ w, ch.isWhitespace = false := fun ch h => hw ch (List.mem_cons_of_mem _ h)
    simp only [List.cons_append, tokensAux, ha, Bool.false_eq_true, if_false]
    show tokensAux (w ++ rest) (a :: cur) = _
    rw [ih _ hw1]
    simp

theorem tokens_rowChars (ws : List (List Char)) (h : ∀ w ∈ ws, IsWord w) :
    tokens (rowChars ws) = ws := by
  unfold tokens
  induction ws with
  | nil => rfl
  | cons w ws ih =>
    obtain ⟨hne, hw⟩ := h w (List.mem_cons_self _ _)
    have ih1 := ih fun v hv => h v (List.mem_cons_of_mem _ hv)
    have hr : (w.reverse ++ []).isEmpty = false := by
      cases w with
      | nil => exact absurd rfl hne
      | cons a w => simp
    simp only [rowChars, List.map_cons, List.flatten_cons, List.append_assoc]
    rw [tokensAux_word w _ [] hw]
    simp only [List.singleton_append, tokensAux, hr]
    simp only [rowChars] at ih1
    simp [Char.isWhitespace, ih1]

theorem splitRowsAux_row (r rest cur : List Char) (hr : ∀ ch ∈ r, ch ≠ '\n') :
    splitRowsAux (r ++ rest) cur = splitRowsAux rest (r.reverse ++ cur) := by
  induction r generalizing cur with
  | nil => rfl
  | cons a r ih =>
    have ha : a ≠ '\n' := hr a (List.mem_cons_self _ _)
    have hr1 : ∀ ch ∈ r, ch ≠ '\n' := fun ch h => hr ch (List.mem_cons_of_mem _ h)
    simp only [List.cons_append, splitRowsAux, ha, if_false]
    show splitRowsAux (r ++ rest) (a :: cur) = _
    rw [ih _ hr1]
    simp

theorem rowChars_no_newline (ws : List (List Char)) (h : ∀ w ∈ ws, IsWord w) :
    ∀ ch ∈ rowChars ws, ch ≠ '\n' := by
  intro ch hch
  simp only [rowChars, List.mem_flatten, List.mem_map] at hch
  obtain ⟨l, ⟨w, hw, rfl⟩, hl⟩ := hch
  rcases List.mem_append.mp hl with hl | hl
  · rintro rfl
    have := (h w hw).2 _ hl
    simp [Char.isWhitespace] at this
  · rw [List.mem_singleton] at hl
    subst hl
    decide

/-- Splitting a block of clean rows and then each row into tokens gives the
rows of words back. -/
theorem split_blockChars (rows : List (List (List Char))) (h : ∀ ws ∈ rows, ∀ w ∈ ws, IsWord w) :
    (splitRowsAux (blockChars rows) []).map tokens = rows := by
  induction rows with
  | nil => rfl
  | cons ws rows ih =>
    have hws := h ws (List.mem_cons_self _ _)
    have ih1 := ih fun v hv => h v (List.mem_cons_of_mem _ hv)
    simp only [blockChars, List.map_cons, List.flatten_cons, List.append_assoc]
    rw [splitRowsAux_row _ _ [] (rowChars_no_newline ws hws)]
    simp only [List.singleton_append, splitRowsAux, if_true, List.append_nil, List.reverse_reverse,
      List.map_cons, tokens_rowChars ws hws]
    simp only [blockChars] at ih1
    show ws :: List.map tokens (splitRowsAux _ []) = _
    rw [List.append_eq, List.nil_append, ih1]

theorem rowText_data {α : Type} [StreamInsert α] (cols : List (List α)) (i : Nat) :
    (rowText cols i).data = rowChars ((valuesAt cols i).map fun x => (render x).data) := by
  simp [rowText, rowChars, String.data_join, List.map_map, Function.comp_def, String.data_append]

/-- The block written by the row loop, as characters. -/
theorem block_data {α : Type} [StreamInsert α] (cols : List (List α)) (L : Nat) :
    (String.join ((List.range L).map fun i => rowText cols i ++ "\n")).data
      = blockChars ((List.range L).map fun i =>
          (valuesAt cols i).map fun x => (render x).data) := by
  simp only [String.data_join, blockChars, List.map_map, Function.comp_def, String.data_append,
    rowText_data]

/-- Reading back a block of integer columns gives, row by row, the values. -/
theorem parseBlock_int (cols : List (List Int)) (L : Nat) :
    parseBlock (String.join ((List.range L).map fun i => rowText cols i ++ "\n"))
      = (List.range L).map fun i => (valuesAt cols i).map some := by
  unfold parseBlock splitRows
  rw [block_data]
  show List.map (List.map parseInt ∘ tokens) _ = _
  rw [← List.map_map, split_blockChars]
  · simp only [List.map_map]
    apply List.map_congr_left
    intro i _
    simp only [Function.comp_def, List.map_map]
    apply List.map_congr_left
    intro x _
    exact parseInt_toString x
  · intro ws hws w hw
    simp only [List.mem_map] at hws
    obtain ⟨i, _, rfl⟩ := hws
    simp only [List.mem_map] at hw
    obtain ⟨x, _, rfl⟩ := hw
    exact toString_int_clean x

/-! ## Decimal rendering of a `double` and its reader -/

theorem foldl_digits_acc (l : List Char) (acc : Nat) :
    l.foldl (fun a ch => 10 * a + (ch.toNat - 48)) acc = acc * 10 ^ l.length + digitsValue l := by
  unfold digitsValue
  induction l generalizing acc with
  | nil => simp
  | cons ch l ih =>
    simp only [List.foldl_cons, List.length_cons]
    rw [ih (10 * acc + (ch.toNat - 48)), ih (10 * 0 + (ch.toNat - 48))]
    ring

theorem digitsValue_append (l1 l2 : List Char) :
    digitsValue (l1 ++ l2) = digitsValue l1 * 10 ^ l2.length + digitsValue l2 := by
  show (l1 ++ l2).foldl _ 0 = _
  rw [List.foldl_append, foldl_digits_acc l2]
  rfl

theorem digitsValue_zeros (k : Nat) : digitsValue (List.replicate k '0') = 0 := by
  induction k with
  | zero => rfl
  | succ k ih =>
    rw [List.replicate_succ']
    rw [digitsValue_append, ih]
    rfl

/-- Reading a list of digits gives the number it denotes. -/
theorem parseNatAux_digits (l : List Char) (acc : Nat) (h : ∀ ch ∈ l, ch.isDigit = true) :
    parseNatAux acc l = some (l.foldl (fun a ch => 10 * a + (ch.toNat - 48)) acc) := by
  induction l generalizing acc with
  | nil => rfl
  | cons ch l ih =>
    have hc : ch.isDigit = true := h ch (List.mem_cons_self _ _)
    simp only [parseNatAux, digitValue, hc, if_true, List.foldl_cons]
    exact ih _ fun c hcm => h c (List.mem_cons_of_mem _ hcm)

theorem parseNat_digits (l : List Char) (hne : l ≠ []) (h : ∀ ch ∈ l, ch.isDigit = true) :
    parseNat l = some (digitsValue l) := by
  unfold parseNat
  have : l.isEmpty = false := by cases l <;> simp_all
  rw [this]
  exact parseNatAux_digits l 0 h

theorem digitsValue_toDigits (m : Nat) : digitsValue (Nat.toDigits 10 m) = m := by
  have h1 := parseNat_toDigits m
  have h2 := parseNat_digits (Nat.toDigits 10 m) (toDigitsCore_ne_nil _ _ _ (Nat.succ_pos m))
    (toDigits_isDigit m)
  rw [h1] at h2
  exact (Option.some.inj h2).symm

/-- The digit count of a positive number. -/
theorem toDigitsCore_length (fuel n : Nat) (acc : List Char) (h : n < fuel) (hn : 0 < n) :
    ∃ k : Nat, (Nat.toDigitsCore 10 fuel n acc).length = acc.length + k + 1 ∧
      10 ^ k ≤ n ∧ n < 10 ^ (k + 1) := by
  induction fuel generalizing n acc with
  | zero => omega
  | succ fuel ih =>
    simp only [Nat.toDigitsCore]
    split
    · rename_i h0
      refine ⟨0, by simp, by simpa using hn, ?_⟩
      simp only [zero_add, pow_one]
      omega
    · rename_i h0
      obtain ⟨k, hk, h1, h2⟩ := ih (n / 10) (Nat.digitChar (n % 10) :: acc) (by omega) (by omega)
      refine ⟨k + 1, by simp [hk]; omega, ?_, ?_⟩
      · rw [pow_succ]
        omega
      · rw [pow_succ]
        omega

theorem toDigits_length (n : Nat) (hn : 0 < n) :
    ∃ k : Nat, (Nat.toDigits 10 n).length = k + 1 ∧ 10 ^ k ≤ n ∧ n < 10 ^ (k + 1) := by
  obtain ⟨k, hk, h1, h2⟩ := toDigitsCore_length (n + 1) n [] (Nat.lt_succ_self n) hn
  exact ⟨k, by simpa using hk, h1, h2⟩

/-- The digits of a six-digit number are six. -/
theorem toDigits_six (m : Nat) (h1 : 100000 ≤ m) (h2 : m < 1000000) :
    (Nat.toDigits 10 m).length = 6 := by
  obtain ⟨k, hk, hl, hu⟩ := toDigits_length m (by omega)
  have hk5 : k = 5 := by
    rcases Nat.lt_trichotomy k 5 with h | h | h
    · have : 10 ^ (k + 1) ≤ 10 ^ 5 := Nat.pow_le_pow_right (by decide) (by omega)
      omega
    · exact h
    · have : 10 ^ 6 ≤ 10 ^ k := Nat.pow_le_pow_right (by decide) (by omega)
      omega
  rw [hk, hk5]

/-! ### The six digits are six -/

theorem pow10Le_true (e : Int) (n d : Nat) :
    pow10Le e n d = true ↔
      (0 ≤ e ∧ 10 ^ e.toNat * d ≤ n) ∨ (e < 0 ∧ d ≤ n * 10 ^ (-e).toNat) := by
  unfold pow10Le
  by_cases h : 0 ≤ e
  · simp [h]
  · simp [h]
    omega

theorem pow10Le_false (e : Int) (n d : Nat) :
    pow10Le e n d = false ↔
      (0 ≤ e ∧ n < 10 ^ e.toNat * d) ∨ (e < 0 ∧ n * 10 ^ (-e).toNat < d) := by
  unfold pow10Le
  by_cases h : 0 ≤ e
  · simp [h]
  · simp [h]
    omega

/-- The decimal exponent brackets the value: `10 ^ X ≤ n / d < 10 ^ (X + 1)`. -/
theorem decimalExponent_spec (n d : Nat) (hn : 0 < n) (hd : 0 < d) :
    pow10Le (decimalExponent n d) n d = true ∧
    pow10Le (decimalExponent n d + 1) n d = false := by
  obtain ⟨ka, hka, ha1, ha2⟩ := toDigits_length n hn
  obtain ⟨kb, hkb, hb1, hb2⟩ := toDigits_length d hd
  unfold decimalExponent
  simp only [hka, hkb]
  have he : ((ka + 1 : Nat) : Int) - ((kb + 1 : Nat) : Int) = (ka : Int) - (kb : Int) := by
    push_cast; ring
  rw [he]
  by_cases hp : pow10Le ((ka : Int) - (kb : Int)) n d = true
  · rw [if_pos hp]
    refine ⟨hp, ?_⟩
    rw [pow10Le_false]
    by_cases hs : kb ≤ ka + 1
    · left
      refine ⟨by omega, ?_⟩
      have ht : ((ka : Int) - (kb : Int) + 1).toNat = ka + 1 - kb := by omega
      rw [ht]
      calc n < 10 ^ (ka + 1) := ha2
        _ = 10 ^ (ka + 1 - kb) * 10 ^ kb := by rw [← pow_add, Nat.sub_add_cancel hs]
        _ ≤ 10 ^ (ka + 1 - kb) * d := Nat.mul_le_mul_left _ hb1
    · right
      refine ⟨by omega, ?_⟩
      have ht : (-((ka : Int) - (kb : Int) + 1)).toNat = kb - (ka + 1) := by omega
      rw [ht]
      calc n * 10 ^ (kb - (ka + 1)) < 10 ^ (ka + 1) * 10 ^ (kb - (ka + 1)) :=
            Nat.mul_lt_mul_of_pos_right ha2 (by positivity)
        _ = 10 ^ kb := by rw [← pow_add]; congr 1; omega
        _ ≤ d := hb1
  · rw [if_neg hp]
    have hpf : pow10Le ((ka : Int) - (kb : Int)) n d = false := by
      cases hc : pow10Le ((ka : Int) - (kb : Int)) n d
      · rfl
      · exact absurd hc hp
    refine ⟨?_, by rw [sub_add_cancel]; exact hpf⟩
    rw [pow10Le_true]
    by_cases hs : kb + 1 ≤ ka
    · left
      refine ⟨by omega, ?_⟩
      have ht : ((ka : Int) - (kb : Int) - 1).toNat = ka - (kb + 1) := by omega
      rw [ht]
      have : 10 ^ (ka - (kb + 1)) * d ≤ 10 ^ (ka - (kb + 1)) * 10 ^ (kb + 1) :=
        Nat.mul_le_mul_left _ (le_of_lt hb2)
      calc 10 ^ (ka - (kb + 1)) * d ≤ 10 ^ (ka - (kb + 1)) * 10 ^ (kb + 1) := this
        _ = 10 ^ ka := by rw [← pow_add, Nat.sub_add_cancel hs]
        _ ≤ n := ha1
    · right
      refine ⟨by omega, ?_⟩
      have ht : (-((ka : Int) - (kb : Int) - 1)).toNat = kb + 1 - ka := by omega
      rw [ht]
      calc d ≤ 10 ^ (kb + 1) := le_of_lt hb2
        _ = 10 ^ ka * 10 ^ (kb + 1 - ka) := by rw [← pow_add]; congr 1; omega
        _ ≤ n * 10 ^ (kb + 1 - ka) := Nat.mul_le_mul_right _ ha1

theorem roundHalfEven_bounds (a b lo hi : Nat) (hb : 0 < b) (h1 : lo * b ≤ a)
    (h2 : a < hi * b) : lo ≤ roundHalfEven a b ∧ roundHalfEven a b ≤ hi := by
  have hq1 : lo ≤ a / b := (Nat.le_div_iff_mul_le hb).mpr h1
  have hq2 : a / b < hi := (Nat.div_lt_iff_lt_mul hb).mpr h2
  unfold roundHalfEven
  simp only []
  split
  · omega
  · split
    · omega
    · split <;> omega

/-- The six significant digits of a value inside its decade. -/
theorem significand6_bounds (n d : Nat) (X : Int) (hd : 0 < d)
    (h1 : pow10Le X n d = true) (h2 : pow10Le (X + 1) n d = false) :
    100000 ≤ significand6 n d X ∧ significand6 n d X ≤ 1000000 := by
  rw [pow10Le_true] at h1
  rw [pow10Le_false] at h2
  unfold significand6
  split
  · rename_i hx
    apply roundHalfEven_bounds _ _ _ _ hd
    · rcases h1 with ⟨h0, h1⟩ | ⟨h0, h1⟩
      · have ht : (5 - X).toNat + X.toNat = 5 := by omega
        calc 100000 * d = 10 ^ ((5 - X).toNat + X.toNat) * d := by rw [ht]; norm_num
          _ = 10 ^ (5 - X).toNat * (10 ^ X.toNat * d) := by rw [pow_add]; ring
          _ ≤ 10 ^ (5 - X).toNat * n := Nat.mul_le_mul_left _ h1
          _ = n * 10 ^ (5 - X).toNat := by ring
      · have ht : (5 - X).toNat = (-X).toNat + 5 := by omega
        calc 100000 * d ≤ 100000 * (n * 10 ^ (-X).toNat) := Nat.mul_le_mul_left _ h1
          _ = n * 10 ^ ((-X).toNat + 5) := by rw [pow_add]; ring
          _ = n * 10 ^ (5 - X).toNat := by rw [ht]
    · rcases h2 with ⟨h0, h2⟩ | ⟨h0, h2⟩
      · have ht : (5 - X).toNat + (X + 1).toNat = 6 := by omega
        calc n * 10 ^ (5 - X).toNat < (10 ^ (X + 1).toNat * d) * 10 ^ (5 - X).toNat :=
              Nat.mul_lt_mul_of_pos_right h2 (by positivity)
          _ = 10 ^ ((5 - X).toNat + (X + 1).toNat) * d := by rw [pow_add]; ring
          _ = 1000000 * d := by rw [ht]; norm_num
      · have ht : (5 - X).toNat = (-(X + 1)).toNat + 6 := by omega
        calc n * 10 ^ (5 - X).toNat = (n * 10 ^ (-(X + 1)).toNat) * 1000000 := by
              rw [ht, pow_add]; ring
          _ < d * 1000000 := Nat.mul_lt_mul_of_pos_right h2 (by decide)
          _ = 1000000 * d := by ring
  · rename_i hx
    have hx5 : 5 < X := by omega
    apply roundHalfEven_bounds _ _ _ _ (by positivity)
    · rcases h1 with ⟨h0, h1⟩ | ⟨h0, h1⟩
      · have ht : X.toNat = (X - 5).toNat + 5 := by omega
        calc 100000 * (d * 10 ^ (X - 5).toNat) = 10 ^ ((X - 5).toNat + 5) * d := by
              rw [pow_add]; ring
          _ = 10 ^ X.toNat * d := by rw [ht]
          _ ≤ n := h1
      · omega
    · rcases h2 with ⟨h0, h2⟩ | ⟨h0, h2⟩
      · have ht : (X + 1).toNat = (X - 5).toNat + 6 := by omega
        calc n < 10 ^ (X + 1).toNat * d := h2
          _ = 10 ^ ((X - 5).toNat + 6) * d := by rw [ht]
          _ = 1000000 * (d * 10 ^ (X - 5).toNat) := by rw [pow_add]; ring
      · omega

/-- The digits `operator<<` prints are six. -/
theorem sixDigits_range (n d : Nat) (hn : 0 < n) (hd : 0 < d) :
    100000 ≤ (sixDigits n d).1 ∧ (sixDigits n d).1 < 1000000 := by
  obtain ⟨h1, h2⟩ := decimalExponent_spec n d hn hd
  obtain ⟨b1, b2⟩ := significand6_bounds n d _ hd h1 h2
  unfold sixDigits
  simp only []
  split <;> omega

/-! ### Reading a printed numeral -/

theorem takeWhile_eq_replicate (c : Char) (l : List Char) :
    ∃ k : Nat, l.takeWhile (fun ch => ch == c) = List.replicate k c := by
  refine ⟨(l.takeWhile fun ch => ch == c).length, ?_⟩
  rw [List.eq_replicate_iff]
  refine ⟨rfl, ?_⟩
  intro b hb
  have := List.mem_takeWhile_imp hb
  simpa using this

/-- Removing the trailing zeros removes a block of zeros at the end. -/
theorem stripTrailingZeros_spec (l : List Char) :
    ∃ k : Nat, l = stripTrailingZeros l ++ List.replicate k '0' := by
  obtain ⟨k, hk⟩ := takeWhile_eq_replicate '0' l.reverse
  refine ⟨k, ?_⟩
  unfold stripTrailingZeros
  have h := List.takeWhile_append_dropWhile (fun ch => ch == '0') l.reverse
  rw [hk] at h
  have h2 := congrArg List.reverse h
  simp only [List.reverse_append, List.reverse_reverse, List.reverse_replicate] at h2
  exact h2.symm

theorem stripTrailingZeros_subset (l : List Char) :
    ∀ ch ∈ stripTrailingZeros l, ch ∈ l := by
  intro ch h
  unfold stripTrailingZeros at h
  rw [List.mem_reverse] at h
  have := (List.dropWhile_sublist _).subset h
  simpa using this

theorem fractionText_data (cs : List Char) :
    (fractionText cs).data
      = if stripTrailingZeros cs = [] then [] else '.' :: stripTrailingZeros cs := by
  unfold fractionText
  simp only []
  cases h : stripTrailingZeros cs with
  | nil => rfl
  | cons a l => rfl

theorem takeWhile_all (p : Char → Bool) (l : List Char) (h : ∀ ch ∈ l, p ch = true) :
    l.takeWhile p = l ∧ l.dropWhile p = [] := by
  induction l with
  | nil => exact ⟨rfl, rfl⟩
  | cons a l ih =>
    have ha := h a (List.mem_cons_self _ _)
    obtain ⟨i1, i2⟩ := ih fun c hc => h c (List.mem_cons_of_mem _ hc)
    simp [List.takeWhile, List.dropWhile, ha, i1, i2]

theorem takeWhile_stop (p : Char → Bool) (l rest : List Char) (c : Char)
    (h : ∀ ch ∈ l, p ch = true) (hc : p c = false) :
    (l ++ c :: rest).takeWhile p = l ∧ (l ++ c :: rest).dropWhile p = c :: rest := by
  induction l with
  | nil => simp [List.takeWhile, List.dropWhile, hc]
  | cons a l ih =>
    have ha := h a (List.mem_cons_self _ _)
    obtain ⟨i1, i2⟩ := ih fun c hc => h c (List.mem_cons_of_mem _ hc)
    simp [List.takeWhile, List.dropWhile, ha, i1, i2]

/-- The text of a mantissa: integer digits and, unless `f` is empty, a decimal
point and the fraction digits `f`. -/
theorem parseMantissa_digits (ip f : List Char) (hne : ip ≠ [])
    (hip : ∀ ch ∈ ip, ch.isDigit = true) (hf : ∀ ch ∈ f, ch.isDigit = true) :
    parseMantissa (ip ++ (if f = [] then [] else '.' :: f))
      = some ((digitsValue ip : ℚ) + (digitsValue f : ℚ) / ((10 ^ f.length : Nat) : ℚ)) := by
  unfold parseMantissa
  by_cases hfe : f = []
  · subst hfe
    obtain ⟨t1, t2⟩ := takeWhile_all Char.isDigit ip hip
    simp only [if_true, List.append_nil, t1, t2, parseNat_digits ip hne hip]
    simp [digitsValue]
  · obtain ⟨t1, t2⟩ := takeWhile_stop Char.isDigit ip f '.' hip (by decide)
    simp only [if_neg hfe, t1, t2, parseNat_digits ip hne hip, parseNat_digits f hfe hf,
      Option.map_some']

theorem isDigit_ne_e (ch : Char) (h : ch.isDigit = true) : (ch != 'e') = true := by
  simp only [bne_iff_ne, ne_eq]
  rintro rfl
  simp [Char.isDigit] at h

theorem mantissa_no_e (ip f : List Char)
    (hip : ∀ ch ∈ ip, ch.isDigit = true) (hf : ∀ ch ∈ f, ch.isDigit = true) :
    ∀ ch ∈ ip ++ (if f = [] then [] else '.' :: f), (ch != 'e') = true := by
  intro ch hch
  rcases List.mem_append.mp hch with h | h
  · exact isDigit_ne_e ch (hip ch h)
  · split at h
    · cases h
    · rcases List.mem_cons.mp h with rfl | h
      · decide
      · exact isDigit_ne_e ch (hf ch h)

/-- Reading a numeral in fixed notation. -/
theorem parseUnsigned_fixed (ip f : List Char) (hne : ip ≠ [])
    (hip : ∀ ch ∈ ip, ch.isDigit = true) (hf : ∀ ch ∈ f, ch.isDigit = true) :
    parseUnsigned (ip ++ (if f = [] then [] else '.' :: f))
      = some ((digitsValue ip : ℚ) + (digitsValue f : ℚ) / ((10 ^ f.length : Nat) : ℚ)) := by
  unfold parseUnsigned
  obtain ⟨t1, t2⟩ := takeWhile_all (fun ch => ch != 'e') _ (mantissa_no_e ip f hip hf)
  simp only [t1, t2, parseMantissa_digits ip f hne hip hf]

/-- Reading a numeral in scientific notation. -/
theorem parseUnsigned_scientific (ip f ex : List Char) (k : Int) (hne : ip ≠ [])
    (hip : ∀ ch ∈ ip, ch.isDigit = true) (hf : ∀ ch ∈ f, ch.isDigit = true)
    (hex : parseExponent ex = some k) :
    parseUnsigned ((ip ++ (if f = [] then [] else '.' :: f)) ++ 'e' :: ex)
      = some (scale10
          ((digitsValue ip : ℚ) + (digitsValue f : ℚ) / ((10 ^ f.length : Nat) : ℚ)) k) := by
  unfold parseUnsigned
  obtain ⟨t1, t2⟩ := takeWhile_stop (fun ch => ch != 'e') _ ex 'e'
    (mantissa_no_e ip f hip hf) (by decide)
  simp only [t1, t2, parseMantissa_digits ip f hne hip hf, hex, Option.map_some']

/-- Reading the exponent field `operator<<` prints: a sign and at least two
digits. -/
theorem parseExponent_field (X : Int) :
    parseExponent (((if X < 0 then "-" else "+") ++ (if X.natAbs < 10 then "0" else "")
      ++ toString X.natAbs : String).data) = some X := by
  have hp := parseNat_toDigits X.natAbs
  have hp0 : parseNat ('0' :: Nat.toDigits 10 X.natAbs) = some X.natAbs := by
    unfold parseNat at hp ⊢
    have hne : (Nat.toDigits 10 X.natAbs).isEmpty = false := by
      cases h : Nat.toDigits 10 X.natAbs with
      | nil => exact absurd h (toDigitsCore_ne_nil _ _ _ (Nat.succ_pos _))
      | cons _ _ => rfl
    rw [hne] at hp
    simp only [Bool.false_eq_true, if_false] at hp
    simp only [List.isEmpty_cons, Bool.false_eq_true, if_false, parseNatAux]
    have : digitValue '0' = some 0 := by decide
    rw [this]
    exact hp
  simp only [String.data_append, toString_nat_data]
  by_cases hneg : X < 0
  · have hv : -((X.natAbs : Nat) : Int) = X := by omega
    by_cases hs : X.natAbs < 10
    · simp only [hneg, hs, if_true]
      show parseExponent ('-' :: '0' :: Nat.toDigits 10 X.natAbs) = some X
      simp only [parseExponent, hp0, Option.map_some', hv]
    · simp only [hneg, hs, if_true, if_false]
      show parseExponent ('-' :: Nat.toDigits 10 X.natAbs) = some X
      simp only [parseExponent, hp, Option.map_some', hv]
  · have hv : ((X.natAbs : Nat) : Int) = X := by omega
    by_cases hs : X.natAbs < 10
    · simp only [hneg, hs, if_true, if_false]
      show parseExponent ('+' :: '0' :: Nat.toDigits 10 X.natAbs) = some X
      simp only [parseExponent, hp0, Option.map_some', hv]
    · simp only [hneg, hs, if_false]
      show parseExponent ('+' :: Nat.toDigits 10 X.natAbs) = some X
      simp only [parseExponent, hp, Option.map_some', hv]

theorem frac_value (a b p j m : Nat) (hm : m = a * 10 ^ (p + j) + b * 10 ^ j) :
    (a : ℚ) + (b : ℚ) / ((10 ^ p : Nat) : ℚ) = (m : ℚ) / ((10 ^ (p + j) : Nat) : ℚ) := by
  subst hm
  push_cast
  field_simp
  ring

/-- The value of a digit string cut after `k` digits, the fraction being
printed without its trailing zeros. -/
theorem split_value (ds : List Char) (k : Nat) :
    (digitsValue (ds.take k) : ℚ)
        + (digitsValue (stripTrailingZeros (ds.drop k)) : ℚ)
          / ((10 ^ (stripTrailingZeros (ds.drop k)).length : Nat) : ℚ)
      = (digitsValue ds : ℚ) / ((10 ^ (ds.drop k).length : Nat) : ℚ) := by
  obtain ⟨j, hj⟩ := stripTrailingZeros_spec (ds.drop k)
  have hlen : (ds.drop k).length = (stripTrailingZeros (ds.drop k)).length + j := by
    conv_lhs => rw [hj]
    simp
  have hv : digitsValue ds
      = digitsValue (ds.take k) * 10 ^ ((stripTrailingZeros (ds.drop k)).length + j)
        + digitsValue (stripTrailingZeros (ds.drop k)) * 10 ^ j := by
    conv_lhs => rw [← List.take_append_drop k ds]
    rw [digitsValue_append, hlen]
    congr 1
    conv_lhs => rw [hj]
    rw [digitsValue_append, digitsValue_zeros]
    simp
  rw [hlen]
  exact frac_value _ _ _ _ _ hv

theorem scale10_shift (a : ℚ) (X : Int) :
    scale10 (a / ((10 ^ 5 : Nat) : ℚ)) X = scale10 a (X - 5) := by
  unfold scale10
  by_cases h0 : 0 ≤ X
  · by_cases h5 : 0 ≤ X - 5
    · rw [if_pos h0, if_pos h5]
      have ht : X.toNat = (X - 5).toNat + 5 := by omega
      rw [ht]
      push_cast
      rw [pow_add]
      field_simp
      ring
    · rw [if_pos h0, if_neg h5]
      have ht : (-(X - 5)).toNat + X.toNat = 5 := by omega
      have hp : ((10 ^ 5 : Nat) : ℚ) = (10 : ℚ) ^ (-(X - 5)).toNat * (10 : ℚ) ^ X.toNat := by
        rw [← pow_add, ht]
        norm_num
      rw [hp]
      push_cast
      field_simp
      ring
  · have h5 : ¬ 0 ≤ X - 5 := by omega
    rw [if_neg h0, if_neg h5]
    have ht : (-(X - 5)).toNat = (-X).toNat + 5 := by omega
    rw [ht]
    push_cast
    rw [pow_add]
    field_simp
    left
    ring

/-- Reading the text of six digits `m` with exponent `X` gives `m * 10 ^ (X - 5)`. -/
theorem parseUnsigned_formatDigits (m : Nat) (X : Int) (h1 : 100000 ≤ m) (h2 : m < 1000000) :
    parseUnsigned (formatDigits m X).data = some (scale10 (m : ℚ) (X - 5)) := by
  have hlen := toDigits_six m h1 h2
  have hdig := toDigits_isDigit m
  have hval := digitsValue_toDigits m
  have htake : ∀ k, ∀ ch ∈ (Nat.toDigits 10 m).take k, ch.isDigit = true :=
    fun k ch h => hdig ch (List.mem_of_mem_take h)
  have hstrip : ∀ k, ∀ ch ∈ stripTrailingZeros ((Nat.toDigits 10 m).drop k), ch.isDigit = true :=
    fun k ch h => hdig ch (List.mem_of_mem_drop (stripTrailingZeros_subset _ ch h))
  have htne : ∀ k, 0 < k → (Nat.toDigits 10 m).take k ≠ [] := by
    intro k hk h
    have := congrArg List.length h
    simp [hlen] at this
    omega
  unfold formatDigits
  simp only []
  by_cases hfix : -4 ≤ X ∧ X < 6
  · rw [if_pos hfix]
    by_cases h0 : 0 ≤ X
    · rw [if_pos h0]
      simp only [String.data_append, fractionText_data]
      rw [parseUnsigned_fixed _ _ (htne _ (by omega)) (htake _) (hstrip _), split_value, hval]
      have hd : ((Nat.toDigits 10 m).drop (X.toNat + 1)).length = 5 - X.toNat := by
        rw [List.length_drop, hlen]; omega
      rw [hd]
      unfold scale10
      by_cases h5 : 0 ≤ X - 5
      · have : X.toNat = 5 := by omega
        rw [if_pos h5, this]
        have : (X - 5).toNat = 0 := by omega
        rw [this]
        simp
      · rw [if_neg h5]
        have : (-(X - 5)).toNat = 5 - X.toNat := by omega
        rw [this]
    · rw [if_neg h0]
      obtain ⟨j, hj⟩ := stripTrailingZeros_spec (Nat.toDigits 10 m)
      have hl6 : (stripTrailingZeros (Nat.toDigits 10 m)).length + j = 6 := by
        have := congrArg List.length hj
        simp only [List.length_append, List.length_replicate, hlen] at this
        omega
      have hm : m = digitsValue (stripTrailingZeros (Nat.toDigits 10 m)) * 10 ^ j := by
        conv_lhs => rw [← hval, hj]
        rw [digitsValue_append, digitsValue_zeros]
        simp
      have hfne : stripTrailingZeros (Nat.toDigits 10 m) ≠ [] := by
        intro hc
        rw [hc] at hm
        simp [digitsValue] at hm
        omega
      have hall : ∀ ch ∈ List.replicate ((-X).toNat - 1) '0'
          ++ stripTrailingZeros (Nat.toDigits 10 m), ch.isDigit = true := by
        intro ch hch
        rcases List.mem_append.mp hch with h | h
        · rw [List.eq_of_mem_replicate h]; decide
        · exact hdig ch (stripTrailingZeros_subset _ ch h)
      have hne2 : List.replicate ((-X).toNat - 1) '0'
          ++ stripTrailingZeros (Nat.toDigits 10 m) ≠ [] := by
        simp [hfne]
      have hform : ("0." ++ String.mk (List.replicate ((-X).toNat - 1) '0')
          ++ String.mk (stripTrailingZeros (Nat.toDigits 10 m)) : String).data
          = ['0'] ++ (if List.replicate ((-X).toNat - 1) '0'
              ++ stripTrailingZeros (Nat.toDigits 10 m) = [] then []
            else '.' :: (List.replicate ((-X).toNat - 1) '0'
              ++ stripTrailingZeros (Nat.toDigits 10 m))) := by
        rw [if_neg hne2]
        simp [String.data_append]
      rw [hform, parseUnsigned_fixed ['0'] _ (by simp) (by intro ch h; simp at h; rw [h]; decide)
        hall]
      rw [digitsValue_append, digitsValue_zeros]
      unfold scale10
      rw [if_neg (by omega)]
      have he : (-(X - 5)).toNat
          = ((-X).toNat - 1 + (stripTrailingZeros (Nat.toDigits 10 m)).length) + j := by omega
      rw [he]
      simp only [List.length_append, List.length_replicate]
      have := frac_value 0 (digitsValue (stripTrailingZeros (Nat.toDigits 10 m)))
        ((-X).toNat - 1 + (stripTrailingZeros (Nat.toDigits 10 m)).length) j m (by simpa using hm)
      simpa [digitsValue] using this
  · rw [if_neg hfix]
    have hX : X ≠ 0 := by omega
    have hexp := parseExponent_field X
    have hform : (String.mk ((Nat.toDigits 10 m).take 1) ++ fractionText ((Nat.toDigits 10 m).drop 1)
          ++ "e" ++ (if X < 0 then "-" else "+") ++ (if X.natAbs < 10 then "0" else "")
          ++ toString X.natAbs : String).data
        = ((Nat.toDigits 10 m).take 1
            ++ (if stripTrailingZeros ((Nat.toDigits 10 m).drop 1) = [] then []
                else '.' :: stripTrailingZeros ((Nat.toDigits 10 m).drop 1)))
          ++ 'e' :: (((if X < 0 then "-" else "+") ++ (if X.natAbs < 10 then "0" else "")
            ++ toString X.natAbs : String).data) := by
      simp only [String.data_append, fractionText_data, List.append_assoc]
      rfl
    rw [hform, parseUnsigned_scientific _ _ _ X (htne 1 (by omega)) (htake 1) (hstrip 1) hexp,
      split_value, hval]
    have hd : ((Nat.toDigits 10 m).drop 1).length = 5 := by
      rw [List.length_drop, hlen]
    rw [hd]
    exact congrArg some (scale10_shift _ _)

/-- Reading the text `operator<<` prints for a positive value gives the value
rounded to six significant digits. -/
theorem parseUnsigned_renderPositive (q : ℚ) (hq : 0 < q) :
    parseUnsigned (renderPositive q.num.natAbs q.den).data = some (sixDigitValue q) := by
  have hn : 0 < q.num.natAbs := Int.natAbs_pos.mpr (ne_of_gt (Rat.num_pos.mpr hq))
  obtain ⟨h1, h2⟩ := sixDigits_range q.num.natAbs q.den hn q.den_pos
  exact parseUnsigned_formatDigits _ _ h1 h2

/-- A character of a printed number: a digit, the decimal point, the exponent
mark or a sign. -/
theorem formatDigits_chars (m : Nat) (X : Int) :
    ∀ ch ∈ (formatDigits m X).data,
      ch.isDigit = true ∨ ch = '.' ∨ ch = 'e' ∨ ch = '+' ∨ ch = '-' := by
  have hdig := toDigits_isDigit m
  have hs : ∀ l : List Char, (∀ ch ∈ l, ch.isDigit = true) →
      ∀ ch ∈ (fractionText l).data, ch.isDigit = true ∨ ch = '.' := by
    intro l hl ch hch
    rw [fractionText_data] at hch
    split at hch
    · cases hch
    · rcases List.mem_cons.mp hch with rfl | h
      · exact Or.inr rfl
      · exact Or.inl (hl ch (stripTrailingZeros_subset _ ch h))
  intro ch hch
  unfold formatDigits at hch
  simp only [] at hch
  split at hch
  · split at hch
    · simp only [String.data_append, List.mem_append] at hch
      rcases hch with h | h
      · exact Or.inl (hdig ch (List.mem_of_mem_take h))
      · rcases hs _ (fun c hc => hdig c (List.mem_of_mem_drop hc)) ch h with h | h
        · exact Or.inl h
        · exact Or.inr (Or.inl h)
    · simp only [String.data_append, List.mem_append] at hch
      rcases hch with (h | h) | h
      · have : ch = '0' ∨ ch = '.' := by simpa using h
        rcases this with rfl | rfl
        · exact Or.inl (by decide)
        · exact Or.inr (Or.inl rfl)
      · rw [List.eq_of_mem_replicate h]; exact Or.inl (by decide)
      · exact Or.inl (hdig ch (stripTrailingZeros_subset _ ch h))
  · simp only [String.data_append, List.mem_append, toString_nat_data] at hch
    rcases hch with ((((h | h) | h) | h) | h) | h
    · exact Or.inl (hdig ch (List.mem_of_mem_take h))
    · rcases hs _ (fun c hc => hdig c (List.mem_of_mem_drop hc)) ch h with h | h
      · exact Or.inl h
      · exact Or.inr (Or.inl h)
    · exact Or.inr (Or.inr (Or.inl (by simpa using h)))
    · split at h
      · exact Or.inr (Or.inr (Or.inr (Or.inr (by simpa using h))))
      · exact Or.inr (Or.inr (Or.inr (Or.inl (by simpa using h))))
    · split at h
      · have : ch = '0' := by simpa using h
        rw [this]; exact Or.inl (by decide)
      · simp at h
    · exact Or.inl (toDigits_isDigit _ ch h)

theorem head_append (s t : String)
    (h : ∃ c rest, s.data = c :: rest ∧ c.isDigit = true) :
    ∃ c rest, (s ++ t).data = c :: rest ∧ c.isDigit = true := by
  obtain ⟨c, rest, hs, hc⟩ := h
  exact ⟨c, rest ++ t.data, by rw [String.data_append, hs]; rfl, hc⟩

/-- A printed number starts with a digit. -/
theorem formatDigits_head (m : Nat) (X : Int) :
    ∃ c rest, (formatDigits m X).data = c :: rest ∧ c.isDigit = true := by
  have hdig := toDigits_isDigit m
  have hne : Nat.toDigits 10 m ≠ [] := toDigitsCore_ne_nil _ _ _ (Nat.succ_pos m)
  have htake : ∀ k : Nat, ∃ c rest, (String.mk ((Nat.toDigits 10 m).take (k + 1))).data
      = c :: rest ∧ c.isDigit = true := by
    intro k
    cases hl : Nat.toDigits 10 m with
    | nil => exact absurd hl hne
    | cons c l =>
      refine ⟨c, l.take k, by simp, ?_⟩
      exact hdig c (by rw [hl]; exact List.mem_cons_self _ _)
  unfold formatDigits
  simp only []
  split
  · split
    · exact head_append _ _ (htake _)
    · exact head_append _ _ (head_append _ _ ⟨'0', ['.'], rfl, by decide⟩)
  · exact head_append _ _ (head_append _ _ (head_append _ _ (head_append _ _
      (head_append _ _ (htake 0)))))

theorem isDigit_cases (c : Char) (h : c.isDigit = true) :
    c ≠ 'n' ∧ c ≠ 'i' ∧ c ≠ '-' ∧ c.isWhitespace = false := by
  refine ⟨?_, ?_, ?_, isDigit_not_whitespace c h⟩ <;>
    (rintro rfl; simp [Char.isDigit] at h)

/-- Reading the text of a `double` back. -/
theorem parseDouble_render (x : Double) : parseDouble (render x).data = some (readBack x) := by
  cases x with
  | nan => decide
  | nnan => decide
  | pinf => decide
  | ninf => decide
  | nzero => decide!
  | val q =>
    show parseDouble (renderDouble q).data = some (readBack (Double.val q))
    unfold renderDouble readBack
    by_cases h0 : q = 0
    · subst h0
      decide!
    · rw [if_neg h0]
      simp only [h0, if_false]
      by_cases hneg : q < 0
      · rw [if_pos hneg, if_pos hneg]
        have hpos : 0 < -q := by linarith
        have hp := parseUnsigned_renderPositive (-q) hpos
        simp only [Rat.neg_num, Int.natAbs_neg, Rat.neg_den] at hp
        obtain ⟨c, rest, hc, hd⟩ := formatDigits_head (sixDigits q.num.natAbs q.den).1
          (sixDigits q.num.natAbs q.den).2
        have hc2 : (renderPositive q.num.natAbs q.den).data = c :: rest := hc
        obtain ⟨hn, hi, hm, _⟩ := isDigit_cases c hd
        have hdata : ("-" ++ renderPositive q.num.natAbs q.den : String).data
            = '-' :: c :: rest := by
          rw [String.data_append, hc2]; rfl
        rw [hdata]
        rw [hc2] at hp
        unfold parseDouble
        rw [if_neg (by simp), if_neg (by simp [hn]), if_neg (by simp), if_neg (by simp [hi])]
        simp only [hp, Option.map_some']
      · rw [if_neg hneg, if_neg hneg]
        have hpos : 0 < q := lt_of_le_of_ne (not_lt.mp hneg) (Ne.symm h0)
        have hp := parseUnsigned_renderPositive q hpos
        obtain ⟨c, rest, hc, hd⟩ := formatDigits_head (sixDigits q.num.natAbs q.den).1
          (sixDigits q.num.natAbs q.den).2
        have hc2 : (renderPositive q.num.natAbs q.den).data = c :: rest := hc
        obtain ⟨hn, hi, hm, _⟩ := isDigit_cases c hd
        have hdata : ("" ++ renderPositive q.num.natAbs q.den : String).data = c :: rest := by
          rw [String.data_append, hc2]; rfl
        rw [hdata]
        rw [hc2] at hp
        unfold parseDouble
        rw [if_neg (by simp [hn]), if_neg (by simp [hm]), if_neg (by simp [hi]),
          if_neg (by simp [hm])]
        split
        · rename_i heq
          cases heq
          exact absurd rfl hm
        · simp only [hp, Option.map_some']

/-- The text of a `double` is non-empty and free of whitespace. -/
theorem render_double_clean (x : Double) : IsWord (render x).data := by
  cases x with
  | nan => exact ⟨by decide, by decide⟩
  | nnan => exact ⟨by decide, by decide⟩
  | pinf => exact ⟨by decide, by decide⟩
  | ninf => exact ⟨by decide, by decide⟩
  | nzero => exact ⟨by decide, by decide⟩
  | val q =>
    show IsWord (renderDouble q).data
    unfold renderDouble
    by_cases h0 : q = 0
    · rw [if_pos h0]
      exact ⟨by decide, by decide⟩
    · rw [if_neg h0]
      obtain ⟨c, rest, hc, hd⟩ := formatDigits_head (sixDigits q.num.natAbs q.den).1
        (sixDigits q.num.natAbs q.den).2
      have hc2 : (renderPositive q.num.natAbs q.den).data = c :: rest := hc
      have hch : ∀ ch ∈ (renderPositive q.num.natAbs q.den).data, ch.isWhitespace = false := by
        intro ch h
        rcases formatDigits_chars _ _ ch h with h | rfl | rfl | rfl | rfl
        · exact isDigit_not_whitespace ch h
        all_goals decide
      constructor
      · rw [String.data_append, hc2]
        simp
      · intro ch h
        rw [String.data_append] at h
        rcases List.mem_append.mp h with h | h
        · split at h
          · have hd1 : ("-" : String).data = ['-'] := rfl
            rw [hd1] at h
            have : ch = '-' := by simpa using h
            rw [this]; decide
          · cases h
        · exact hch ch h

/-- Reading back a block of `double` columns gives, row by row, what each
printed value reads back as. -/
theorem parseBlock_double (cols : List (List Double)) (L : Nat) :
    parseBlockDouble (String.join ((List.range L).map fun i => rowText cols i ++ "\n"))
      = (List.range L).map fun i => (valuesAt cols i).map fun x => some (readBack x) := by
  unfold parseBlockDouble splitRows
  rw [block_data]
  show List.map (List.map parseDouble ∘ tokens) _ = _
  rw [← List.map_map, split_blockChars]
  · simp only [List.map_map]
    apply List.map_congr_left
    intro i _
    simp only [Function.comp_def, List.map_map]
    apply List.map_congr_left
    intro x _
    exact parseDouble_render x
  · intro ws hws w hw
    simp only [List.mem_map] at hws
    obtain ⟨i, _, rfl⟩ := hws
    simp only [List.mem_map] at hw
    obtain ⟨x, _, rfl⟩ := hw
    exact render_double_clean x

/-! ### Values with at most six significant digits -/

theorem scale10_eq_zpow (a : ℚ) (k : Int) : scale10 a k = a * (10 : ℚ) ^ k := by
  unfold scale10
  by_cases h : 0 ≤ k
  · rw [if_pos h]
    obtain ⟨t, rfl⟩ := Int.eq_ofNat_of_zero_le h
    simp
  · rw [if_neg h]
    obtain ⟨t, ht⟩ := Int.eq_ofNat_of_zero_le (by omega : 0 ≤ -k)
    have hk : k = -(t : Int) := by omega
    rw [ht, hk]
    simp [div_eq_mul_inv]

theorem pow10Le_iff_zpow (e : Int) (n d : Nat) (hd : 0 < d) :
    pow10Le e n d = true ↔ (10 : ℚ) ^ e ≤ (n : ℚ) / (d : ℚ) := by
  have hdq : (0 : ℚ) < (d : ℚ) := by exact_mod_cast hd
  rw [pow10Le_true, le_div_iff₀ hdq]
  by_cases h : 0 ≤ e
  · obtain ⟨t, rfl⟩ := Int.eq_ofNat_of_zero_le h
    simp only [Int.toNat_ofNat, zpow_natCast]
    constructor
    · rintro (⟨_, h1⟩ | ⟨h1, _⟩)
      · exact_mod_cast h1
      · omega
    · intro h1
      exact Or.inl ⟨h, by exact_mod_cast h1⟩
  · obtain ⟨t, ht⟩ := Int.eq_ofNat_of_zero_le (by omega : 0 ≤ -e)
    have hk : e = -(t : Int) := by omega
    subst hk
    have htn : (- -(t : Int)).toNat = t := by simp
    rw [htn, zpow_neg, zpow_natCast]
    have hp : (0 : ℚ) < (10 : ℚ) ^ t := by positivity
    rw [inv_mul_le_iff₀ hp]
    constructor
    · rintro (⟨h1, _⟩ | ⟨_, h1⟩)
      · omega
      · have : ((d : Nat) : ℚ) ≤ ((n * 10 ^ t : Nat) : ℚ) := by exact_mod_cast h1
        push_cast at this
        linarith
    · intro h1
      refine Or.inr ⟨by omega, ?_⟩
      have : ((d : Nat) : ℚ) ≤ ((n * 10 ^ t : Nat) : ℚ) := by
        push_cast
        linarith
      exact_mod_cast this

/-- The decimal exponent of a value known to lie in the decade of `X`. -/
theorem decimalExponent_unique (n d : Nat) (X : Int) (hn : 0 < n) (hd : 0 < d)
    (h1 : (10 : ℚ) ^ X ≤ (n : ℚ) / (d : ℚ)) (h2 : (n : ℚ) / (d : ℚ) < (10 : ℚ) ^ (X + 1)) :
    decimalExponent n d = X := by
  obtain ⟨s1, s2⟩ := decimalExponent_spec n d hn hd
  rw [pow10Le_iff_zpow _ _ _ hd] at s1
  have s2' : (n : ℚ) / (d : ℚ) < (10 : ℚ) ^ (decimalExponent n d + 1) := by
    by_contra hc
    have := (pow10Le_iff_zpow (decimalExponent n d + 1) n d hd).mpr (not_lt.mp hc)
    rw [this] at s2
    cases s2
  have ha : (10 : ℚ) ^ X < (10 : ℚ) ^ (decimalExponent n d + 1) := lt_of_le_of_lt h1 s2'
  have hb : (10 : ℚ) ^ (decimalExponent n d) < (10 : ℚ) ^ (X + 1) := lt_of_le_of_lt s1 h2
  have h10 : (1 : ℚ) < 10 := by norm_num
  have ha' := (zpow_lt_zpow_iff_right₀ h10).mp ha
  have hb' := (zpow_lt_zpow_iff_right₀ h10).mp hb
  omega

theorem roundHalfEven_exact (M b : Nat) (hb : 0 < b) : roundHalfEven (M * b) b = M := by
  unfold roundHalfEven
  simp only [Nat.mul_mod_left, Nat.mul_div_cancel _ hb]
  simp [hb]

/-- A value `M * 10 ^ K` with six digits `M` is printed with these digits. -/
theorem sixDigits_exact (n d M : Nat) (K : Int) (hn : 0 < n) (hd : 0 < d)
    (h1 : 100000 ≤ M) (h2 : M < 1000000)
    (hq : (n : ℚ) / (d : ℚ) = (M : ℚ) * (10 : ℚ) ^ K) :
    sixDigits n d = (M, K + 5) := by
  have hdq : (0 : ℚ) < (d : ℚ) := by exact_mod_cast hd
  have hM1 : (100000 : ℚ) ≤ (M : ℚ) := by exact_mod_cast h1
  have hM2 : (M : ℚ) < 1000000 := by exact_mod_cast h2
  have hK : (0 : ℚ) < (10 : ℚ) ^ K := by positivity
  have hX : decimalExponent n d = K + 5 := by
    apply decimalExponent_unique n d (K + 5) hn hd
    · rw [hq, zpow_add₀ (by norm_num : (10 : ℚ) ≠ 0)]
      have : (10 : ℚ) ^ (5 : Int) = 100000 := by norm_num
      rw [this]
      nlinarith
    · rw [hq, show K + 5 + 1 = K + 6 by ring, zpow_add₀ (by norm_num : (10 : ℚ) ≠ 0)]
      have : (10 : ℚ) ^ (6 : Int) = 1000000 := by norm_num
      rw [this]
      nlinarith
  have hs : significand6 n d (K + 5) = M := by
    unfold significand6
    by_cases hk : K + 5 ≤ 5
    · rw [if_pos hk]
      obtain ⟨t, ht⟩ := Int.eq_ofNat_of_zero_le (by omega : 0 ≤ -K)
      have hk2 : K = -(t : Int) := by omega
      have htn : (5 - (K + 5)).toNat = t := by omega
      rw [htn]
      have he : n * 10 ^ t = M * d := by
        rw [hk2, zpow_neg, zpow_natCast] at hq
        have hp : (0 : ℚ) < (10 : ℚ) ^ t := by positivity
        have : (n : ℚ) * (10 : ℚ) ^ t = (M : ℚ) * (d : ℚ) := by
          field_simp at hq
          linarith
        exact_mod_cast this
      rw [he]
      exact roundHalfEven_exact M d hd
    · rw [if_neg hk]
      obtain ⟨t, ht⟩ := Int.eq_ofNat_of_zero_le (by omega : 0 ≤ K)
      have htn : (K + 5 - 5).toNat = t := by omega
      rw [htn]
      have he : n = M * (d * 10 ^ t) := by
        rw [ht, zpow_natCast] at hq
        have : (n : ℚ) = (M : ℚ) * ((d : ℚ) * (10 : ℚ) ^ t) := by
          field_simp at hq
          linarith
        exact_mod_cast this
      rw [he]
      exact roundHalfEven_exact M _ (by positivity)
  unfold sixDigits
  simp only [hX, hs]
  have : M ≠ 1000000 := by omega
  simp [this]

/-- A positive value with at most six significant decimal digits is printed
exactly: reading its text back gives the value. -/
theorem sixDigitValue_exact (q : ℚ) (M : Nat) (K : Int) (h1 : 100000 ≤ M) (h2 : M < 1000000)
    (hq : q = scale10 (M : ℚ) K) : sixDigitValue q = q := by
  rw [scale10_eq_zpow] at hq
  have hM : (0 : ℚ) < (M : ℚ) := by exact_mod_cast (by omega : 0 < M)
  have hpos : 0 < q := by rw [hq]; positivity
  have hn : 0 < q.num.natAbs := Int.natAbs_pos.mpr (ne_of_gt (Rat.num_pos.mpr hpos))
  have hnd : ((q.num.natAbs : Nat) : ℚ) / ((q.den : Nat) : ℚ) = q := by
    have hnum : ((q.num.natAbs : Nat) : ℚ) = ((q.num : Int) : ℚ) := by
      have h : ((q.num.natAbs : Nat) : Int) = q.num :=
        Int.natAbs_of_nonneg (le_of_lt (Rat.num_pos.mpr hpos))
      have h2 := congrArg (fun z : Int => (z : ℚ)) h
      simp only [Int.cast_natCast] at h2
      exact h2
    rw [hnum]
    exact Rat.num_div_den q
  have hs := sixDigits_exact q.num.natAbs q.den M K hn q.den_pos h1 h2 (hnd.trans hq)
  unfold sixDigitValue
  rw [hs]
  simp only [add_sub_cancel_right]
  rw [scale10_eq_zpow, ← hq]

/-- The numeral printed for a finite `double` denotes the value rounded to six
significant digits. -/
theorem parseDecimal_renderDouble (q : ℚ) :
    parseDecimal (renderDouble q).data = some (sixDigitRounding q) := by
  unfold renderDouble sixDigitRounding
  by_cases h0 : q = 0
  · subst h0
    decide!
  · rw [if_neg h0, if_neg h0]
    obtain ⟨c, rest, hc, hd⟩ := formatDigits_head (sixDigits q.num.natAbs q.den).1
      (sixDigits q.num.natAbs q.den).2
    have hc2 : (renderPositive q.num.natAbs q.den).data = c :: rest := hc
    obtain ⟨_, _, hm, _⟩ := isDigit_cases c hd
    by_cases hneg : q < 0
    · rw [if_pos hneg, if_pos hneg]
      have hp := parseUnsigned_renderPositive (-q) (by linarith)
      simp only [Rat.neg_num, Int.natAbs_neg, Rat.neg_den] at hp
      have hdata : ("-" ++ renderPositive q.num.natAbs q.den : String).data
          = '-' :: (renderPositive q.num.natAbs q.den).data := by
        rw [String.data_append]; rfl
      rw [hdata]
      simp only [parseDecimal, hp, Option.map_some']
    · rw [if_neg hneg, if_neg hneg]
      have hpos : 0 < q := lt_of_le_of_ne (not_lt.mp hneg) (Ne.symm h0)
      have hp := parseUnsigned_renderPositive q hpos
      have hdata : ("" ++ renderPositive q.num.natAbs q.den : String).data = c :: rest := by
        rw [String.data_append, hc2]; rfl
      rw [hdata]
      rw [hc2] at hp
      unfold parseDecimal
      split
      · rename_i heq
        cases heq
        exact absurd rfl hm
      · exact hp

/-- A value with at most six significant decimal digits is its own rounding. -/
theorem sixDigitRounding_exact (q : ℚ) (h6 : SixDigit q) : sixDigitRounding q = q := by
  unfold sixDigitRounding
  by_cases h0 : q = 0
  · simp [h0]
  · rw [if_neg h0]
    rcases h6 with h6 | ⟨M, K, h1, h2, hq⟩
    · exact absurd h6 h0
    · by_cases hneg : q < 0
      · rw [if_pos hneg]
        rw [abs_of_neg hneg] at hq
        rw [sixDigitValue_exact (-q) M K h1 h2 hq]
        ring
      · rw [if_neg hneg]
        rw [abs_of_nonneg (not_lt.mp hneg)] at hq
        exact sixDigitValue_exact q M K h1 h2 hq

/-! ### The printed value is the nearest one with six digits -/

theorem roundHalfEven_error (a b : Nat) (hb : 0 < b) :
    2 * |((roundHalfEven a b : Nat) : ℚ) - (a : ℚ) / (b : ℚ)| ≤ 1 := by
  have hbq : (0 : ℚ) < (b : ℚ) := by exact_mod_cast hb
  have hdm : (a : ℚ) = (b : ℚ) * ((a / b : Nat) : ℚ) + ((a % b : Nat) : ℚ) := by
    exact_mod_cast (Nat.div_add_mod a b).symm
  have hr : ((a % b : Nat) : ℚ) < (b : ℚ) := by exact_mod_cast Nat.mod_lt a hb
  have hr0 : (0 : ℚ) ≤ ((a % b : Nat) : ℚ) := by positivity
  have hquot : (a : ℚ) / (b : ℚ) = ((a / b : Nat) : ℚ) + ((a % b : Nat) : ℚ) / (b : ℚ) := by
    rw [hdm]
    field_simp
    ring
  have hlow : ∀ (h : 2 * (a % b) ≤ b),
      2 * |((a / b : Nat) : ℚ) - (a : ℚ) / (b : ℚ)| ≤ 1 := by
    intro h
    have h' : 2 * ((a % b : Nat) : ℚ) ≤ (b : ℚ) := by exact_mod_cast h
    rw [hquot]
    have : ((a / b : Nat) : ℚ) - (((a / b : Nat) : ℚ) + ((a % b : Nat) : ℚ) / (b : ℚ))
        = -(((a % b : Nat) : ℚ) / (b : ℚ)) := by ring
    rw [this, abs_neg, abs_of_nonneg (div_nonneg hr0 (le_of_lt hbq))]
    rw [← mul_div_assoc, div_le_one hbq]
    exact h'
  have hhigh : ∀ (h : b ≤ 2 * (a % b)),
      2 * |((a / b + 1 : Nat) : ℚ) - (a : ℚ) / (b : ℚ)| ≤ 1 := by
    intro h
    have h' : (b : ℚ) ≤ 2 * ((a % b : Nat) : ℚ) := by exact_mod_cast h
    rw [hquot]
    have : ((a / b + 1 : Nat) : ℚ) - (((a / b : Nat) : ℚ) + ((a % b : Nat) : ℚ) / (b : ℚ))
        = ((b : ℚ) - ((a % b : Nat) : ℚ)) / (b : ℚ) := by
      push_cast
      field_simp
      ring
    rw [this, abs_of_nonneg (div_nonneg (by linarith) (le_of_lt hbq))]
    rw [← mul_div_assoc, div_le_one hbq]
    linarith
  unfold roundHalfEven
  simp only []
  split
  · exact hlow (by omega)
  · split
    · exact hhigh (by omega)
    · split
      · exact hlow (by omega)
      · exact hhigh (by omega)

/-- The digits and the exponent printed for `n / d` denote the same value as
the six significant digits before the carry into a seventh. -/
theorem sixDigits_value (n d : Nat) :
    scale10 ((sixDigits n d).1 : ℚ) ((sixDigits n d).2 - 5)
      = (significand6 n d (decimalExponent n d) : ℚ) * (10 : ℚ) ^ (decimalExponent n d - 5) := by
  rw [scale10_eq_zpow]
  unfold sixDigits
  simp only []
  by_cases h : significand6 n d (decimalExponent n d) = 1000000
  · simp only [h, if_true]
    rw [show decimalExponent n d + 1 - 5 = (decimalExponent n d - 5) + 1 by ring,
      zpow_add₀ (by norm_num : (10 : ℚ) ≠ 0)]
    push_cast
    ring
  · simp only [h, if_false]

/-- The six significant digits of `n / d` for exponent `X`, scaled back, are
within half a unit of the sixth digit of `n / d`. -/
theorem significand6_error (n d : Nat) (X : Int) (hd : 0 < d) :
    2 * |(significand6 n d X : ℚ) * (10 : ℚ) ^ (X - 5) - (n : ℚ) / (d : ℚ)|
      ≤ (10 : ℚ) ^ (X - 5) := by
  have hdq : (0 : ℚ) < (d : ℚ) := by exact_mod_cast hd
  unfold significand6
  by_cases hx : X ≤ 5
  · rw [if_pos hx]
    obtain ⟨t, ht⟩ := Int.eq_ofNat_of_zero_le (by omega : 0 ≤ 5 - X)
    have htn : (5 - X).toNat = t := by omega
    have hX : X - 5 = -(t : Int) := by omega
    rw [htn]
    have he := roundHalfEven_error (n * 10 ^ t) d hd
    have hq2 : ((n * 10 ^ t : Nat) : ℚ) / (d : ℚ) = (n : ℚ) / (d : ℚ) * (10 : ℚ) ^ t := by
      push_cast
      field_simp
    rw [hq2] at he
    rw [hX, zpow_neg, zpow_natCast]
    have hp : (0 : ℚ) < (10 : ℚ) ^ t := by positivity
    have : (roundHalfEven (n * 10 ^ t) d : ℚ) * ((10 : ℚ) ^ t)⁻¹ - (n : ℚ) / (d : ℚ)
        = ((roundHalfEven (n * 10 ^ t) d : ℚ) - (n : ℚ) / (d : ℚ) * (10 : ℚ) ^ t)
          * ((10 : ℚ) ^ t)⁻¹ := by
      field_simp
      ring
    rw [this, abs_mul, abs_of_pos (inv_pos.mpr hp)]
    calc 2 * (|(roundHalfEven (n * 10 ^ t) d : ℚ) - (n : ℚ) / (d : ℚ) * (10 : ℚ) ^ t|
          * ((10 : ℚ) ^ t)⁻¹)
        = (2 * |(roundHalfEven (n * 10 ^ t) d : ℚ) - (n : ℚ) / (d : ℚ) * (10 : ℚ) ^ t|)
          * ((10 : ℚ) ^ t)⁻¹ := by ring
      _ ≤ 1 * ((10 : ℚ) ^ t)⁻¹ :=
          mul_le_mul_of_nonneg_right he (le_of_lt (inv_pos.mpr hp))
      _ = ((10 : ℚ) ^ t)⁻¹ := one_mul _
  · rw [if_neg hx]
    obtain ⟨t, ht⟩ := Int.eq_ofNat_of_zero_le (by omega : 0 ≤ X - 5)
    have htn : (X - 5).toNat = t := by omega
    rw [htn, ht, zpow_natCast]
    have hp : (0 : ℚ) < (10 : ℚ) ^ t := by positivity
    have he := roundHalfEven_error n (d * 10 ^ t) (by positivity)
    have hq2 : ((n : Nat) : ℚ) / ((d * 10 ^ t : Nat) : ℚ)
        = (n : ℚ) / (d : ℚ) / (10 : ℚ) ^ t := by
      push_cast
      field_simp
    rw [hq2] at he
    have : (roundHalfEven n (d * 10 ^ t) : ℚ) * (10 : ℚ) ^ t - (n : ℚ) / (d : ℚ)
        = ((roundHalfEven n (d * 10 ^ t) : ℚ) - (n : ℚ) / (d : ℚ) / (10 : ℚ) ^ t)
          * (10 : ℚ) ^ t := by
      field_simp
      ring
    rw [this, abs_mul, abs_of_pos hp]
    calc 2 * (|(roundHalfEven n (d * 10 ^ t) : ℚ) - (n : ℚ) / (d : ℚ) / (10 : ℚ) ^ t|
          * (10 : ℚ) ^ t)
        = (2 * |(roundHalfEven n (d * 10 ^ t) : ℚ) - (n : ℚ) / (d : ℚ) / (10 : ℚ) ^ t|)
          * (10 : ℚ) ^ t := by ring
      _ ≤ 1 * (10 : ℚ) ^ t := mul_le_mul_of_nonneg_right he (le_of_lt hp)
      _ = (10 : ℚ) ^ t := one_mul _

/-- The value printed for `q > 0` is a multiple of the unit of the sixth
significant digit of `q`, within half that unit of `q`. -/
theorem sixDigitValue_nearest (q : ℚ) (hq : 0 < q) :
    ∃ X : Int, (10 : ℚ) ^ X ≤ q ∧ q < (10 : ℚ) ^ (X + 1) ∧
      (∃ k : Nat, sixDigitValue q = (k : ℚ) * (10 : ℚ) ^ (X - 5)) ∧
      2 * |sixDigitValue q - q| ≤ (10 : ℚ) ^ (X - 5) := by
  have hn : 0 < q.num.natAbs := Int.natAbs_pos.mpr (ne_of_gt (Rat.num_pos.mpr hq))
  have hd := q.den_pos
  have hnd : ((q.num.natAbs : Nat) : ℚ) / ((q.den : Nat) : ℚ) = q := by
    have hnum : ((q.num.natAbs : Nat) : ℚ) = ((q.num : Int) : ℚ) := by
      have h : ((q.num.natAbs : Nat) : Int) = q.num :=
        Int.natAbs_of_nonneg (le_of_lt (Rat.num_pos.mpr hq))
      have h2 := congrArg (fun z : Int => (z : ℚ)) h
      simp only [Int.cast_natCast] at h2
      exact h2
    rw [hnum]
    exact Rat.num_div_den q
  obtain ⟨s1, s2⟩ := decimalExponent_spec q.num.natAbs q.den hn hd
  rw [pow10Le_iff_zpow _ _ _ hd, hnd] at s1
  have s2' : q < (10 : ℚ) ^ (decimalExponent q.num.natAbs q.den + 1) := by
    by_contra hc
    have := (pow10Le_iff_zpow (decimalExponent q.num.natAbs q.den + 1) _ _ hd).mpr
      (by rw [hnd]; exact not_lt.mp hc)
    rw [this] at s2
    cases s2
  have hv : sixDigitValue q = _ := sixDigits_value q.num.natAbs q.den
  refine ⟨decimalExponent q.num.natAbs q.den, s1, s2', ⟨_, hv⟩, ?_⟩
  have he := significand6_error q.num.natAbs q.den (decimalExponent q.num.natAbs q.den) hd
  rw [hnd] at he
  rw [hv]
  exact he

/-- The computed rounding is the rounding to six significant digits. -/
theorem sixDigitRounding_nearest (q : ℚ) (hq : q ≠ 0) :
    IsSixDigitRounding q (sixDigitRounding q) := by
  unfold IsSixDigitRounding sixDigitRounding
  rw [if_neg hq]
  by_cases hneg : q < 0
  · rw [if_pos hneg, abs_of_neg hneg]
    obtain ⟨X, h1, h2, ⟨k, hk⟩, h4⟩ := sixDigitValue_nearest (-q) (by linarith)
    refine ⟨X, h1, h2, ⟨k, ?_⟩, ?_⟩
    · rw [abs_neg, hk]
      exact abs_of_nonneg (by positivity)
    · have : -sixDigitValue (-q) - q = -(sixDigitValue (-q) - -q) := by ring
      rw [this, abs_neg]
      exact h4
  · rw [if_neg hneg]
    have hpos : 0 < q := lt_of_le_of_ne (not_lt.mp hneg) (Ne.symm hq)
    rw [abs_of_pos hpos]
    obtain ⟨X, h1, h2, ⟨k, hk⟩, h4⟩ := sixDigitValue_nearest q hpos
    refine ⟨X, h1, h2, ⟨k, ?_⟩, h4⟩
    rw [hk]
    exact abs_of_nonneg (by positivity)

theorem sixDigitValue_pos (q : ℚ) (hq : 0 < q) : 0 < sixDigitValue q := by
  have hn : 0 < q.num.natAbs := Int.natAbs_pos.mpr (ne_of_gt (Rat.num_pos.mpr hq))
  obtain ⟨h1, _⟩ := sixDigits_range q.num.natAbs q.den hn q.den_pos
  unfold sixDigitValue
  rw [scale10_eq_zpow]
  have : (0 : ℚ) < ((sixDigits q.num.natAbs q.den).1 : ℚ) := by
    exact_mod_cast (by omega : 0 < (sixDigits q.num.natAbs q.den).1)
  positivity

theorem scale2_pos (m : Nat) (s : Int) (hm : m ≠ 0) : 0 < scale2 m s := by
  have hm0 : 0 < m := Nat.pos_of_ne_zero hm
  unfold scale2
  split
  · exact_mod_cast Nat.mul_pos hm0 (by positivity)
  · have h1 : (0 : ℚ) < (m : ℚ) := by exact_mod_cast hm0
    have h2 : (0 : ℚ) < ((2 ^ (-s).toNat : Nat) : ℚ) := by exact_mod_cast (by positivity)
    exact div_pos h1 h2

theorem packMagnitude_neg (b : Bool) (m : Nat) (s : Int) :
    packMagnitude (!b) m s = (packMagnitude b m s).neg := by
  unfold packMagnitude
  by_cases hm : m = 0
  · rw [if_pos hm, if_pos hm]
    cases b <;> simp [Double.zero, Double.neg]
  · rw [if_neg hm, if_neg hm]
    by_cases hi : (2 : ℚ) ^ 1024 ≤ scale2 m s
    · rw [if_pos hi, if_pos hi]
      cases b <;> simp [Double.inf, Double.neg]
    · rw [if_neg hi, if_neg hi]
      have hp := scale2_pos m s hm
      have hne : scale2 m s ≠ 0 := ne_of_gt hp
      cases b <;> simp [Double.neg, hne]

/-- Rounding commutes with the sign. -/
theorem round64_neg (q : ℚ) (hq : q ≠ 0) : round64 (-q) = (round64 q).neg := by
  unfold round64
  rw [if_neg hq, if_neg (by simpa using hq)]
  simp only [Rat.neg_num, Int.natAbs_neg, Rat.neg_den]
  have hd : decide (-q < 0) = !decide (q < 0) := by
    rcases lt_or_gt_of_ne hq with h | h
    · have h2 : ¬ (-q < 0) := by linarith
      simp [h, h2]
    · have h2 : -q < 0 := by linarith
      have h3 : ¬ q < 0 := by linarith
      simp [h2, h3]
  rw [hd]
  exact packMagnitude_neg _ _ _

/-- What is read back for a finite non-zero `double`: the `double` nearest to
its rounding to six significant digits. -/
theorem readBack_val (q : ℚ) (hq : q ≠ 0) :
    readBack (Double.val q) = round64 (sixDigitRounding q) := by
  unfold readBack sixDigitRounding
  simp only [hq, if_false]
  by_cases hneg : q < 0
  · rw [if_pos hneg, if_pos hneg]
    exact (round64_neg _ (ne_of_gt (sixDigitValue_pos (-q) (by linarith)))).symm
  · rw [if_neg hneg, if_neg hneg]

/-- A `double` with at most six significant decimal digits is read back as
itself. -/
theorem readBack_exact (q : ℚ) (hd : IsDouble q) (h6 : SixDigit q) :
    readBack (Double.val q) = Double.val q := by
  unfold IsDouble at hd
  unfold readBack
  by_cases h0 : q = 0
  · simp [h0]
  · simp only [h0, if_false]
    rcases h6 with h6 | ⟨M, K, h1, h2, hq⟩
    · exact absurd h6 h0
    · by_cases hneg : q < 0
      · rw [if_pos hneg]
        rw [abs_of_neg hneg] at hq
        rw [sixDigitValue_exact (-q) M K h1 h2 hq, round64_neg q h0, hd]
        simp [Double.neg, h0]
      · rw [if_neg hneg]
        rw [abs_of_nonneg (not_lt.mp hneg)] at hq
        rw [sixDigitValue_exact q M K h1 h2 hq, hd]

/-! ## Round trip of an encoded block -/

theorem rows_eq_zip {α β : Type} (f : α → β) (x y : List α) (hlen : y.length = x.length) :
    ((List.range x.length).map fun i => (valuesAt [x, y] i).map f)
      = List.zipWith (fun a b => [f a, f b]) x y := by
  apply List.ext_getElem
  · simp [hlen]
  · intro i h1 h2
    have hi : i < x.length := by simpa using h1
    have hcols : ∀ s ∈ [x, y], i < s.length := by
      intro s hs
      simp only [List.mem_cons, List.mem_singleton, List.not_mem_nil, or_false] at hs
      rcases hs with rfl | rfl
      · exact hi
      · omega
    have hxi : x[i]? = some x[i] := List.getElem?_eq_getElem hi
    have hyi : y[i]? = some y[i] := List.getElem?_eq_getElem (by omega : i < y.length)
    simp only [List.getElem_map, List.getElem_range, List.getElem_zipWith, valuesAt,
      List.filterMap_cons, List.filterMap_nil, hxi, hyi, List.map_cons, List.map_nil]

/-- The block `plot(x, y)` appends, for any element type: whenever the call
returns it has appended one 2D series whose block is the rows of `x` and `y`,
and it returns when the dimensionality check passes. -/
theorem plot_block {α : Type} [StreamInsert α] (g : Gnuplot) (label : String)
    (style : LineStyle) (x y : List α) (hx : x ≠ []) (hlen : y.length = x.length) :
    (∀ g1, plot g x y label style = .ok g1 →
      ∃ s : GnuplotSeries, g1 = { g with series := g.series ++ [s], is_3dplot := false } ∧
        s.data_string
          = String.join ((List.range x.length).map fun i => rowText [x, y] i ++ "\n")) ∧
    (dimOk g false → ∃ g1, plot g x y label style = .ok g1) := by
  have hargs : ∀ a ∈ [y], x.length ≤ a.length := by
    intro a ha
    rw [List.mem_singleton] at ha
    subst ha
    omega
  constructor
  · intro g1 h
    obtain ⟨hdim, _⟩ := plot_ok_inv g g1 label style false x [y] hx h
    unfold plot at h
    rw [plot_appends g label style false x [y] hx hdim hargs] at h
    cases h
    exact ⟨_, rfl, rfl⟩
  · intro hdim
    exact ⟨_, plot_appends g label style false x [y] hx hdim hargs⟩

/-- C3 (amended).  For non-empty sequences `x` and `y` of equal length, whenever
`plot(x, y)` returns it has appended a series whose data block, split into rows
and each row into whitespace-separated tokens, reads back as follows, and it
returns when the dimensionality check passes.  For elements of an integer type
that is not a character type, the tokens of row `i` read as decimal integers
are exactly `x[i]` and `y[i]`.  For `double` elements, the tokens read as
`double`s are `x[i]` and `y[i]` themselves when these are zeros, infinities or
NaN, and for a finite non-zero value the `double` nearest to the value rounded
to six significant decimal digits (the multiple of the unit of its sixth
digit within half a unit of it): the value itself when it has at most six
significant decimal digits (as `0.5` or `123456`; also `0.1`), but `1234570`
for `1234567`. -/
theorem plot_round_trip (g : Gnuplot) (label : String) (style : LineStyle) :
    (∀ x y : List Int, x ≠ [] → y.length = x.length →
      (∀ g1, plot g x y label style = .ok g1 →
        ∃ s : GnuplotSeries, g1 = { g with series := g.series ++ [s], is_3dplot := false } ∧
          parseBlock s.data_string = List.zipWith (fun a b => [some a, some b]) x y) ∧
      (dimOk g false → ∃ g1, plot g x y label style = .ok g1)) ∧
    (∀ x y : List Double, x ≠ [] → y.length = x.length →
      (∀ g1, plot g x y label style = .ok g1 →
        ∃ s : GnuplotSeries, g1 = { g with series := g.series ++ [s], is_3dplot := false } ∧
          parseBlockDouble s.data_string
            = List.zipWith (fun a b => [some (readBack a), some (readBack b)]) x y) ∧
      (dimOk g false → ∃ g1, plot g x y label style = .ok g1)) ∧
    (∀ q : ℚ, q ≠ 0 → readBack (Double.val q) = round64 (sixDigitRounding q) ∧
      IsSixDigitRounding q (sixDigitRounding q)) ∧
    (∀ q : ℚ, IsDouble q → SixDigit q → readBack (Double.val q) = Double.val q) ∧
    (readBack Double.nan = Double.nan ∧ readBack Double.nnan = Double.nnan ∧
      readBack Double.pinf = Double.pinf ∧ readBack Double.ninf = Double.ninf ∧
      readBack Double.nzero = Double.nzero ∧ readBack (Double.val 0) = Double.val 0) ∧
    (readBack (Double.val (1 / 2)) = Double.val (1 / 2) ∧ readBack 123456 = 123456 ∧
      readBack (round64 (1 / 10)) = round64 (1 / 10) ∧ readBack 1234567 = 1234570) := by
  refine ⟨?_, ?_, fun q hq => ⟨readBack_val q hq, sixDigitRounding_nearest q hq⟩,
    readBack_exact, ⟨rfl, rfl, rfl, rfl, rfl, by decide!⟩,
    ⟨by decide!, by decide!, by decide!, by decide!⟩⟩
  · intro x y hx hlen
    obtain ⟨h1, h2⟩ := plot_block g label style x y hx hlen
    refine ⟨?_, h2⟩
    intro g1 h
    obtain ⟨s, hs, hd⟩ := h1 g1 h
    refine ⟨s, hs, ?_⟩
    rw [hd, parseBlock_int, rows_eq_zip some x y hlen]
  · intro x y hx hlen
    obtain ⟨h1, h2⟩ := plot_block g label style x y hx hlen
    refine ⟨?_, h2⟩
    intro g1 h
    obtain ⟨s, hs, hd⟩ := h1 g1 h
    refine ⟨s, hs, ?_⟩
    rw [hd, parseBlock_double, rows_eq_zip (fun a => some (readBack a)) x y hlen]

/-- Witness of `plot_round_trip`: the integer sequences `[1, -2]`, `[30, 4]`,
the `double` sequences `[0.5, 1234567]`, `[-0.0, inf]`, and the values
`1234567` and `1.25`. -/
theorem plot_round_trip_witness :
    ((∀ g1, plot (construct true false) [(1 : Int), -2] [30, 4] "" LineStyle.LINES = .ok g1 →
        ∃ s : GnuplotSeries,
          g1 = { construct true false with
            series := (construct true false).series ++ [s], is_3dplot := false } ∧
          parseBlock s.data_string
            = List.zipWith (fun a b => [some a, some b]) [(1 : Int), -2] [30, 4]) ∧
      (dimOk (construct true false) false →
        ∃ g1, plot (construct true false) [(1 : Int), -2] [30, 4] "" LineStyle.LINES = .ok g1)) ∧
    ((∀ g1, plot (construct true false) [Double.val (1 / 2), 1234567] [Double.nzero, Double.pinf]
          "" LineStyle.LINES = .ok g1 →
        ∃ s : GnuplotSeries,
          g1 = { construct true false with
            series := (construct true false).series ++ [s], is_3dplot := false } ∧
          parseBlockDouble s.data_string
            = List.zipWith (fun a b => [some (readBack a), some (readBack b)])
                [Double.val (1 / 2), 1234567] [Double.nzero, Double.pinf]) ∧
      (dimOk (construct true false) false →
        ∃ g1, plot (construct true false) [Double.val (1 / 2), 1234567]
          [Double.nzero, Double.pinf] "" LineStyle.LINES = .ok g1)) ∧
    (readBack (Double.val 1234567) = round64 (sixDigitRounding 1234567) ∧
      IsSixDigitRounding 1234567 (sixDigitRounding 1234567)) ∧
    readBack (Double.val (5 / 4)) = Double.val (5 / 4) :=
  ⟨(plot_round_trip (construct true false) "" LineStyle.LINES).1 [1, -2] [30, 4]
      (by decide) (by decide),
   (plot_round_trip (construct true false) "" LineStyle.LINES).2.1
      [Double.val (1 / 2), 1234567] [Double.nzero, Double.pinf] (by decide) (by decide),
   (plot_round_trip (construct true false) "" LineStyle.LINES).2.2.1 1234567 (by decide!),
   (plot_round_trip (construct true false) "" LineStyle.LINES).2.2.2.1 (5 / 4) (by decide!)
      (Or.inr ⟨125000, -5, by decide, by decide, by decide!⟩)⟩

/-- The block written for `[0.5, 1234567]` against `[-0.0, inf]`, and what a
reader gets from it. -/
theorem plot_double_block_example :
    plot (construct true false) [Double.val (1 / 2), 1234567] [Double.nzero, Double.pinf] ""
        LineStyle.LINES
      = .ok { construct true false with
          series := [⟨"0.5 -0 \n1.23457e+06 inf \n", LineStyle.LINES, "", "1:2"⟩]
          is_3dplot := false } ∧
    parseBlockDouble "0.5 -0 \n1.23457e+06 inf \n"
      = [[some (Double.val (1 / 2)), some Double.nzero], [some 1234570, some Double.pinf]] := by
  constructor <;> decide!

/-- C3 (as stated) fails for `double` sequences and for character sequences.
`operator<<` keeps six significant digits of a `double`, so `plot([1234567], [0])`
and `plot([1234570], [0])` write the same data block and no reader can recover
`x` from it.  And it writes a `char` as the character, not as a number: the
block of `plot({'A'}, {'B'})` is the row `A B`, whose tokens are not numerals. -/
theorem plot_double_round_trip_fails :
    (¬ ∃ reader : String → List (Double × Double),
      ∀ x y : List Double, x ≠ [] → y.length = x.length →
        ∀ g1, plot (construct true false) x y "" LineStyle.LINES = .ok g1 →
          ∀ s ∈ g1.series, reader s.data_string = List.zip x y) ∧
    plot (construct true false) ['A'] ['B'] "" LineStyle.LINES
      = .ok { construct true false with
          series := [⟨"A B \n", LineStyle.LINES, "", "1:2"⟩], is_3dplot := false } ∧
    parseBlock "A B \n" = [[none, none]] ∧
    parseBlockDouble "A B \n" = [[none, none]] := by
  refine ⟨?_, by decide!, by decide!, by decide!⟩
  rintro ⟨reader, h⟩
  have e1 : plot (construct true false) [(1234567 : Double)] [0] "" LineStyle.LINES
      = .ok { construct true false with
          series := [⟨"1.23457e+06 0 \n", LineStyle.LINES, "", "1:2"⟩], is_3dplot := false } := by
    decide!
  have e2 : plot (construct true false) [(1234570 : Double)] [0] "" LineStyle.LINES
      = .ok { construct true false with
          series := [⟨"1.23457e+06 0 \n", LineStyle.LINES, "", "1:2"⟩], is_3dplot := false } := by
    decide!
  have h1 := h [1234567] [0] (by simp) rfl _ e1 _ (List.mem_singleton.mpr rfl)
  have h2 := h [1234570] [0] (by simp) rfl _ e2 _ (List.mem_singleton.mpr rfl)
  rw [h1] at h2
  exact absurd h2 (by decide!)

/-! ## Length mismatches -/

theorem check_consistency_fails (g : Gnuplot) (h : Inconsistent g) :
    check_consistency g = .error Fault.assertion := by
  unfold check_consistency
  by_cases h1 : g.list_of_x.length = g.list_of_y.length
  · have e1 : (g.list_of_x.length != g.list_of_y.length) = false := by simp [h1]
    rw [e1]
    simp only [Bool.false_eq_true, if_false]
    by_cases h2 : g.list_of_xerr ≠ [] ∧ g.list_of_xerr.length ≠ g.list_of_x.length
    · have hp : 0 < g.list_of_xerr.length := List.length_pos.mpr h2.1
      have e2 : (decide (g.list_of_xerr.length > 0)
          && g.list_of_xerr.length != g.list_of_x.length) = true := by
        simp [hp, h2.2]
      rw [e2]
      simp
    · split
      · rfl
      · by_cases h3 : g.list_of_yerr ≠ [] ∧ g.list_of_yerr.length ≠ g.list_of_y.length
        · have hp : 0 < g.list_of_yerr.length := List.length_pos.mpr h3.1
          have e3 : (decide (g.list_of_yerr.length > 0)
              && g.list_of_yerr.length != g.list_of_y.length) = true := by
            simp [hp, h3.2]
          rw [e3]
          simp
        · rcases h with h | h | h
          · exact absurd h1 h
          · exact absurd h h2
          · exact absurd h h3
  · have e1 : (g.list_of_x.length != g.list_of_y.length) = true := by simp [h1]
    rw [e1]
    simp

theorem rowText_take {α : Type} [StreamInsert α] (cols : List (List α)) (L i : Nat) (hi : i < L) :
    rowText (cols.map (List.take L)) i = rowText cols i := by
  have : valuesAt (cols.map (List.take L)) i = valuesAt cols i := by
    induction cols with
    | nil => rfl
    | cons v args ih =>
      simp only [valuesAt, List.map_cons, List.filterMap_cons] at ih ⊢
      rw [List.getElem?_take_of_lt hi, ih]
  simp [rowText, this]

/-- A call of `_plot` only reads the first `v.size()` elements of each argument. -/
theorem plot_truncates {α : Type} [StreamInsert α] (g : Gnuplot) (label : String)
    (style : LineStyle) (d : Bool) (v : List α) (args : List (List α))
    (hv : v ≠ []) (hdim : dimOk g d) (hlen : ∀ a ∈ args, v.length ≤ a.length) :
    _plot g label style d v args = _plot g label style d v (args.map (List.take v.length)) := by
  have hlen2 : ∀ a ∈ args.map (List.take v.length), v.length ≤ a.length := by
    intro a ha
    obtain ⟨b, hb, rfl⟩ := List.mem_map.mp ha
    have := hlen b hb
    simp [List.length_take, this]
  rw [plot_appends g label style d v args hv hdim hlen,
    plot_appends g label style d v _ hv hdim hlen2, List.length_map]
  have hrows : ((List.range v.length).map fun i => rowText (v :: args) i ++ "\n")
      = (List.range v.length).map fun i =>
          rowText (v :: args.map (List.take v.length)) i ++ "\n" := by
    apply List.map_congr_left
    intro i hi
    have hi1 : i < v.length := List.mem_range.mp hi
    have := rowText_take (v :: args) v.length i hi1
    simp only [List.map_cons, List.take_length] at this
    rw [this]
  rw [hrows]

/-- C4 (amended).  Lengths are checked only by the accumulator variants: when the
accumulated sequences are inconsistent (`x` and `y` differ in length, or a
non-empty error sequence differs in length from them), `plot()`, `plot_xerr()`,
`plot_yerr()` and `plot_xyerr()` all stop on the assertion, so no series is
appended.  `_plot` itself, reached by the variants taking vectors, has no
length check: with a non-empty first sequence, a passing dimensionality check
and every other sequence at least as long as the first, the call returns and
equals the call on the sequences cut to the length of the first. -/
theorem length_mismatch_handling {α : Type} [StreamInsert α] (g : Gnuplot) (label : String)
    (style : LineStyle) :
    (Inconsistent g →
      plot_accumulated g label style = .error Fault.assertion ∧
      plot_xerr_accumulated g label = .error Fault.assertion ∧
      plot_yerr_accumulated g label = .error Fault.assertion ∧
      plot_xyerr_accumulated g label = .error Fault.assertion) ∧
    (∀ (d : Bool) (v : List α) (args : List (List α)),
      v ≠ [] → dimOk g d → (∀ a ∈ args, v.length ≤ a.length) →
        (∃ g1, _plot g label style d v args = .ok g1) ∧
        _plot g label style d v args
          = _plot g label style d v (args.map (List.take v.length))) := by
  constructor
  · intro h
    have hc := check_consistency_fails g h
    simp [plot_accumulated, plot_xerr_accumulated, plot_yerr_accumulated,
      plot_xyerr_accumulated, hc]
  · intro d v args hv hdim hlen
    exact ⟨⟨_, plot_appends g label style d v args hv hdim hlen⟩,
      plot_truncates g label style d v args hv hdim hlen⟩

/-- Witness of `length_mismatch_handling`: after `add_point_xerr` and then
`add_point` the accumulator is inconsistent; and `plot([1, 2], [3, 4, 5])`. -/
theorem length_mismatch_handling_witness :
    (plot_accumulated mixedAccumulator "" LineStyle.LINES = .error Fault.assertion ∧
      plot_xerr_accumulated mixedAccumulator "" = .error Fault.assertion ∧
      plot_yerr_accumulated mixedAccumulator "" = .error Fault.assertion ∧
      plot_xyerr_accumulated mixedAccumulator "" = .error Fault.assertion) ∧
    ((∃ g1, _plot mixedAccumulator "" LineStyle.LINES false [(1 : Int), 2] [[3, 4, 5]] = .ok g1) ∧
      _plot mixedAccumulator "" LineStyle.LINES false [(1 : Int), 2] [[3, 4, 5]]
        = _plot mixedAccumulator "" LineStyle.LINES false [(1 : Int), 2]
            ([[3, 4, 5]].map (List.take [(1 : Int), 2].length))) :=
  ⟨(@length_mismatch_handling Int _ mixedAccumulator "" LineStyle.LINES).1 (by decide!),
   (@length_mismatch_handling Int _ mixedAccumulator "" LineStyle.LINES).2 false [1, 2] [[3, 4, 5]]
     (by decide) (Or.inl (by decide!)) (by decide)⟩

/-- C4 (as stated) fails: `plot([1, 2], [3, 4, 5])` has a non-empty first
sequence and a second sequence of another length, yet it returns normally and
appends a series of two rows, the third element being dropped silently. -/
theorem plot_mismatch_not_fatal :
    plot (construct true false) [(1 : Int), 2] [3, 4, 5] "" LineStyle.LINES
      = .ok { construct true false with
          series := [⟨"1 3 \n2 4 \n", LineStyle.LINES, "", "1:2"⟩], is_3dplot := false } := by
  decide!

/-! ## Histogram -/

theorem tdiv_eq_floor (q : ℚ) (h : 0 ≤ q) : q.num.tdiv q.den = ⌊q⌋ := by
  rw [Rat.floor_def, Int.tdiv_eq_ediv (Rat.num_nonneg.mpr h) (by positivity)]

theorem int_of_size_t_small (n : Nat) (h : n ≤ 2147483647) : int_of_size_t n = (n : Int) := by
  unfold int_of_size_t
  omega

/-! ### The order of `double` -/

theorem double_lt_irrefl (a : Double) : a.lt a = false := by
  cases a <;> simp [Double.lt, Double.isnan, Double.toRat]

theorem double_lt_asymm (a b : Double) (h : a.lt b = true) : b.lt a = false := by
  cases a <;> cases b <;> simp_all [Double.lt, Double.isnan, Double.toRat] <;> linarith

theorem double_lt_trans (a b c : Double) (h1 : a.lt b = true) (h2 : b.lt c = true) :
    a.lt c = true := by
  cases a <;> cases b <;> cases c <;> simp_all [Double.lt, Double.isnan, Double.toRat] <;>
    linarith

/-- The scan of `std::min_element`: the result is the start value or below it,
and no scanned element is below the result. -/
theorem foldl_min_inv (xs : List Double) (x : Double) :
    (xs.foldl (fun smallest v => if v.lt smallest then v else smallest) x = x ∨
      (xs.foldl (fun smallest v => if v.lt smallest then v else smallest) x).lt x = true) ∧
    ∀ v ∈ xs, v.lt (xs.foldl (fun smallest v => if v.lt smallest then v else smallest) x)
      = false := by
  induction xs generalizing x with
  | nil => simp
  | cons a xs ih =>
    simp only [List.foldl_cons]
    obtain ⟨h1, h2⟩ := ih (if a.lt x then a else x)
    by_cases hax : a.lt x = true
    · rw [if_pos hax] at h1 h2 ⊢
      refine ⟨Or.inr ?_, ?_⟩
      · rcases h1 with h | h
        · rw [h]; exact hax
        · exact double_lt_trans _ _ _ h hax
      · intro v hv
        rcases List.mem_cons.mp hv with rfl | hv
        · rcases h1 with h | h
          · rw [h]; exact double_lt_irrefl _
          · exact double_lt_asymm _ _ h
        · exact h2 v hv
    · rw [if_neg hax] at h1 h2 ⊢
      refine ⟨h1, ?_⟩
      intro v hv
      rcases List.mem_cons.mp hv with rfl | hv
      · rcases h1 with h | h
        · rw [h]; simpa using hax
        · cases hc : v.lt (List.foldl (fun smallest v => if v.lt smallest then v else smallest) x xs)
          · rfl
          · exact absurd (double_lt_trans _ _ _ hc h) hax
      · exact h2 v hv

/-- No value is below the one `std::min_element` selects. -/
theorem min_element_not_above (values : List Double) :
    ∀ v ∈ values, v.lt (min_element values) = false := by
  cases values with
  | nil => intro v hv; cases hv
  | cons x xs =>
    intro v hv
    obtain ⟨h1, h2⟩ := foldl_min_inv xs x
    rcases List.mem_cons.mp hv with rfl | hv
    · rcases h1 with h | h
      · show v.lt (xs.foldl _ v) = false
        rw [h]; exact double_lt_irrefl _
      · exact double_lt_asymm _ _ h
    · exact h2 v hv

theorem foldl_max_mem (xs : List Double) (x : Double) :
    xs.foldl (fun largest v => if largest.lt v then v else largest) x = x ∨
    xs.foldl (fun largest v => if largest.lt v then v else largest) x ∈ xs := by
  induction xs generalizing x with
  | nil => simp
  | cons a xs ih =>
    simp only [List.foldl_cons]
    rcases ih (if x.lt a then a else x) with h | h
    · rw [h]
      split
      · exact Or.inr (List.mem_cons_self _ _)
      · exact Or.inl rfl
    · exact Or.inr (List.mem_cons_of_mem _ h)

/-- The value `std::max_element` selects is one of the values. -/
theorem max_element_mem (values : List Double) (hne : values ≠ []) :
    max_element values ∈ values := by
  cases values with
  | nil => exact absurd rfl hne
  | cons x xs =>
    rcases foldl_max_mem xs x with h | h
    · show xs.foldl _ x ∈ x :: xs
      rw [h]; exact List.mem_cons_self _ _
    · exact List.mem_cons_of_mem _ h

/-! ### Signs in the arithmetic of `double` -/

theorem scale2_nonneg (m : Nat) (s : Int) : 0 ≤ scale2 m s := by
  unfold scale2
  split <;> positivity

theorem round64_notNegative (q : ℚ) (h : 0 ≤ q) : (round64 q).NotNegative := by
  intro r hr
  unfold round64 at hr
  have hq : ¬ q < 0 := not_lt.mpr h
  split at hr
  · cases hr; exact le_refl _
  · simp only [hq, decide_False, packMagnitude, Double.zero, Double.inf] at hr
    split at hr
    · simp at hr; rw [← hr]
    · split at hr
      · simp at hr
      · simp at hr; rw [← hr]; exact scale2_nonneg _ _

theorem zero_notNegative (s : Bool) : (Double.zero s).NotNegative := by
  intro r hr
  cases s <;> simp [Double.zero] at hr
  rw [← hr]

theorem inf_notNegative (s : Bool) : (Double.inf s).NotNegative := by
  intro r hr
  cases s <;> simp [Double.inf] at hr

theorem add_finite_notNegative (a b : Double) (ha : a.isnan = false) (hb : b.isnan = false)
    (hai : a.isinf = false) (hbi : b.isinf = false) (h : 0 ≤ a.toRat + b.toRat) :
    (a.add b).NotNegative := by
  unfold Double.add
  simp only [ha, hb, hai, hbi, Bool.or_self, Bool.false_eq_true, if_false]
  split
  · exact zero_notNegative _
  · split
    · intro r hr; cases hr; exact le_refl _
    · exact round64_notNegative _ h

theorem neg_val (q : ℚ) :
    (Double.val q).neg = Double.nzero ∧ q = 0 ∨ (Double.val q).neg = Double.val (-q) := by
  by_cases h : q = 0
  · exact Or.inl ⟨by simp [Double.neg, h], h⟩
  · exact Or.inr (by simp [Double.neg, h])

theorem neg_toRat (b : Double) : b.neg.toRat = - b.toRat := by
  cases b with
  | val q =>
    rcases neg_val q with ⟨h, h0⟩ | h
    · rw [h]; simp [Double.toRat, h0]
    · rw [h]; simp [Double.toRat]
  | _ => simp [Double.neg, Double.toRat]

theorem neg_isnan (b : Double) : b.neg.isnan = b.isnan := by
  cases b with
  | val q => rcases neg_val q with ⟨h, _⟩ | h <;> rw [h] <;> rfl
  | _ => rfl

theorem neg_isinf (b : Double) : b.neg.isinf = b.isinf := by
  cases b with
  | val q => rcases neg_val q with ⟨h, _⟩ | h <;> rw [h] <;> rfl
  | _ => rfl

/-- A difference `a - b` with `a` not below `b` is not a negative value. -/
theorem sub_notNegative (a b : Double) (h : a.lt b = false) : (a - b).NotNegative := by
  show (a.add b.neg).NotNegative
  by_cases hn : a.isnan = true ∨ b.isnan = true
  · intro r hr
    have : a.add b.neg = Double.nan := by
      unfold Double.add
      rw [neg_isnan]
      rcases hn with hn | hn <;> simp [hn]
    rw [this] at hr
    cases hr
  · have ha : a.isnan = false := by
      cases hc : a.isnan
      · rfl
      · exact absurd (Or.inl hc) hn
    have hb : b.isnan = false := by
      cases hc : b.isnan
      · rfl
      · exact absurd (Or.inr hc) hn
    by_cases hi : a.isinf = true ∨ b.isinf = true
    · intro r hr
      unfold Double.add at hr
      rw [neg_isnan, neg_isinf] at hr
      simp only [ha, hb, Bool.or_self, Bool.false_eq_true, if_false] at hr
      cases a <;> cases b <;>
        simp_all [Double.isinf, Double.isnan, Double.lt, Double.signbit, Double.neg]
    · have hai : a.isinf = false := by
        cases hc : a.isinf
        · rfl
        · exact absurd (Or.inl hc) hi
      have hbi : b.isinf = false := by
        cases hc : b.isinf
        · rfl
        · exact absurd (Or.inr hc) hi
      apply add_finite_notNegative a b.neg ha (by rw [neg_isnan]; exact hb) hai
        (by rw [neg_isinf]; exact hbi)
      rw [neg_toRat]
      cases a <;> cases b <;>
        simp_all [Double.isinf, Double.isnan, Double.lt, Double.toRat]

/-- A quotient of two values that are not negative is not a negative value. -/
theorem div_notNegative (a b : Double) (ha : a.NotNegative) (hb : b.NotNegative) :
    (a / b).NotNegative := by
  show (a.div b).NotNegative
  unfold Double.div
  split
  · intro r hr; cases hr
  · split
    · intro r hr; cases hr
    · split
      · exact inf_notNegative _
      · split
        · exact zero_notNegative _
        · rename_i h1 h2 h3 h4
          apply round64_notNegative
          cases a <;> cases b <;>
            simp_all [Double.isinf, Double.isnan, Double.iszero, Double.toRat]
          exact div_nonneg (ha _ rfl) (hb _ rfl)

theorem ofNat_notNegative (n : Nat) : (Double.ofNat n).NotNegative :=
  round64_notNegative _ (by positivity)

/-! ### Rounding error of `double` arithmetic -/

theorem toDigitsCore_two_length (fuel n : Nat) (acc : List Char) (h : n < fuel) (hn : 0 < n) :
    ∃ k : Nat, (Nat.toDigitsCore 2 fuel n acc).length = acc.length + k + 1 ∧
      2 ^ k ≤ n ∧ n < 2 ^ (k + 1) := by
  induction fuel generalizing n acc with
  | zero => omega
  | succ fuel ih =>
    simp only [Nat.toDigitsCore]
    split
    · rename_i h0
      refine ⟨0, by simp, by simpa using hn, ?_⟩
      simp only [zero_add, pow_one]
      omega
    · rename_i h0
      obtain ⟨k, hk, h1, h2⟩ := ih (n / 2) (Nat.digitChar (n % 2) :: acc) (by omega) (by omega)
      refine ⟨k + 1, by simp [hk]; omega, ?_, ?_⟩
      · rw [pow_succ]
        omega
      · rw [pow_succ]
        omega

theorem toDigits_two_length (n : Nat) (hn : 0 < n) :
    ∃ k : Nat, (Nat.toDigits 2 n).length = k + 1 ∧ 2 ^ k ≤ n ∧ n < 2 ^ (k + 1) := by
  obtain ⟨k, hk, h1, h2⟩ := toDigitsCore_two_length (n + 1) n [] (Nat.lt_succ_self n) hn
  exact ⟨k, by simpa using hk, h1, h2⟩

theorem pow2Le_true (e : Int) (n d : Nat) :
    pow2Le e n d = true ↔
      (0 ≤ e ∧ 2 ^ e.toNat * d ≤ n) ∨ (e < 0 ∧ d ≤ n * 2 ^ (-e).toNat) := by
  unfold pow2Le
  by_cases h : 0 ≤ e
  · simp [h]
  · simp [h]
    omega

theorem pow2Le_false (e : Int) (n d : Nat) :
    pow2Le e n d = false ↔
      (0 ≤ e ∧ n < 2 ^ e.toNat * d) ∨ (e < 0 ∧ n * 2 ^ (-e).toNat < d) := by
  unfold pow2Le
  by_cases h : 0 ≤ e
  · simp [h]
  · simp [h]
    omega

/-- The binary exponent brackets the value: `2 ^ e ≤ n / d < 2 ^ (e + 1)`. -/
theorem binaryExponent_spec (n d : Nat) (hn : 0 < n) (hd : 0 < d) :
    pow2Le (binaryExponent n d) n d = true ∧
    pow2Le (binaryExponent n d + 1) n d = false := by
  obtain ⟨ka, hka, ha1, ha2⟩ := toDigits_two_length n hn
  obtain ⟨kb, hkb, hb1, hb2⟩ := toDigits_two_length d hd
  unfold binaryExponent
  simp only [hka, hkb]
  have he : ((ka + 1 : Nat) : Int) - ((kb + 1 : Nat) : Int) = (ka : Int) - (kb : Int) := by
    push_cast; ring
  rw [he]
  by_cases hp : pow2Le ((ka : Int) - (kb : Int)) n d = true
  · rw [if_pos hp]
    refine ⟨hp, ?_⟩
    rw [pow2Le_false]
    by_cases hs : kb ≤ ka + 1
    · left
      refine ⟨by omega, ?_⟩
      have ht : ((ka : Int) - (kb : Int) + 1).toNat = ka + 1 - kb := by omega
      rw [ht]
      calc n < 2 ^ (ka + 1) := ha2
        _ = 2 ^ (ka + 1 - kb) * 2 ^ kb := by rw [← pow_add, Nat.sub_add_cancel hs]
        _ ≤ 2 ^ (ka + 1 - kb) * d := Nat.mul_le_mul_left _ hb1
    · right
      refine ⟨by omega, ?_⟩
      have ht : (-((ka : Int) - (kb : Int) + 1)).toNat = kb - (ka + 1) := by omega
      rw [ht]
      calc n * 2 ^ (kb - (ka + 1)) < 2 ^ (ka + 1) * 2 ^ (kb - (ka + 1)) :=
            Nat.mul_lt_mul_of_pos_right ha2 (by positivity)
        _ = 2 ^ kb := by rw [← pow_add]; congr 1; omega
        _ ≤ d := hb1
  · rw [if_neg hp]
    have hpf : pow2Le ((ka : Int) - (kb : Int)) n d = false := by
      cases hc : pow2Le ((ka : Int) - (kb : Int)) n d
      · rfl
      · exact absurd hc hp
    refine ⟨?_, by rw [sub_add_cancel]; exact hpf⟩
    rw [pow2Le_true]
    by_cases hs : kb + 1 ≤ ka
    · left
      refine ⟨by omega, ?_⟩
      have ht : ((ka : Int) - (kb : Int) - 1).toNat = ka - (kb + 1) := by omega
      rw [ht]
      have : 2 ^ (ka - (kb + 1)) * d ≤ 2 ^ (ka - (kb + 1)) * 2 ^ (kb + 1) :=
        Nat.mul_le_mul_left _ (le_of_lt hb2)
      calc 2 ^ (ka - (kb + 1)) * d ≤ 2 ^ (ka - (kb + 1)) * 2 ^ (kb + 1) := this
        _ = 2 ^ ka := by rw [← pow_add, Nat.sub_add_cancel hs]
        _ ≤ n := ha1
    · right
      refine ⟨by omega, ?_⟩
      have ht : (-((ka : Int) - (kb : Int) - 1)).toNat = kb + 1 - ka := by omega
      rw [ht]
      calc d ≤ 2 ^ (kb + 1) := le_of_lt hb2
        _ = 2 ^ ka * 2 ^ (kb + 1 - ka) := by rw [← pow_add]; congr 1; omega
        _ ≤ n * 2 ^ (kb + 1 - ka) := Nat.mul_le_mul_right _ ha1

theorem pow2Le_iff_zpow (e : Int) (n d : Nat) (hd : 0 < d) :
    pow2Le e n d = true ↔ (2 : ℚ) ^ e ≤ (n : ℚ) / (d : ℚ) := by
  have hdq : (0 : ℚ) < (d : ℚ) := by exact_mod_cast hd
  rw [pow2Le_true, le_div_iff₀ hdq]
  by_cases h : 0 ≤ e
  · obtain ⟨t, rfl⟩ := Int.eq_ofNat_of_zero_le h
    simp only [Int.toNat_ofNat, zpow_natCast]
    constructor
    · rintro (⟨_, h1⟩ | ⟨h1, _⟩)
      · exact_mod_cast h1
      · omega
    · intro h1
      exact Or.inl ⟨h, by exact_mod_cast h1⟩
  · obtain ⟨t, ht⟩ := Int.eq_ofNat_of_zero_le (by omega : 0 ≤ -e)
    have hk : e = -(t : Int) := by omega
    subst hk
    have htn : (- -(t : Int)).toNat = t := by simp
    rw [htn, zpow_neg, zpow_natCast]
    have hp : (0 : ℚ) < (2 : ℚ) ^ t := by positivity
    rw [inv_mul_le_iff₀ hp]
    constructor
    · rintro (⟨h1, _⟩ | ⟨_, h1⟩)
      · omega
      · have : ((d : Nat) : ℚ) ≤ ((n * 2 ^ t : Nat) : ℚ) := by exact_mod_cast h1
        push_cast at this
        linarith
    · intro h1
      refine Or.inr ⟨by omega, ?_⟩
      have : ((d : Nat) : ℚ) ≤ ((n * 2 ^ t : Nat) : ℚ) := by
        push_cast
        linarith
      exact_mod_cast this

theorem scale2_eq_zpow (m : Nat) (s : Int) : scale2 m s = (m : ℚ) * (2 : ℚ) ^ s := by
  unfold scale2
  by_cases h : 0 ≤ s
  · rw [if_pos h]
    obtain ⟨t, rfl⟩ := Int.eq_ofNat_of_zero_le h
    simp
  · rw [if_neg h]
    obtain ⟨t, ht⟩ := Int.eq_ofNat_of_zero_le (by omega : 0 ≤ -s)
    have hk : s = -(t : Int) := by omega
    rw [ht, hk]
    simp [div_eq_mul_inv]

/-- The rounded significand, scaled back, is within half a unit in the last
place of the value. -/
theorem roundedSignificand_error (n d : Nat) (hd : 0 < d) :
    2 * |scale2 (roundedSignificand n d).1 (roundedSignificand n d).2 - (n : ℚ) / (d : ℚ)|
      ≤ (2 : ℚ) ^ (roundedSignificand n d).2 := by
  have hdq : (0 : ℚ) < (d : ℚ) := by exact_mod_cast hd
  rw [scale2_eq_zpow]
  unfold roundedSignificand
  simp only []
  generalize (if binaryExponent n d < -1022 then (-1074 : Int) else binaryExponent n d - 52) = s
  by_cases hs : 0 ≤ s
  · rw [if_pos hs]
    obtain ⟨t, ht⟩ := Int.eq_ofNat_of_zero_le hs
    have htn : s.toNat = t := by omega
    rw [htn, ht, zpow_natCast]
    have hp : (0 : ℚ) < (2 : ℚ) ^ t := by positivity
    have he := roundHalfEven_error n (d * 2 ^ t) (by positivity)
    have hq2 : ((n : Nat) : ℚ) / ((d * 2 ^ t : Nat) : ℚ) = (n : ℚ) / (d : ℚ) / (2 : ℚ) ^ t := by
      push_cast
      field_simp
    rw [hq2] at he
    have : (roundHalfEven n (d * 2 ^ t) : ℚ) * (2 : ℚ) ^ t - (n : ℚ) / (d : ℚ)
        = ((roundHalfEven n (d * 2 ^ t) : ℚ) - (n : ℚ) / (d : ℚ) / (2 : ℚ) ^ t)
          * (2 : ℚ) ^ t := by
      field_simp
      ring
    rw [this, abs_mul, abs_of_pos hp]
    calc 2 * (|(roundHalfEven n (d * 2 ^ t) : ℚ) - (n : ℚ) / (d : ℚ) / (2 : ℚ) ^ t|
          * (2 : ℚ) ^ t)
        = (2 * |(roundHalfEven n (d * 2 ^ t) : ℚ) - (n : ℚ) / (d : ℚ) / (2 : ℚ) ^ t|)
          * (2 : ℚ) ^ t := by ring
      _ ≤ 1 * (2 : ℚ) ^ t := mul_le_mul_of_nonneg_right he (le_of_lt hp)
      _ = (2 : ℚ) ^ t := one_mul _
  · rw [if_neg hs]
    obtain ⟨t, ht⟩ := Int.eq_ofNat_of_zero_le (by omega : 0 ≤ -s)
    have htn : (-s).toNat = t := by omega
    have hX : s = -(t : Int) := by omega
    rw [htn]
    have he := roundHalfEven_error (n * 2 ^ t) d hd
    have hq2 : ((n * 2 ^ t : Nat) : ℚ) / (d : ℚ) = (n : ℚ) / (d : ℚ) * (2 : ℚ) ^ t := by
      push_cast
      field_simp
    rw [hq2] at he
    rw [hX, zpow_neg, zpow_natCast]
    have hp : (0 : ℚ) < (2 : ℚ) ^ t := by positivity
    have : (roundHalfEven (n * 2 ^ t) d : ℚ) * ((2 : ℚ) ^ t)⁻¹ - (n : ℚ) / (d : ℚ)
        = ((roundHalfEven (n * 2 ^ t) d : ℚ) - (n : ℚ) / (d : ℚ) * (2 : ℚ) ^ t)
          * ((2 : ℚ) ^ t)⁻¹ := by
      field_simp
      ring
    rw [this, abs_mul, abs_of_pos (inv_pos.mpr hp)]
    calc 2 * (|(roundHalfEven (n * 2 ^ t) d : ℚ) - (n : ℚ) / (d : ℚ) * (2 : ℚ) ^ t|
          * ((2 : ℚ) ^ t)⁻¹)
        = (2 * |(roundHalfEven (n * 2 ^ t) d : ℚ) - (n : ℚ) / (d : ℚ) * (2 : ℚ) ^ t|)
          * ((2 : ℚ) ^ t)⁻¹ := by ring
      _ ≤ 1 * ((2 : ℚ) ^ t)⁻¹ :=
          mul_le_mul_of_nonneg_right he (le_of_lt (inv_pos.mpr hp))
      _ = ((2 : ℚ) ^ t)⁻¹ := one_mul _

/-- The unit in the last place used for `n / d` is at most `2 ^ -52` times the
value, or the smallest subnormal. -/
theorem roundedSignificand_ulp (n d : Nat) (hn : 0 < n) (hd : 0 < d) :
    (2 : ℚ) ^ (roundedSignificand n d).2
      ≤ (2 : ℚ) ^ (-52 : Int) * ((n : ℚ) / (d : ℚ)) + (2 : ℚ) ^ (-1074 : Int) := by
  obtain ⟨s1, _⟩ := binaryExponent_spec n d hn hd
  rw [pow2Le_iff_zpow _ _ _ hd] at s1
  unfold roundedSignificand
  simp only []
  have h0 : (0 : ℚ) ≤ (n : ℚ) / (d : ℚ) := by positivity
  by_cases he : binaryExponent n d < -1022
  · rw [if_pos he]
    have : (0 : ℚ) ≤ (2 : ℚ) ^ (-52 : Int) * ((n : ℚ) / (d : ℚ)) := by positivity
    linarith
  · rw [if_neg he]
    rw [sub_eq_add_neg, zpow_add₀ (by norm_num : (2 : ℚ) ≠ 0)]
    have hp : (0 : ℚ) < (2 : ℚ) ^ (-52 : Int) := by positivity
    have hq : (0 : ℚ) < (2 : ℚ) ^ (-1074 : Int) := by positivity
    have := mul_le_mul_of_nonneg_right s1 (le_of_lt hp)
    linarith

theorem half_bound (A P B x C : ℚ) (he : 2 * A ≤ P) (hu : P ≤ B * x + C) :
    A ≤ B / 2 * x + C / 2 := by
  have e1 : B / 2 * x + C / 2 = (B * x + C) / 2 := by ring
  rw [e1]
  linarith

theorem overflow_bound (T S x Ux E K : ℚ) (hc : T ≤ S) (h1 : S - x ≤ Ux + E)
    (hu3 : Ux ≤ 1 / 4 * x) (hu2 : E ≤ 1) (hle : x ≤ 3 * K) (h4 : T = 4 * K)
    (h5 : 1 ≤ K / 8) : False := by
  linarith

/-- Rounding of a positive value below the overflow threshold: the result is
finite, not negative, and within `2 ^ -53` times the value plus `2 ^ -1075`
of it. -/
theorem round64_spec (x : ℚ) (hx : 0 < x) (hle : x ≤ 3 * (2 : ℚ) ^ (1022 : Nat)) :
    ∃ r : ℚ, round64 x = Double.val r ∧ 0 ≤ r ∧
      |r - x| ≤ (2 : ℚ) ^ (-53 : Int) * x + (2 : ℚ) ^ (-1075 : Int) := by
  have hn : 0 < x.num.natAbs := Int.natAbs_pos.mpr (ne_of_gt (Rat.num_pos.mpr hx))
  have hd := x.den_pos
  have hnd : ((x.num.natAbs : Nat) : ℚ) / ((x.den : Nat) : ℚ) = x := by
    have hnum : ((x.num.natAbs : Nat) : ℚ) = ((x.num : Int) : ℚ) := by
      have h : ((x.num.natAbs : Nat) : Int) = x.num :=
        Int.natAbs_of_nonneg (le_of_lt (Rat.num_pos.mpr hx))
      have h2 := congrArg (fun z : Int => (z : ℚ)) h
      simp only [Int.cast_natCast] at h2
      exact h2
    rw [hnum]
    exact Rat.num_div_den x
  have he := roundedSignificand_error x.num.natAbs x.den hd
  have hu := roundedSignificand_ulp x.num.natAbs x.den hn hd
  rw [hnd] at he hu
  have h53 : (2 : ℚ) ^ (-53 : Int) = (2 : ℚ) ^ (-52 : Int) / 2 := by
    rw [show (-53 : Int) = -52 + -1 by norm_num, zpow_add₀ (by norm_num : (2 : ℚ) ≠ 0)]
    norm_num
  have h1075 : (2 : ℚ) ^ (-1075 : Int) = (2 : ℚ) ^ (-1074 : Int) / 2 := by
    rw [show (-1075 : Int) = -1074 + -1 by norm_num, zpow_add₀ (by norm_num : (2 : ℚ) ≠ 0)]
    norm_num
  have herr : |scale2 (roundedSignificand x.num.natAbs x.den).1
      (roundedSignificand x.num.natAbs x.den).2 - x|
      ≤ (2 : ℚ) ^ (-53 : Int) * x + (2 : ℚ) ^ (-1075 : Int) := by
    rw [h53, h1075]
    exact half_bound _ _ _ _ _ he hu
  have hsn := scale2_nonneg (roundedSignificand x.num.natAbs x.den).1
    (roundedSignificand x.num.natAbs x.den).2
  unfold round64
  rw [if_neg (ne_of_gt hx)]
  simp only []
  have hneg : decide (x < 0) = false := by simp [le_of_lt hx]
  rw [hneg]
  unfold packMagnitude
  by_cases hm : (roundedSignificand x.num.natAbs x.den).1 = 0
  · rw [if_pos hm]
    refine ⟨0, rfl, le_refl _, ?_⟩
    have : scale2 (roundedSignificand x.num.natAbs x.den).1
        (roundedSignificand x.num.natAbs x.den).2 = 0 := by
      rw [scale2_eq_zpow, hm]
      simp
    rw [this] at herr
    exact herr
  · rw [if_neg hm]
    have hlt : ¬ ((2 : ℚ) ^ 1024 ≤ scale2 (roundedSignificand x.num.natAbs x.den).1
        (roundedSignificand x.num.natAbs x.den).2) := by
      intro hc
      have h1 := (abs_le.mp herr).2
      have hu1 : (2 : ℚ) ^ (-53 : Int) ≤ 1 / 4 := by norm_num
      have hu2 : (2 : ℚ) ^ (-1075 : Int) ≤ 1 := by norm_num
      have hu3 : (2 : ℚ) ^ (-53 : Int) * x ≤ 1 / 4 * x :=
        mul_le_mul_of_nonneg_right hu1 (le_of_lt hx)
      have h4 : (2 : ℚ) ^ 1024 = 4 * (2 : ℚ) ^ (1022 : Nat) := by norm_num
      have h5 : (1 : ℚ) ≤ (2 : ℚ) ^ (1022 : Nat) / 8 := by norm_num
      exact overflow_bound _ _ _ _ _ _ hc h1 hu3 hu2 hle h4 h5
    rw [if_neg hlt]
    exact ⟨_, rfl, hsn, herr⟩

/-! ### Finite operands -/

theorem finite_isnan (a : Double) (h : a.isfinite = true) : a.isnan = false := by
  cases a <;> simp_all [Double.isfinite, Double.isnan]

theorem finite_isinf (a : Double) (h : a.isfinite = true) : a.isinf = false := by
  cases a <;> simp_all [Double.isfinite, Double.isinf]

theorem finite_iszero (a : Double) (h : a.isfinite = true) :
    a.iszero = decide (a.toRat = 0) := by
  cases a <;> simp_all [Double.isfinite, Double.iszero, Double.toRat]

theorem iszero_finite (a : Double) (h : a.iszero = true) :
    a.isfinite = true ∧ a.toRat = 0 := by
  cases a <;> simp_all [Double.isfinite, Double.iszero, Double.toRat]

theorem neg_iszero (b : Double) : b.neg.iszero = b.iszero := by
  cases b with
  | val q =>
    rcases neg_val q with ⟨h, h0⟩ | h
    · rw [h]; simp [Double.iszero, h0]
    · rw [h]; simp [Double.iszero]
  | _ => rfl

theorem lt_false_finite (a b : Double) (ha : a.isfinite = true) (hb : b.isfinite = true)
    (h : a.lt b = false) : b.toRat ≤ a.toRat := by
  cases a <;> cases b <;> simp_all [Double.isfinite, Double.lt, Double.isnan, Double.toRat]

/-- The difference of two finite values of different value is the rounded
exact difference. -/
theorem sub_finite (a b : Double) (ha : a.isfinite = true) (hb : b.isfinite = true)
    (h : a.toRat ≠ b.toRat) : a - b = round64 (a.toRat - b.toRat) := by
  show a.add b.neg = _
  unfold Double.add
  rw [neg_isnan, neg_isinf, neg_iszero, neg_toRat, finite_isnan a ha, finite_isnan b hb,
    finite_isinf a ha, finite_isinf b hb, finite_iszero a ha, finite_iszero b hb]
  have h1 : ¬ (a.toRat = 0 ∧ b.toRat = 0) := fun hc => h (hc.1.trans hc.2.symm)
  have h2 : ¬ (a.toRat + -b.toRat = 0) := fun hc => h (by linarith)
  have h3 : (decide (a.toRat = 0) && decide (b.toRat = 0)) = false := by
    simpa using h1
  simp only [Bool.or_self, Bool.false_eq_true, if_false, h3, if_neg h2]
  rw [sub_eq_add_neg]

/-- The difference of two finite values of equal value is a zero. -/
theorem sub_finite_self (a b : Double) (ha : a.isfinite = true) (hb : b.isfinite = true)
    (h : a.toRat = b.toRat) : (a - b).iszero = true := by
  show (a.add b.neg).iszero = true
  unfold Double.add
  rw [neg_isnan, neg_isinf, neg_iszero, neg_toRat, finite_isnan a ha, finite_isnan b hb,
    finite_isinf a ha, finite_isinf b hb]
  have h2 : a.toRat + -b.toRat = 0 := by linarith
  simp only [Bool.or_self, Bool.false_eq_true, if_false, if_pos h2]
  split
  · unfold Double.zero
    split <;> simp [Double.iszero]
  · simp [Double.iszero]

/-- The quotient of two finite values that are not zero is the rounded exact
quotient. -/
theorem div_finite (a b : Double) (ha : a.isfinite = true) (hb : b.isfinite = true)
    (ha0 : a.toRat ≠ 0) (hb0 : b.toRat ≠ 0) : a / b = round64 (a.toRat / b.toRat) := by
  show a.div b = _
  unfold Double.div
  rw [finite_isnan a ha, finite_isnan b hb, finite_isinf a ha, finite_isinf b hb,
    finite_iszero a ha, finite_iszero b hb]
  simp [ha0, hb0]

/-- A zero divided by a finite value that is not zero is a zero. -/
theorem div_zero_left (a b : Double) (ha : a.iszero = true) (hb : b.isfinite = true)
    (hb0 : b.toRat ≠ 0) : a / b = Double.val 0 ∨ a / b = Double.nzero := by
  show a.div b = _ ∨ a.div b = _
  obtain ⟨haf, _⟩ := iszero_finite a ha
  unfold Double.div
  rw [finite_isnan a haf, finite_isnan b hb, finite_isinf a haf, finite_isinf b hb,
    finite_iszero b hb, ha]
  simp only [hb0, decide_False, Bool.or_self, Bool.false_eq_true, if_false, Bool.and_false,
    Bool.false_and, Bool.or_true, if_true, Bool.false_or, Bool.and_self]
  unfold Double.zero
  split
  · exact Or.inr rfl
  · exact Or.inl rfl

theorem foldl_min_mem (xs : List Double) (x : Double) :
    xs.foldl (fun smallest v => if v.lt smallest then v else smallest) x = x ∨
    xs.foldl (fun smallest v => if v.lt smallest then v else smallest) x ∈ xs := by
  induction xs generalizing x with
  | nil => simp
  | cons a xs ih =>
    simp only [List.foldl_cons]
    rcases ih (if a.lt x then a else x) with h | h
    · rw [h]
      split
      · exact Or.inr (List.mem_cons_self _ _)
      · exact Or.inl rfl
    · exact Or.inr (List.mem_cons_of_mem _ h)

/-- The value `std::min_element` selects is one of the values. -/
theorem min_element_mem (values : List Double) (hne : values ≠ []) :
    min_element values ∈ values := by
  cases values with
  | nil => exact absurd rfl hne
  | cons x xs =>
    rcases foldl_min_mem xs x with h | h
    · show xs.foldl _ x ∈ x :: xs
      rw [h]; exact List.mem_cons_self _ _
    · exact List.mem_cons_of_mem _ h

/-- The scan of `std::max_element`: the result is the start value or above it,
and no scanned element is above the result. -/
theorem foldl_max_inv (xs : List Double) (x : Double) :
    (xs.foldl (fun largest v => if largest.lt v then v else largest) x = x ∨
      x.lt (xs.foldl (fun largest v => if largest.lt v then v else largest) x) = true) ∧
    ∀ v ∈ xs, (xs.foldl (fun largest v => if largest.lt v then v else largest) x).lt v
      = false := by
  induction xs generalizing x with
  | nil => simp
  | cons a xs ih =>
    simp only [List.foldl_cons]
    obtain ⟨h1, h2⟩ := ih (if x.lt a then a else x)
    by_cases hxa : x.lt a = true
    · rw [if_pos hxa] at h1 h2 ⊢
      refine ⟨Or.inr ?_, ?_⟩
      · rcases h1 with h | h
        · rw [h]; exact hxa
        · exact double_lt_trans _ _ _ hxa h
      · intro v hv
        rcases List.mem_cons.mp hv with rfl | hv
        · rcases h1 with h | h
          · rw [h]; exact double_lt_irrefl _
          · exact double_lt_asymm _ _ h
        · exact h2 v hv
    · rw [if_neg hxa] at h1 h2 ⊢
      refine ⟨h1, ?_⟩
      intro v hv
      rcases List.mem_cons.mp hv with rfl | hv
      · rcases h1 with h | h
        · rw [h]; simpa using hxa
        · cases hc : (List.foldl (fun largest v => if largest.lt v then v else largest) x xs).lt v
          · rfl
          · exact absurd (double_lt_trans _ _ _ h hc) hxa
      · exact h2 v hv

/-- No value is above the one `std::max_element` selects. -/
theorem max_element_not_below (values : List Double) :
    ∀ v ∈ values, (max_element values).lt v = false := by
  cases values with
  | nil => intro v hv; cases hv
  | cons x xs =>
    intro v hv
    obtain ⟨h1, h2⟩ := foldl_max_inv xs x
    rcases List.mem_cons.mp hv with rfl | hv
    · rcases h1 with h | h
      · show (xs.foldl _ v).lt v = false
        rw [h]; exact double_lt_irrefl _
      · exact double_lt_asymm _ _ h
    · exact h2 v hv

/-! ### Error analysis of the bin index -/

theorem small_eta (u η β n Δ : ℚ) (hu0 : 0 < u) (hη : η ≤ u * β) (hβ0 : 0 < β)
    (hn : 1 ≤ n) (hΔ : n * β ≤ Δ) : η ≤ u * Δ ∧ η * n ≤ u * Δ ∧ 0 < Δ := by
  have h1 : β ≤ Δ := by nlinarith
  have h2 : u * β ≤ u * Δ := mul_le_mul_of_nonneg_left h1 (le_of_lt hu0)
  refine ⟨by linarith, ?_, by linarith⟩
  have h3 : u * (n * β) ≤ u * Δ := mul_le_mul_of_nonneg_left hΔ (le_of_lt hu0)
  have h4 : η * n ≤ u * β * n := mul_le_mul_of_nonneg_right hη (by linarith)
  nlinarith

/-- Lower bound of the computed difference and upper bound of a computed
numerator. -/
theorem diff_bounds (u η Δ x r : ℚ) (hu0 : 0 < u) (hηΔ : η ≤ u * Δ)
    (hxΔ : x ≤ Δ) (hr : |r - x| ≤ u * x + η) :
    r ≤ Δ * (1 + 2 * u) ∧ x * (1 - u) - u * Δ ≤ r := by
  obtain ⟨h1, h2⟩ := abs_le.mp hr
  have h3 : u * x ≤ u * Δ := mul_le_mul_of_nonneg_left hxΔ (le_of_lt hu0)
  constructor
  · nlinarith
  · nlinarith

/-- The computed bin count stays within a factor `1 ± 2u` of `n`. -/
theorem count_bounds (u η n N : ℚ) (hu0 : 0 < u) (hη : η ≤ u) (hn : 1 ≤ n)
    (hN : |N - n| ≤ u * n + η) : N ≤ n * (1 + 2 * u) ∧ n * (1 - 2 * u) ≤ N := by
  obtain ⟨h1, h2⟩ := abs_le.mp hN
  have h3 : u ≤ u * n := by nlinarith
  constructor
  · nlinarith
  · nlinarith

/-- Lower bound of the computed bin width. -/
theorem width_lower (u η Δ n d N b : ℚ) (hu0 : 0 < u) (hu : u ≤ 1 / 64)
    (hηn : η * n ≤ u * Δ) (hΔ : 0 < Δ) (hn : 1 ≤ n)
    (hd : Δ * (1 - 2 * u) ≤ d) (hN0 : 0 < N) (hN : N ≤ n * (1 + 2 * u))
    (hb : |b - d / N| ≤ u * (d / N) + η) : Δ * (1 - 6 * u) ≤ n * b := by
  obtain ⟨h1, _⟩ := abs_le.mp hb
  have hd0 : 0 < d := by nlinarith
  have hw0 : 0 < d / N := div_pos hd0 hN0
  have hwN : d / N * N = d := div_mul_cancel₀ d (ne_of_gt hN0)
  -- w * n * (1 + 2u) ≥ d
  have h2 : d ≤ d / N * (n * (1 + 2 * u)) := by
    calc d = d / N * N := hwN.symm
      _ ≤ d / N * (n * (1 + 2 * u)) := mul_le_mul_of_nonneg_left hN (le_of_lt hw0)
  have h3 : Δ * (1 - 4 * u) * (1 + 2 * u) ≤ d / N * n * (1 + 2 * u) := by
    have : Δ * (1 - 4 * u) * (1 + 2 * u) ≤ Δ * (1 - 2 * u) := by nlinarith [mul_pos hΔ (mul_pos hu0 hu0)]
    nlinarith
  have h4 : Δ * (1 - 4 * u) ≤ d / N * n :=
    le_of_mul_le_mul_right h3 (by linarith)
  have h5 : d / N * (1 - u) - η ≤ b := by linarith
  have h6 : n * (d / N * (1 - u) - η) ≤ n * b := mul_le_mul_of_nonneg_left h5 (by linarith)
  have h7 : Δ * (1 - 4 * u) * (1 - u) ≤ d / N * n * (1 - u) :=
    mul_le_mul_of_nonneg_right h4 (by linarith)
  nlinarith [mul_pos hΔ (mul_pos hu0 hu0)]

/-- Upper bound of a quotient numerator / bin width. -/
theorem quot_upper (u Δ n a b : ℚ) (hu0 : 0 < u) (hu : u ≤ 1 / 64) (hΔ : 0 < Δ)
    (hn : 1 ≤ n) (hb : Δ * (1 - 6 * u) ≤ n * b) (hb0 : 0 < b) (ha0 : 0 ≤ a)
    (ha : a ≤ Δ * (1 + 2 * u)) : a / b ≤ n * (1 + 9 * u) := by
  have ht0 : 0 ≤ a / b := div_nonneg ha0 (le_of_lt hb0)
  have htb : a / b * b = a := div_mul_cancel₀ a (ne_of_gt hb0)
  have h1 : a / b * (Δ * (1 - 6 * u)) ≤ a / b * (n * b) := mul_le_mul_of_nonneg_left hb ht0
  have h2 : a / b * (n * b) = n * a := by
    calc a / b * (n * b) = n * (a / b * b) := by ring
      _ = n * a := by rw [htb]
  have h3 : n * a ≤ n * (Δ * (1 + 2 * u)) := mul_le_mul_of_nonneg_left ha (by linarith)
  have h4 : (a / b * (1 - 6 * u)) * Δ ≤ (n * (1 + 2 * u)) * Δ := by nlinarith
  have h5 : a / b * (1 - 6 * u) ≤ n * (1 + 2 * u) := le_of_mul_le_mul_right h4 hΔ
  have h6 : n * (1 + 2 * u) ≤ n * (1 + 9 * u) * (1 - 6 * u) := by
    have : 0 ≤ n * u * (1 - 54 * u) := by
      apply mul_nonneg (mul_nonneg (by linarith) (le_of_lt hu0))
      linarith
    nlinarith
  have h7 : a / b * (1 - 6 * u) ≤ n * (1 + 9 * u) * (1 - 6 * u) := le_trans h5 h6
  exact le_of_mul_le_mul_right h7 (by linarith)

/-- The rounded quotient stays below `n + 1`. -/
theorem index_upper (u η n t r : ℚ) (hu0 : 0 < u) (hu : u ≤ 1 / 64) (hη : η ≤ u)
    (hnu : n * u ≤ 1 / 64) (ht : t ≤ n * (1 + 9 * u))
    (hr : |r - t| ≤ u * t + η) : r < n + 1 := by
  obtain ⟨_, h2⟩ := abs_le.mp hr
  have h3 : u * t ≤ u * (n * (1 + 9 * u)) := mul_le_mul_of_nonneg_left ht (le_of_lt hu0)
  have h4 : n * u * u ≤ 1 / 64 * u := mul_le_mul_of_nonneg_right hnu (le_of_lt hu0)
  nlinarith

theorem unit_roundoff_facts :
    (0 : ℚ) < (2 : ℚ) ^ (-53 : Int) ∧ (2 : ℚ) ^ (-53 : Int) ≤ 1 / 64 ∧
    (2 : ℚ) ^ (-1075 : Int) ≤ (2 : ℚ) ^ (-53 : Int) * (2 : ℚ) ^ (-1021 : Int) ∧
    (0 : ℚ) < (2 : ℚ) ^ (-1021 : Int) ∧ (2 : ℚ) ^ (-1075 : Int) ≤ (2 : ℚ) ^ (-53 : Int) ∧
    (2 : ℚ) ^ (-53 : Int) ≤ 1 / (64 * 2147483647) := by
  refine ⟨by positivity, by norm_num, ?_, by positivity, by norm_num, by norm_num⟩
  rw [← zpow_add₀ (by norm_num : (2 : ℚ) ≠ 0)]
  norm_num

/-- A quotient that is a zero or a finite value in `[0, nbins + 1)` yields a
valid bin index. -/
theorem bin_index_of_bounded (min binwidth v : Double) (nbins : Nat) (hn : 0 < nbins)
    (hmax : nbins ≤ 2147483647)
    (hq : (v - min) / binwidth = Double.nzero ∨
      ∃ r : ℚ, (v - min) / binwidth = Double.val r ∧ 0 ≤ r ∧ r < (nbins : ℚ) + 1) :
    ∃ k : Int, bin_index min binwidth nbins v = .ok k ∧ 0 ≤ k ∧ k < (nbins : Int) := by
  unfold bin_index
  rw [int_of_size_t_small nbins hmax]
  rcases hq with hq | ⟨r, hq, hr0, hr1⟩
  · rw [hq]
    refine ⟨0, ?_, le_refl _, by exact_mod_cast hn⟩
    have : ¬ ((0 : Int) ≥ (nbins : Int)) := by omega
    simp [static_cast_int, this]
  · rw [hq]
    have hf0 : 0 ≤ ⌊r⌋ := Int.floor_nonneg.mpr hr0
    have hf1 : ⌊r⌋ < (nbins : Int) + 1 := by
      rw [Int.floor_lt]
      push_cast
      exact hr1
    have hrange : INT_MIN ≤ ⌊r⌋ ∧ ⌊r⌋ ≤ INT_MAX := by
      unfold INT_MIN INT_MAX
      omega
    simp only [static_cast_int, tdiv_eq_floor r hr0, if_pos hrange]
    by_cases hge : ⌊r⌋ ≥ (nbins : Int)
    · have hmin : ¬ (⌊r⌋ = INT_MIN) := by
        unfold INT_MIN
        omega
      rw [if_pos hge, if_neg hmin]
      exact ⟨_, rfl, by omega, by omega⟩
    · rw [if_neg hge]
      exact ⟨_, rfl, hf0, by omega⟩

theorem pos_of_lower (u n N : ℚ) (hu : u ≤ 1 / 64) (hn : 1 ≤ n)
    (hN : n * (1 - 2 * u) ≤ N) : 0 < N ∧ 1 - 2 * u ≤ N := by
  have h1 : 0 < 1 - 2 * u := by linarith
  have h2 : 1 * (1 - 2 * u) ≤ n * (1 - 2 * u) := mul_le_mul_of_nonneg_right hn (le_of_lt h1)
  constructor <;> linarith

theorem pos_of_factor (u c Δ d : ℚ) (hu : c * u ≤ 1 / 2) (hΔ : 0 < Δ)
    (hd : Δ * (1 - c * u) ≤ d) : 0 < d := by
  have h1 : 0 < Δ * (1 - c * u) := mul_pos hΔ (by linarith)
  linarith

theorem width_quotient_le (u Δ d N K : ℚ) (hu0 : 0 < u) (hu : u ≤ 1 / 64) (hΔ : 0 < Δ)
    (hΔK : Δ ≤ 2 * K) (hd : d ≤ Δ * (1 + 2 * u)) (hN0 : 0 < N) (hN : 1 - 2 * u ≤ N) :
    d / N ≤ 3 * K := by
  rw [div_le_iff₀ hN0]
  have hK : 0 < K := by linarith
  have h1 : Δ * (1 + 2 * u) ≤ 2 * K * (1 + 2 * u) :=
    mul_le_mul_of_nonneg_right hΔK (by linarith)
  have h3 : 3 * K * (1 - 2 * u) ≤ 3 * K * N :=
    mul_le_mul_of_nonneg_left hN (by linarith)
  have h4 : 0 ≤ K * (1 - 10 * u) := mul_nonneg (le_of_lt hK) (by linarith)
  nlinarith

theorem index_quotient_le (u n t K : ℚ) (hu0 : 0 < u) (hu : u ≤ 1 / 64)
    (hn : n ≤ 2147483647) (hK : 4294967296 ≤ K) (ht : t ≤ n * (1 + 9 * u)) : t ≤ 3 * K := by
  have h1 : n * (1 + 9 * u) ≤ 2147483647 * (1 + 9 * u) :=
    mul_le_mul_of_nonneg_right hn (by linarith)
  linarith

theorem round64_spec_gen (u η K x : ℚ) (hu : u = (2 : ℚ) ^ (-53 : Int))
    (hη : η = (2 : ℚ) ^ (-1075 : Int)) (hK : K = (2 : ℚ) ^ (1022 : Nat)) (hx : 0 < x)
    (hle : x ≤ 3 * K) :
    ∃ r : ℚ, round64 x = Double.val r ∧ 0 ≤ r ∧ |r - x| ≤ u * x + η := by
  subst hu hη hK
  exact round64_spec x hx hle

/-- When the values are finite and their spread `max - min` lies between
`nbins * 2 ^ -1021` and `2 ^ 1023`, every quotient the counting loop forms is a
zero or a finite value in `[0, nbins + 1)`. -/
theorem quotient_bounded (values : List Double) (nbins : Nat) (hne : values ≠ [])
    (hfin : ∀ v ∈ values, v.isfinite = true) (hn : 0 < nbins) (hmax : nbins ≤ 2147483647)
    (hlo : (nbins : ℚ) * (2 : ℚ) ^ (-1021 : Int)
      ≤ (max_element values).toRat - (min_element values).toRat)
    (hhi : (max_element values).toRat - (min_element values).toRat
      ≤ (2 : ℚ) ^ (1023 : Nat)) :
    ∀ v ∈ values, (v - min_element values) / binWidth values nbins = Double.nzero ∨
      ∃ r : ℚ, (v - min_element values) / binWidth values nbins = Double.val r ∧ 0 ≤ r ∧
        r < (nbins : ℚ) + 1 := by
  obtain ⟨hu0, hu, hηβ, hβ0, hηu, hu31⟩ := unit_roundoff_facts
  obtain ⟨u, hud⟩ : ∃ u : ℚ, u = (2 : ℚ) ^ (-53 : Int) := ⟨_, rfl⟩
  obtain ⟨η, hηd⟩ : ∃ η : ℚ, η = (2 : ℚ) ^ (-1075 : Int) := ⟨_, rfl⟩
  obtain ⟨β, hβd⟩ : ∃ β : ℚ, β = (2 : ℚ) ^ (-1021 : Int) := ⟨_, rfl⟩
  obtain ⟨K, hKd⟩ : ∃ K : ℚ, K = (2 : ℚ) ^ (1022 : Nat) := ⟨_, rfl⟩
  have hK2 : (2 : ℚ) ^ (1023 : Nat) = 2 * K := by
    rw [hKd, pow_succ]
    ring
  have hK1 : (4294967296 : ℚ) ≤ K := by
    rw [hKd]
    norm_num
  rw [← hud, ← hηd, ← hβd] at hηβ
  rw [← hud] at hu0 hu hu31
  rw [← hβd] at hβ0 hlo
  rw [← hud, ← hηd] at hηu
  rw [hK2] at hhi
  have hmf : (min_element values).isfinite = true := hfin _ (min_element_mem values hne)
  have hMf : (max_element values).isfinite = true := hfin _ (max_element_mem values hne)
  have hn1 : (1 : ℚ) ≤ (nbins : ℚ) := by exact_mod_cast hn
  have hnmax : (nbins : ℚ) ≤ 2147483647 := by exact_mod_cast hmax
  generalize hΔd : (max_element values).toRat - (min_element values).toRat = Δ at hlo hhi
  obtain ⟨hηΔ, hηn, hΔ0⟩ := small_eta u η β nbins Δ hu0 hηβ hβ0 hn1 hlo
  -- the difference `max - min`
  have hD : max_element values - min_element values = round64 Δ := by
    rw [← hΔd]
    exact sub_finite _ _ hMf hmf (fun h => by rw [h] at hΔd; linarith)
  obtain ⟨d, hDv, hd0, hderr⟩ := round64_spec_gen u η K Δ hud hηd hKd hΔ0 (by linarith)
  obtain ⟨hdU, hdL⟩ := diff_bounds u η Δ Δ d hu0 hηΔ (le_refl _) hderr
  have hdL2 : Δ * (1 - 2 * u) ≤ d := by linarith
  -- the bin count as a `double`
  obtain ⟨N, hNv, hN0, hNerr⟩ :=
    round64_spec_gen u η K (nbins : ℚ) hud hηd hKd (by linarith) (by linarith)
  obtain ⟨hNU, hNL⟩ := count_bounds u η nbins N hu0 hηu hn1 hNerr
  obtain ⟨hNpos, hN1⟩ := pos_of_lower u nbins N hu hn1 hNL
  have hdpos : 0 < d := pos_of_factor u 2 Δ d (by linarith) hΔ0 hdL2
  -- the bin width
  have hbw : binWidth values nbins = round64 (d / N) := by
    unfold binWidth Double.ofNat
    rw [hD, hDv, hNv]
    exact div_finite (Double.val d) (Double.val N) rfl rfl (ne_of_gt hdpos) (ne_of_gt hNpos)
  have hdN : d / N ≤ 3 * K := width_quotient_le u Δ d N K hu0 hu hΔ0 hhi hdU hNpos hN1
  obtain ⟨b, hbv, hb0, hberr⟩ :=
    round64_spec_gen u η K (d / N) hud hηd hKd (div_pos hdpos hNpos) hdN
  have hbL := width_lower u η Δ nbins d N b hu0 hu hηn hΔ0 hn1 hdL2 hNpos hNU hberr
  have hbpos : 0 < b := by
    have h1 : 0 < (nbins : ℚ) * b := pos_of_factor u 6 Δ _ (by linarith) hΔ0 hbL
    exact (mul_pos_iff_of_pos_left (by linarith : (0 : ℚ) < (nbins : ℚ))).mp h1
  have hnu : (nbins : ℚ) * u ≤ 1 / 64 := by
    calc (nbins : ℚ) * u ≤ 2147483647 * u := mul_le_mul_of_nonneg_right hnmax (le_of_lt hu0)
      _ ≤ 2147483647 * (1 / (64 * 2147483647)) := mul_le_mul_of_nonneg_left hu31 (by norm_num)
      _ = 1 / 64 := by norm_num
  intro v hv
  have hvf := hfin v hv
  have hvm : (min_element values).toRat ≤ v.toRat :=
    lt_false_finite v _ hvf hmf (min_element_not_above values v hv)
  have hvM : v.toRat ≤ (max_element values).toRat :=
    lt_false_finite _ v hMf hvf (max_element_not_below values v hv)
  rw [hbw, hbv]
  by_cases heq : v.toRat = (min_element values).toRat
  · have hz := sub_finite_self v _ hvf hmf heq
    rcases div_zero_left (v - min_element values) (Double.val b) hz rfl (ne_of_gt hbpos)
      with h | h
    · exact Or.inr ⟨0, h, le_refl _, by linarith⟩
    · exact Or.inl h
  · have hx0 : 0 < v.toRat - (min_element values).toRat := by
      rcases lt_or_eq_of_le hvm with h | h
      · linarith
      · exact absurd h.symm heq
    have hA : v - min_element values = round64 (v.toRat - (min_element values).toRat) :=
      sub_finite v _ hvf hmf heq
    obtain ⟨a, hAv, ha0, haerr⟩ := round64_spec_gen u η K
      (v.toRat - (min_element values).toRat) hud hηd hKd hx0 (by linarith)
    obtain ⟨haU, _⟩ := diff_bounds u η Δ (v.toRat - (min_element values).toRat) a hu0 hηΔ
      (by linarith) haerr
    rw [hA, hAv]
    by_cases ha00 : a = 0
    · rw [ha00]
      rcases div_zero_left (Double.val 0) (Double.val b) (by simp [Double.iszero]) rfl
        (ne_of_gt hbpos) with h | h
      · exact Or.inr ⟨0, h, le_refl _, by linarith⟩
      · exact Or.inl h
    · have hapos : 0 < a := lt_of_le_of_ne ha0 (Ne.symm ha00)
      have hq := quot_upper u Δ nbins a b hu0 hu hΔ0 hn1 hbL hbpos ha0 haU
      have hquot : Double.val a / Double.val b = round64 (a / b) :=
        div_finite (Double.val a) (Double.val b) rfl rfl ha00 (ne_of_gt hbpos)
      have hab : a / b ≤ 3 * K := index_quotient_le u nbins (a / b) K hu0 hu hnmax hK1 hq
      obtain ⟨r, hrv, hr0, hrerr⟩ :=
        round64_spec_gen u η K (a / b) hud hηd hKd (div_pos hapos hbpos) hab
      exact Or.inr ⟨r, by rw [hquot, hrv], hr0,
        index_upper u η nbins (a / b) r hu0 hu hηu hnu hq hrerr⟩

/-- When the values are finite and their spread `max - min` lies between
`nbins * 2 ^ -1021` and `2 ^ 1023`, every index the counting loop computes is a
valid one. -/
theorem binsInRange_of_spread (values : List Double) (nbins : Nat) (hne : values ≠ [])
    (hfin : ∀ v ∈ values, v.isfinite = true) (hn : 0 < nbins) (hmax : nbins ≤ 2147483647)
    (hlo : (nbins : ℚ) * (2 : ℚ) ^ (-1021 : Int)
      ≤ (max_element values).toRat - (min_element values).toRat)
    (hhi : (max_element values).toRat - (min_element values).toRat
      ≤ (2 : ℚ) ^ (1023 : Nat)) :
    binsInRange (min_element values) (binWidth values nbins) nbins values = true := by
  unfold binsInRange
  rw [List.all_eq_true]
  intro v hv
  obtain ⟨k, hk, hk0, hk1⟩ := bin_index_of_bounded (min_element values)
    (binWidth values nbins) v nbins hn hmax
    (quotient_bounded values nbins hne hfin hn hmax hlo hhi v hv)
  rw [hk]
  simp [hk0, hk1]

/-- Every quotient the counting loop of `histogram` forms is not a negative value. -/
theorem quotient_notNegative (values : List Double) (nbins : Nat) (hne : values ≠ []) :
    ∀ v ∈ values, ((v - min_element values) / binWidth values nbins).NotNegative := by
  intro v hv
  apply div_notNegative
  · exact sub_notNegative _ _ (min_element_not_above values v hv)
  · apply div_notNegative
    · exact sub_notNegative _ _ (min_element_not_above values _ (max_element_mem values hne))
    · exact ofNat_notNegative nbins

/-! ### The bin index -/

/-- An index that lines 452 to 454 compute inside `[0, nbins - 1]`, from a
quotient that is not negative and for a bin count in the range of `int`, is the
bin of the specification. -/
theorem bin_index_binOf (min binwidth : Double) (nbins : Nat) (v : Double) (k : Int)
    (hq : ((v - min) / binwidth).NotNegative) (hmax : nbins ≤ 2147483647)
    (h : bin_index min binwidth nbins v = .ok k) (h0 : 0 ≤ k) (h1 : k < (nbins : Int)) :
    binOf min binwidth nbins v = some k := by
  unfold bin_index at h
  unfold binOf
  rw [int_of_size_t_small nbins hmax] at h
  cases hQ : (v - min) / binwidth with
  | val q =>
    have hq0 : 0 ≤ q := hq q hQ
    rw [hQ] at h
    simp only [static_cast_int, tdiv_eq_floor q hq0] at h
    simp only [floorOf, Option.map_some']
    split at h
    · cases h
    · rename_i index hc
      split at hc
      · cases hc
        split at h
        · split at h
          · cases h
          · cases h
            have : ⌊q⌋ = (nbins : Int) := by omega
            rw [if_pos this]
            congr 1
            omega
        · cases h
          rw [if_neg (by omega)]
      · cases hc
  | nzero =>
    rw [hQ] at h
    simp only [static_cast_int] at h
    simp only [floorOf, Option.map_some']
    split at h
    · split at h
      · cases h
      · cases h
        omega
    · cases h
      rw [if_neg (by omega)]
  | nan => rw [hQ] at h; simp [static_cast_int] at h
  | nnan => rw [hQ] at h; simp [static_cast_int] at h
  | pinf => rw [hQ] at h; simp [static_cast_int] at h
  | ninf => rw [hQ] at h; simp [static_cast_int] at h

theorem vector_at_incr_ok (bins : List Nat) (index : Int) (h0 : 0 ≤ index)
    (h1 : index < (bins.length : Int)) :
    vector_at_incr bins index
      = .ok (bins.set index.toNat (bins.getD index.toNat 0 + 1)) := by
  unfold vector_at_incr
  have : 0 ≤ index ∧ index.toNat < bins.length := ⟨h0, by omega⟩
  rw [if_pos this]

theorem getD_set_incr (bins : List Nat) (k i : Nat) (hk : k < bins.length) :
    (bins.set k (bins.getD k 0 + 1)).getD i 0 = bins.getD i 0 + if k = i then 1 else 0 := by
  simp only [List.getD_eq_getElem?_getD, List.getElem?_set]
  by_cases h : k = i
  · subst h
    simp [hk]
  · simp [h]

theorem binsInRange_cons (min binwidth : Double) (nbins : Nat) (v : Double)
    (rest : List Double) :
    binsInRange min binwidth nbins (v :: rest) = true ↔
      (∃ k : Int, bin_index min binwidth nbins v = .ok k ∧ 0 ≤ k ∧ k < (nbins : Int)) ∧
      binsInRange min binwidth nbins rest = true := by
  unfold binsInRange
  simp only [List.all_cons, Bool.and_eq_true]
  constructor
  · rintro ⟨h1, h2⟩
    refine ⟨?_, h2⟩
    cases hb : bin_index min binwidth nbins v with
    | ok k =>
      rw [hb] at h1
      exact ⟨k, rfl, by simpa using h1⟩
    | error e =>
      rw [hb] at h1
      cases h1
  · rintro ⟨⟨k, hk, h0, h1⟩, h2⟩
    refine ⟨?_, h2⟩
    rw [hk]
    simpa using ⟨h0, h1⟩

theorem binsInRange_iff (min binwidth : Double) (nbins : Nat) (values : List Double) :
    binsInRange min binwidth nbins values = true ↔
      ∀ v ∈ values, ∃ k : Int,
        bin_index min binwidth nbins v = .ok k ∧ 0 ≤ k ∧ k < (nbins : Int) := by
  induction values with
  | nil => simp [binsInRange]
  | cons v rest ih =>
    rw [binsInRange_cons, ih]
    simp

/-- The counting loop on values whose indices are all valid: it returns, and
adds to each bin the number of values with that index. -/
theorem histogram_count_ok (min binwidth : Double) (nbins : Nat) (values : List Double)
    (bins : List Nat) (hlen : bins.length = nbins)
    (hr : binsInRange min binwidth nbins values = true) :
    ∃ out, histogram_count min binwidth nbins values bins = .ok out ∧
      out.length = nbins ∧
      ∀ i : Nat, out.getD i 0 = bins.getD i 0 +
        values.countP fun v => decide (bin_index min binwidth nbins v = .ok (i : Int)) := by
  induction values generalizing bins with
  | nil => exact ⟨bins, rfl, hlen, fun i => by simp⟩
  | cons v rest ih =>
    obtain ⟨⟨k, hk, h0, h1⟩, hrest⟩ := (binsInRange_cons _ _ _ _ _).mp hr
    have hkl : k.toNat < bins.length := by omega
    have hinc := vector_at_incr_ok bins k h0 (by omega)
    obtain ⟨out, hout, holen, hget⟩ :=
      ih (bins.set k.toNat (bins.getD k.toNat 0 + 1))
        (by rw [List.length_set]; exact hlen) hrest
    refine ⟨out, ?_, holen, ?_⟩
    · simp only [histogram_count, hk, hinc]
      exact hout
    · intro i
      rw [hget i, getD_set_incr bins _ i hkl]
      simp only [List.countP_cons, decide_eq_true_eq, hk, Except.ok.injEq]
      have : (k.toNat = i) ↔ (k = (i : Int)) := by omega
      by_cases hb : k = (i : Int)
      · rw [if_pos (this.mpr hb), if_pos hb]; omega
      · rw [if_neg (fun h => hb (this.mp h)), if_neg hb]; omega

/-- When the counting loop returns, every index it computed was valid. -/
theorem histogram_count_inv (min binwidth : Double) (nbins : Nat) (values : List Double)
    (bins out : List Nat) (hlen : bins.length = nbins)
    (h : histogram_count min binwidth nbins values bins = .ok out) :
    binsInRange min binwidth nbins values = true := by
  induction values generalizing bins with
  | nil => rfl
  | cons v rest ih =>
    simp only [histogram_count] at h
    split at h
    · cases h
    · rename_i k hk
      split at h
      · cases h
      · rename_i bins1 hinc
        unfold vector_at_incr at hinc
        split at hinc
        · rename_i hin
          cases hinc
          refine (binsInRange_cons _ _ _ _ _).mpr ⟨⟨k, hk, hin.1, by omega⟩, ?_⟩
          exact ih _ (by rw [List.length_set]; exact hlen) h
        · cases hinc

/-- With valid indices, a quotient that is never negative and a bin count in
the range of `int`, the number of values with index `i` is the number of values
whose bin is `i`. -/
theorem countP_index_eq_binCount (min binwidth : Double) (nbins : Nat) (values : List Double)
    (hmax : nbins ≤ 2147483647)
    (hq : ∀ v ∈ values, ((v - min) / binwidth).NotNegative)
    (hr : binsInRange min binwidth nbins values = true) (i : Nat) :
    (values.countP fun v => decide (bin_index min binwidth nbins v = .ok (i : Int)))
      = binCount min binwidth nbins values i := by
  unfold binCount
  apply List.countP_congr
  intro v hv
  obtain ⟨k, hk, h0, h1⟩ := (binsInRange_iff _ _ _ _).mp hr v hv
  have hb := bin_index_binOf min binwidth nbins v k (hq v hv) hmax hk h0 h1
  rw [hk, hb]
  simp

theorem histogram_rows_eq (min binwidth : Double) (bins : List Nat) (n i : Nat) (os : String) :
    histogram_rows min binwidth bins n i os
      = os ++ String.join ((List.range' i n).map fun k =>
          histogramRow min binwidth (bins.getD k 0) k) := by
  induction n generalizing i os with
  | zero => simp [histogram_rows, join_nil]
  | succ n ih =>
    simp only [histogram_rows, ih, List.range'_succ, List.map_cons, join_cons, histogramRow]
    simp [String.append_assoc]

theorem dimOk_false_iff (g : Gnuplot) :
    (!g.series.isEmpty && g.is_3dplot) = false ↔ dimOk g false := by
  unfold dimOk
  cases hs : g.series <;> cases hf : g.is_3dplot <;> simp

/-- A call of `histogram` whose dimensionality check passes and whose indices
are all valid: the appended series, each row carrying the number of values
with the index of the row. -/
theorem histogram_eq (g : Gnuplot) (values : List Double) (nbins : Nat) (label : String)
    (style : LineStyle) (hne : values ≠ []) (hn : 0 < nbins) (hdim : dimOk g false)
    (hr : binsInRange (min_element values) (binWidth values nbins) nbins values = true) :
    histogram g values nbins label style
      = .ok { g with
          series := g.series ++
            [⟨String.join ((List.range nbins).map fun (i : Nat) =>
                histogramRow (min_element values) (binWidth values nbins)
                  (values.countP fun v => decide
                    (bin_index (min_element values) (binWidth values nbins) nbins v
                      = .ok (i : Int))) i),
              style, label, "1:2"⟩]
          is_3dplot := false } := by
  obtain ⟨out, hout, _, hget⟩ :=
    histogram_count_ok (min_element values) (binWidth values nbins) nbins values
      (List.replicate nbins 0) (List.length_replicate _ _) hr
  have hempty : values.isEmpty = false := by cases values <;> simp_all
  unfold binWidth at hout
  unfold histogram
  rw [if_neg (not_not.mpr hn), if_neg (by simp [hempty]),
    if_neg (by simp [(dimOk_false_iff g).mpr hdim])]
  simp only [hout, histogram_rows_eq, str_empty_append, List.range_eq_range']
  have hrows : ((List.range' 0 nbins).map fun k =>
        histogramRow (min_element values)
          ((max_element values - min_element values) / Double.ofNat nbins) (out.getD k 0) k)
      = (List.range' 0 nbins).map fun (i : Nat) =>
        histogramRow (min_element values) (binWidth values nbins)
          (values.countP fun v => decide
            (bin_index (min_element values) (binWidth values nbins) nbins v
              = .ok (i : Int))) i := by
    apply List.map_congr_left
    intro i hi
    have hi1 : i < nbins := by simpa using (List.mem_range'_1.mp hi).2
    rw [hget i]
    simp [List.getD_eq_getElem?_getD, List.getElem?_replicate, hi1, binWidth]
  rw [hrows]

/-- The appended series in the words of the specification, for a bin count in
the range of `int`: row `i` carries the number of values whose bin is `i`. -/
theorem histogram_appends (g : Gnuplot) (values : List Double) (nbins : Nat) (label : String)
    (style : LineStyle) (hne : values ≠ []) (hn : 0 < nbins) (hmax : nbins ≤ 2147483647)
    (hdim : dimOk g false)
    (hr : binsInRange (min_element values) (binWidth values nbins) nbins values = true) :
    histogram g values nbins label style
      = .ok { g with
          series := g.series ++
            [⟨String.join ((List.range nbins).map fun i =>
                histogramRow (min_element values) (binWidth values nbins)
                  (binCount (min_element values) (binWidth values nbins) nbins values i) i),
              style, label, "1:2"⟩]
          is_3dplot := false } := by
  rw [histogram_eq g values nbins label style hne hn hdim hr]
  simp only [countP_index_eq_binCount _ _ nbins values hmax
    (quotient_notNegative values nbins hne) hr]

theorem histogram_asserts (g : Gnuplot) (values : List Double) (nbins : Nat) (label : String)
    (style : LineStyle) (hne : values ≠ []) (hn : 0 < nbins) (hdim : ¬ dimOk g false) :
    histogram g values nbins label style = .error Fault.assertion := by
  have hempty : values.isEmpty = false := by cases values <;> simp_all
  have hb : (!g.series.isEmpty && g.is_3dplot) = true := by
    cases hc : (!g.series.isEmpty && g.is_3dplot)
    · exact absurd ((dimOk_false_iff g).mp hc) hdim
    · rfl
  unfold histogram
  rw [if_neg (not_not.mpr hn), if_neg (by simp [hempty]), if_pos hb]

/-- When `histogram` returns on non-empty values, the bin count was positive,
the dimensionality check passed, every index was valid, and one series was
appended, the flag being set to 2D. -/
theorem histogram_ok_inv (g g1 : Gnuplot) (values : List Double) (nbins : Nat) (label : String)
    (style : LineStyle) (hne : values ≠ [])
    (h : histogram g values nbins label style = .ok g1) :
    dimOk g false ∧ (∃ s : GnuplotSeries,
      g1 = { g with series := g.series ++ [s], is_3dplot := false }) ∧
    0 < nbins ∧
    binsInRange (min_element values) (binWidth values nbins) nbins values = true := by
  have hempty : values.isEmpty = false := by cases values <;> simp_all
  unfold histogram at h
  by_cases hn : nbins > 0
  · rw [if_neg (not_not.mpr hn), if_neg (by simp [hempty])] at h
    by_cases hb : (!g.series.isEmpty && g.is_3dplot) = true
    · rw [if_pos hb] at h
      cases h
    · rw [if_neg hb] at h
      refine ⟨(dimOk_false_iff g).mp (by simpa using hb), ?_⟩
      simp only [] at h
      split at h
      · cases h
      · rename_i bins hc
        simp only [Except.ok.injEq] at h
        exact ⟨⟨_, h.symm⟩, hn,
          histogram_count_inv _ _ nbins values _ bins (List.length_replicate _ _) hc⟩
  · rw [if_pos hn] at h
    cases h

/-- On non-empty values `histogram` returns exactly when the bin count is
positive, the dimensionality check passes and every index is valid. -/
theorem histogram_returns_iff (g : Gnuplot) (values : List Double) (nbins : Nat)
    (label : String) (style : LineStyle) (hne : values ≠ []) :
    (∃ g1, histogram g values nbins label style = .ok g1) ↔
      0 < nbins ∧ dimOk g false ∧
      binsInRange (min_element values) (binWidth values nbins) nbins values = true := by
  constructor
  · rintro ⟨g1, h⟩
    obtain ⟨hd, _, hn, hr⟩ := histogram_ok_inv g g1 values nbins label style hne h
    exact ⟨hn, hd, hr⟩
  · rintro ⟨hn, hd, hr⟩
    exact ⟨_, histogram_eq g values nbins label style hne hn hd hr⟩

theorem histogram_count_error (min binwidth : Double) (nbins : Nat) (values : List Double)
    (bins : List Nat) (e : Fault)
    (h : histogram_count min binwidth nbins values bins = .error e) : e ≠ Fault.assertion := by
  induction values generalizing bins with
  | nil => simp [histogram_count] at h
  | cons v rest ih =>
    simp only [histogram_count] at h
    split at h
    · rename_i e1 hb
      cases h
      unfold bin_index at hb
      split at hb
      · rename_i e2 hc
        cases hb
        unfold static_cast_int at hc
        split at hc
        · simp only [] at hc
          split at hc
          · cases hc
          · cases hc; simp
        · cases hc
        · cases hc; simp
      · split at hb
        · split at hb
          · cases hb; simp
          · cases hb
        · cases hb
    · split at h
      · rename_i e2 hinc
        cases h
        unfold vector_at_incr at hinc
        split at hinc
        · cases hinc
        · cases hinc; simp
      · exact ih _ h

/-- The dimensionality assertion of `histogram` fires exactly when the check
fails (for non-empty values and a positive bin count). -/
theorem histogram_assertion_iff (g : Gnuplot) (values : List Double) (nbins : Nat)
    (label : String) (style : LineStyle) (hne : values ≠ []) (hn : 0 < nbins) :
    histogram g values nbins label style = .error Fault.assertion ↔ ¬ dimOk g false := by
  constructor
  · intro h hdim
    have hempty : values.isEmpty = false := by cases values <;> simp_all
    unfold histogram at h
    rw [if_neg (not_not.mpr hn), if_neg (by simp [hempty]),
      if_neg (by simp [(dimOk_false_iff g).mpr hdim])] at h
    simp only [] at h
    split at h
    · rename_i e hc
      cases h
      exact histogram_count_error _ _ _ _ _ _ hc rfl
    · cases h
  · exact histogram_asserts g values nbins label style hne hn

theorem histogram_count_wrapped (min binwidth : Double) (nbins : Nat) (v : Double)
    (rest : List Double) (bins : List Nat)
    (h : bin_index min binwidth nbins v = .ok (-1)) :
    histogram_count min binwidth nbins (v :: rest) bins = .error Fault.out_of_range := by
  simp [histogram_count, h, vector_at_incr]

/-- C6 (amended).  For non-empty values and a bin count in the range of `int`:
whenever `histogram` returns, it has appended exactly one series, with
descriptor `1:2`, whose data block is the `nbins` rows
`(min + binwidth * (i + 0.5), c_i)`, where `binwidth = (max - min) / nbins`, all
arithmetic is that of `double`, and `c_i` is the number of values whose bin (the
floor of the `double` quotient `(v - min) / binwidth`, with `nbins` folded into
`nbins - 1`) is `i`.  It returns exactly when `nbins > 0`, the dimensionality
check passes and every index the loop computes lies in `[0, nbins - 1]`; and it
does return when `nbins > 0`, the check passes, every value is finite and the
spread `max - min` lies between `nbins * 2^-1021` and `2^1023`.  For
the values `1..10` and five bins it returns the centers
`1.9, 3.7, 5.5, 7.3, 9.1`, each with count `2`. -/
theorem histogram_binning (g : Gnuplot) (values : List Double) (nbins : Nat) (label : String)
    (style : LineStyle) (hne : values ≠ []) (hmax : nbins ≤ 2147483647) :
    (∀ g1, histogram g values nbins label style = .ok g1 →
      ∃ s : GnuplotSeries,
        g1 = { g with series := g.series ++ [s], is_3dplot := false } ∧
        s.column_range = "1:2" ∧
        s.data_string
          = String.join ((List.range nbins).map fun i =>
              histogramRow (min_element values) (binWidth values nbins)
                (binCount (min_element values) (binWidth values nbins) nbins values i) i)) ∧
    ((∃ g1, histogram g values nbins label style = .ok g1) ↔
      0 < nbins ∧ dimOk g false ∧
      binsInRange (min_element values) (binWidth values nbins) nbins values = true) ∧
    ((∀ v ∈ values, v.isfinite = true) → 0 < nbins → dimOk g false →
      (nbins : ℚ) * (2 : ℚ) ^ (-1021 : Int)
        ≤ (max_element values).toRat - (min_element values).toRat →
      (max_element values).toRat - (min_element values).toRat ≤ (2 : ℚ) ^ (1023 : Nat) →
      ∃ g1, histogram g values nbins label style = .ok g1) ∧
    histogram (construct true false) [1, 2, 3, 4, 5, 6, 7, 8, 9, 10] 5 "" LineStyle.BOXES
      = .ok { construct true false with
          series := [⟨"1.9 2\n3.7 2\n5.5 2\n7.3 2\n9.1 2\n", LineStyle.BOXES, "", "1:2"⟩]
          is_3dplot := false } := by
  refine ⟨?_, histogram_returns_iff g values nbins label style hne,
    fun hfin hn hdim hlo hhi => ⟨_, histogram_eq g values nbins label style hne hn hdim
      (binsInRange_of_spread values nbins hne hfin hn hmax hlo hhi)⟩, by decide!⟩
  intro g1 h
  obtain ⟨hd, _, hn, hr⟩ := histogram_ok_inv g g1 values nbins label style hne h
  rw [histogram_appends g values nbins label style hne hn hmax hd hr] at h
  cases h
  exact ⟨_, rfl, rfl, rfl⟩

/-- Witness of `histogram_binning` on the values `1..10` with five bins, whose
spread 9 lies within the stated bounds. -/
theorem histogram_binning_witness :
    (∀ g1, histogram (construct true false) [1, 2, 3, 4, 5, 6, 7, 8, 9, 10] 5 "" LineStyle.BOXES
        = .ok g1 →
      ∃ s : GnuplotSeries,
        g1 = { construct true false with
            series := (construct true false).series ++ [s], is_3dplot := false } ∧
        s.column_range = "1:2" ∧
        s.data_string
          = String.join ((List.range 5).map fun i =>
              histogramRow (min_element [1, 2, 3, 4, 5, 6, 7, 8, 9, 10])
                (binWidth [1, 2, 3, 4, 5, 6, 7, 8, 9, 10] 5)
                (binCount (min_element [1, 2, 3, 4, 5, 6, 7, 8, 9, 10])
                  (binWidth [1, 2, 3, 4, 5, 6, 7, 8, 9, 10] 5) 5
                  [1, 2, 3, 4, 5, 6, 7, 8, 9, 10] i) i)) ∧
    ((∃ g1, histogram (construct true false) [1, 2, 3, 4, 5, 6, 7, 8, 9, 10] 5 ""
        LineStyle.BOXES = .ok g1) ↔
      0 < 5 ∧ dimOk (construct true false) false ∧
      binsInRange (min_element [1, 2, 3, 4, 5, 6, 7, 8, 9, 10])
        (binWidth [1, 2, 3, 4, 5, 6, 7, 8, 9, 10] 5) 5 [1, 2, 3, 4, 5, 6, 7, 8, 9, 10] = true) ∧
    (∃ g1, histogram (construct true false) [1, 2, 3, 4, 5, 6, 7, 8, 9, 10] 5 ""
        LineStyle.BOXES = .ok g1) ∧
    histogram (construct true false) [1, 2, 3, 4, 5, 6, 7, 8, 9, 10] 5 "" LineStyle.BOXES
      = .ok { construct true false with
          series := [⟨"1.9 2\n3.7 2\n5.5 2\n7.3 2\n9.1 2\n", LineStyle.BOXES, "", "1:2"⟩]
          is_3dplot := false } :=
  ⟨(histogram_binning (construct true false) [1, 2, 3, 4, 5, 6, 7, 8, 9, 10] 5 ""
      LineStyle.BOXES (by decide) (by decide)).1,
   (histogram_binning (construct true false) [1, 2, 3, 4, 5, 6, 7, 8, 9, 10] 5 ""
      LineStyle.BOXES (by decide) (by decide)).2.1,
   (histogram_binning (construct true false) [1, 2, 3, 4, 5, 6, 7, 8, 9, 10] 5 ""
      LineStyle.BOXES (by decide) (by decide)).2.2.1
      (by decide!) (by decide) (by decide!) (by decide!) (by decide!),
   (histogram_binning (construct true false) [1, 2, 3, 4, 5, 6, 7, 8, 9, 10] 5 ""
      LineStyle.BOXES (by decide) (by decide)).2.2.2⟩

/-- C6 (as stated) fails on the program.  The index is the floor of the
quotient computed in `double`, not of the exact quotient: for the values
`0, 9, 18` and 14 bins the value 9 is counted in bin 6 although
`9 / (18 / 14) = 7`.  And `histogram` does not return for every input with
minimum below maximum and `nbins > 0`: for `0` and `2^-1074` with two bins the
bin width underflows to zero and the conversion of the quotient is undefined;
for `-2^1023` and `2^1023` the difference overflows to infinity, and for `0` and
an infinite value the bin width is infinite, so that the quotient of the
maximum is NaN;
with `nbins = 2^31` the conversion `int(nbins)` is negative, every index is
decremented, and the first value reaches `bins.at(-1)`, which throws; and on a
session with a pending 3D series the call stops on the dimensionality assertion. -/
theorem histogram_not_for_every_nbins :
    (bin_index (min_element [0, 9, 18]) (binWidth [0, 9, 18] 14) 14 9 = .ok 6 ∧
      ⌊((9 : ℚ) - 0) / ((18 - 0) / 14)⌋ = 7 ∧
      histogram (construct true false) [0, 9, 18] 14 "" LineStyle.BOXES
        = .ok { construct true false with
            series := [⟨"0.642857 1\n1.92857 0\n3.21429 0\n4.5 0\n5.78571 0\n7.07143 0\n"
              ++ "8.35714 1\n9.64286 0\n10.9286 0\n12.2143 0\n13.5 0\n14.7857 0\n16.0714 0\n"
              ++ "17.3571 1\n", LineStyle.BOXES, "", "1:2"⟩]
            is_3dplot := false }) ∧
    histogram (construct true false) [0, Double.val (1 / 2 ^ 1074)] 2 "" LineStyle.BOXES
      = .error Fault.undefined ∧
    histogram (construct true false) [Double.val (-(2 ^ 1023)), Double.val (2 ^ 1023)] 1 ""
      LineStyle.BOXES = .error Fault.undefined ∧
    histogram (construct true false) [0, Double.pinf] 1 "" LineStyle.BOXES
      = .error Fault.undefined ∧
    histogram (construct true false) [0, 1] 2147483648 "" LineStyle.BOXES
      = .error Fault.out_of_range ∧
    ((plot3d (construct true false) [(1 : Int)] [2] [3] "" LineStyle.LINES).bind fun g =>
        histogram g [1, 2] 1 "" LineStyle.BOXES)
      = .error Fault.assertion := by
  refine ⟨⟨by decide!, by decide!, by decide!⟩, by decide!, by decide!, by decide!, ?_,
    by decide!⟩
  have hb : bin_index (min_element [0, 1])
      ((max_element [0, 1] - min_element [0, 1]) / Double.ofNat 2147483648) 2147483648 0
      = .ok (-1) := by decide!
  unfold histogram
  rw [if_neg (by decide), if_neg (by decide), if_neg (by decide!)]
  simp only [histogram_count_wrapped _ _ _ _ _ _ hb]

/-- C7 at the failing input: all values equal.  The bin width is zero, the
quotient `0 / 0` is NaN and its conversion to `int` is undefined; no index in
`[0, nbins - 1]` is computed. -/
theorem histogram_constant_values :
    histogram (construct true false) [1, 1] 1 "" LineStyle.BOXES = .error Fault.undefined ∧
    bin_index (min_element [1, 1]) ((max_element [1, 1] - min_element [1, 1]) / Double.ofNat 1)
      1 (max_element [1, 1]) = .error Fault.undefined := by
  constructor <;> decide!

/-! ## Dimensionality -/

theorem sendcommand_frame (g : Gnuplot) (str : String) :
    (sendcommand g str).1.series = g.series ∧
    (sendcommand g str).1.is_3dplot = g.is_3dplot := by
  unfold sendcommand
  split <;> simp

theorem reset_clears (g : Gnuplot) : (reset g).series = [] ∧ (reset g).is_3dplot = false := by
  simp [reset, set_xrange, set_yrange]

theorem finish_frame (g : Gnuplot) (os : String) (call_reset : Bool) :
    (((sendcommand g os).2 && call_reset) = false ∧
      (if (sendcommand g os).2 && call_reset then reset (sendcommand g os).1
        else (sendcommand g os).1).series = g.series ∧
      (if (sendcommand g os).2 && call_reset then reset (sendcommand g os).1
        else (sendcommand g os).1).is_3dplot = g.is_3dplot) ∨
    (((sendcommand g os).2 && call_reset) = true ∧
      (if (sendcommand g os).2 && call_reset then reset (sendcommand g os).1
        else (sendcommand g os).1).series = [] ∧
      (if (sendcommand g os).2 && call_reset then reset (sendcommand g os).1
        else (sendcommand g os).1).is_3dplot = false) := by
  cases hb : ((sendcommand g os).2 && call_reset)
  · left
    simp [sendcommand_frame]
  · right
    simp [reset_clears]

/-- What `show` does to the pending series and the flag. -/
theorem show_frame (g g1 : Gnuplot) (call_reset result : Bool)
    (h : show_ g call_reset = .ok (g1, result)) :
    ((result && call_reset) = false ∧ g1.series = g.series ∧ g1.is_3dplot = g.is_3dplot) ∨
    ((result && call_reset) = true ∧ g1.series = [] ∧ g1.is_3dplot = false) := by
  unfold show_ at h
  simp only [] at h
  by_cases hf : g.is_3dplotfunc = true
  · rw [if_pos hf] at h
    split at h
    · cases h
    · simp only [Bool.false_and, Bool.false_eq_true, if_false, Except.ok.injEq,
        Prod.mk.injEq] at h
      obtain ⟨rfl, rfl⟩ := h
      left
      simp [sendcommand_frame]
  · rw [if_neg hf] at h
    simp only [Except.ok.injEq, Prod.mk.injEq] at h
    obtain ⟨rfl, rfl⟩ := h
    exact finish_frame _ _ _

/-- The invariant of the reachable sessions: one recorded dimensionality per
pending series, each equal to the session flag. -/
theorem reachable_invariant (g : Gnuplot) (dims : List Bool) (h : Reachable g dims) :
    dims.length = g.series.length ∧ ∀ b ∈ dims, b = g.is_3dplot := by
  induction h with
  | start opened has_dot =>
    refine ⟨?_, fun b hb => by cases hb⟩
    simp [construct, sendcommand, set_xrange, set_yrange, set_zrange]
    cases opened <;> rfl
  | @plot α inst g g1 dims label style d v args _ hv hp ih =>
    obtain ⟨hdim, hlen⟩ := plot_ok_inv g g1 label style d v args hv hp
    rw [plot_appends g label style d v args hv hdim hlen] at hp
    cases hp
    obtain ⟨ihl, ihb⟩ := ih
    refine ⟨by simp [ihl], ?_⟩
    intro b hb
    rcases List.mem_append.mp hb with hb | hb
    · rcases hdim with hs | hf
      · rw [hs] at ihl
        have hnil : dims = [] := List.length_eq_zero.mp ihl
        rw [hnil] at hb
        cases hb
      · show b = d
        rw [← hf]
        exact ihb b hb
    · exact List.mem_singleton.mp hb
  | @histogram g g1 dims values nbins label style _ hv hp ih =>
    obtain ⟨hdim, ⟨s, rfl⟩, _, _⟩ := histogram_ok_inv g g1 values nbins label style hv hp
    obtain ⟨ihl, ihb⟩ := ih
    refine ⟨by simp [ihl], ?_⟩
    intro b hb
    rcases List.mem_append.mp hb with hb | hb
    · rcases hdim with hs | hf
      · rw [hs] at ihl
        have hnil : dims = [] := List.length_eq_zero.mp ihl
        rw [hnil] at hb
        cases hb
      · show b = false
        rw [← hf]
        exact ihb b hb
    · exact List.mem_singleton.mp hb
  | @show_ g g1 dims call_reset result _ hs ih =>
    obtain ⟨ihl, ihb⟩ := ih
    rcases show_frame g g1 call_reset result hs with ⟨hr, h1, h2⟩ | ⟨hr, h1, h2⟩
    · rw [hr, h1, h2]
      exact ⟨ihl, ihb⟩
    · rw [hr, h1]
      exact ⟨rfl, fun b hb => by cases hb⟩
  | @reset g dims _ _ =>
    exact ⟨by simp [(reset_clears g).1], fun b hb => by cases hb⟩
  | @other g g1 dims _ h1 h2 ih =>
    rw [h1, h2]
    exact ih

theorem print_ith_error {α : Type} [StreamInsert α] (cols : List (List α)) (os fmts : String)
    (idx i : Nat) (e : Fault) (h : _print_ith_elements os fmts idx i cols = .error e) :
    e = Fault.undefined := by
  induction cols generalizing os fmts idx with
  | nil => simp [_print_ith_elements] at h
  | cons v args ih =>
    simp only [_print_ith_elements] at h
    split at h
    · cases h; rfl
    · exact ih _ _ _ h

theorem plot_rows_error {α : Type} [StreamInsert α] (cols : List (List α)) (n i : Nat)
    (os fmts : String) (e : Fault) (h : _plot_rows cols n i os fmts = .error e) :
    e = Fault.undefined := by
  induction n generalizing i os fmts with
  | zero => simp [_plot_rows] at h
  | succ n ih =>
    simp only [_plot_rows] at h
    split at h
    · rename_i e1 hp
      cases h
      exact print_ith_error cols os fmts 1 i _ hp
    · exact ih _ _ _ h

/-- The assertion of `_plot` fires exactly when the dimensionality check fails. -/
theorem plot_assertion_iff {α : Type} [StreamInsert α] (g : Gnuplot) (label : String)
    (style : LineStyle) (d : Bool) (v : List α) (args : List (List α)) (hv : v ≠ []) :
    _plot g label style d v args = .error Fault.assertion ↔ ¬ dimOk g d := by
  constructor
  · intro h hdim
    have hne : v.isEmpty = false := by cases v <;> simp_all
    unfold _plot at h
    rw [if_neg (by simp [hne]), if_neg (by simp [(dimOk_iff g d).mpr hdim])] at h
    split at h
    · rename_i e hp
      have := plot_rows_error _ _ _ _ _ _ hp
      subst this
      cases h
    · cases h
  · exact plot_asserts g label style d v args hv

theorem not_dimOk_iff (g : Gnuplot) (d : Bool) :
    ¬ dimOk g d ↔ (g.series ≠ [] ∧ g.is_3dplot ≠ d) := by
  unfold dimOk
  exact not_or

/-- C5 (amended).  An add through `_plot` with
dimensionality `d` on a non-empty primary sequence stops on the assertion exactly
when series are pending and the session flag differs from `d`; otherwise (no
sequence being shorter than the primary one) it appends exactly one series and
sets the flag to `d`.  An add through `histogram` (`d` = 2D, non-empty values,
`nbins > 0`) stops on the assertion under the same condition; otherwise, when
every bin index the counting loop computes lies in `[0, nbins - 1]`, as it does
when `nbins < 2^31`, every value is finite and the spread `max - min` lies
between `nbins * 2^-1021` and `2^1023`, it appends exactly one series and sets
the flag to 2D, and whenever it returns it has done so.  Hence in every reachable session there is one recorded dimensionality per
pending series and all of them equal the flag. -/
theorem dimensionality_state_machine :
    (∀ {α : Type} [StreamInsert α] (g : Gnuplot) (label : String) (style : LineStyle) (d : Bool)
        (v : List α) (args : List (List α)), v ≠ [] →
      (_plot g label style d v args = .error Fault.assertion
        ↔ (g.series ≠ [] ∧ g.is_3dplot ≠ d)) ∧
      (¬ (g.series ≠ [] ∧ g.is_3dplot ≠ d) → (∀ a ∈ args, v.length ≤ a.length) →
        ∃ s : GnuplotSeries,
          _plot g label style d v args
            = .ok { g with series := g.series ++ [s], is_3dplot := d })) ∧
    (∀ (g : Gnuplot) (values : List Double) (nbins : Nat) (label : String) (style : LineStyle),
      values ≠ [] → 0 < nbins →
      (histogram g values nbins label style = .error Fault.assertion
        ↔ (g.series ≠ [] ∧ g.is_3dplot ≠ false)) ∧
      (¬ (g.series ≠ [] ∧ g.is_3dplot ≠ false) →
        binsInRange (min_element values) (binWidth values nbins) nbins values = true →
        ∃ s : GnuplotSeries,
          histogram g values nbins label style
            = .ok { g with series := g.series ++ [s], is_3dplot := false }) ∧
      (¬ (g.series ≠ [] ∧ g.is_3dplot ≠ false) →
        (∀ v ∈ values, v.isfinite = true) → nbins ≤ 2147483647 →
        (nbins : ℚ) * (2 : ℚ) ^ (-1021 : Int)
          ≤ (max_element values).toRat - (min_element values).toRat →
        (max_element values).toRat - (min_element values).toRat ≤ (2 : ℚ) ^ (1023 : Nat) →
        ∃ s : GnuplotSeries,
          histogram g values nbins label style
            = .ok { g with series := g.series ++ [s], is_3dplot := false }) ∧
      (∀ g1, histogram g values nbins label style = .ok g1 →
        ∃ s : GnuplotSeries, g1 = { g with series := g.series ++ [s], is_3dplot := false })) ∧
    (∀ (g : Gnuplot) (dims : List Bool), Reachable g dims →
      dims.length = g.series.length ∧ ∀ b ∈ dims, b = g.is_3dplot) := by
  refine ⟨?_, ?_, reachable_invariant⟩
  · intro α inst g label style d v args hv
    refine ⟨(plot_assertion_iff g label style d v args hv).trans (not_dimOk_iff g d), ?_⟩
    intro hnot hlen
    have hdim : dimOk g d := by
      by_contra hc
      exact hnot ((not_dimOk_iff g d).mp hc)
    exact ⟨_, plot_appends g label style d v args hv hdim hlen⟩
  · intro g values nbins label style hne hn
    refine ⟨(histogram_assertion_iff g values nbins label style hne hn).trans
      (not_dimOk_iff g false), ?_, ?_, ?_⟩
    · intro hnot hr
      have hdim : dimOk g false := by
        by_contra hc
        exact hnot ((not_dimOk_iff g false).mp hc)
      exact ⟨_, histogram_eq g values nbins label style hne hn hdim hr⟩
    · intro hnot hfin hmax hlo hhi
      have hdim : dimOk g false := by
        by_contra hc
        exact hnot ((not_dimOk_iff g false).mp hc)
      exact ⟨_, histogram_eq g values nbins label style hne hn hdim
        (binsInRange_of_spread values nbins hne hfin hn hmax hlo hhi)⟩
    · intro g1 h
      exact (histogram_ok_inv g g1 values nbins label style hne h).2.1

/-- Witness of `dimensionality_state_machine` on the session with one pending
3D series: a 2D add and a histogram stop on the assertion, a 3D add appends,
a histogram on a fresh session appends (and the session it returns is the old
one with one more series), as does one whose values have a spread within the
stated bounds, and the invariant holds there. -/
theorem dimensionality_state_machine_witness :
    _plot session3d "" LineStyle.LINES false [(1 : Int)] [[2]] = .error Fault.assertion ∧
    (∃ s : GnuplotSeries,
      _plot session3d "" LineStyle.LINES true [(1 : Int)] [[2], [3]]
        = .ok { session3d with series := session3d.series ++ [s], is_3dplot := true }) ∧
    histogram session3d [1, 2] 1 "" LineStyle.BOXES = .error Fault.assertion ∧
    (∃ s : GnuplotSeries,
      histogram (construct true false) [1, 2] 1 "" LineStyle.BOXES
        = .ok { construct true false with
            series := (construct true false).series ++ [s], is_3dplot := false }) ∧
    (∃ s : GnuplotSeries,
      ({ construct true false with
          series := [⟨"1.5 2\n", LineStyle.BOXES, "", "1:2"⟩], is_3dplot := false } : Gnuplot)
        = { construct true false with
            series := (construct true false).series ++ [s], is_3dplot := false }) ∧
    (∃ s : GnuplotSeries,
      histogram (construct true false) [1, 2, 3] 2 "" LineStyle.BOXES
        = .ok { construct true false with
            series := (construct true false).series ++ [s], is_3dplot := false }) ∧
    ([true].length = session3d.series.length ∧ ∀ b ∈ [true], b = session3d.is_3dplot) :=
  ⟨((dimensionality_state_machine.1 session3d "" LineStyle.LINES false [(1 : Int)] [[2]]
      (by decide)).1).mpr (by decide!),
   (dimensionality_state_machine.1 session3d "" LineStyle.LINES true [(1 : Int)] [[2], [3]]
      (by decide)).2 (by decide!) (by decide),
   ((dimensionality_state_machine.2.1 session3d [1, 2] 1 "" LineStyle.BOXES
      (by decide) (by decide)).1).mpr (by decide!),
   (dimensionality_state_machine.2.1 (construct true false) [1, 2] 1 "" LineStyle.BOXES
      (by decide) (by decide)).2.1 (by decide!) (by decide!),
   (dimensionality_state_machine.2.1 (construct true false) [1, 2] 1 "" LineStyle.BOXES
      (by decide) (by decide)).2.2.2 _ (by decide!),
   (dimensionality_state_machine.2.1 (construct true false) [1, 2, 3] 2 "" LineStyle.BOXES
      (by decide) (by decide)).2.2.1 (by decide!) (by decide!) (by decide) (by decide!)
      (by decide!),
   dimensionality_state_machine.2.2 session3d [true]
     (Reachable.plot "" LineStyle.LINES true [(1 : Int)] [[2], [3]]
       (Reachable.start true false) (by decide) (by decide!))⟩

/-- C5 (as stated) fails on adds that the dimensionality check does not decide.
On a freshly constructed session (nothing pending): `histogram` with `nbins = 0`
stops on the assertion `nbins > 0`; with all values equal, with values whose
difference overflows, with an infinite value, with a spread so small that the
bin width underflows, or with `nbins = 2^31 + 1`, it neither asserts nor
appends; and `plot([1, 2], [3])` indexes the second sequence past its end. -/
theorem add_outcomes_beyond_dimension :
    (construct true false).series = [] ∧
    histogram (construct true false) [1, 2] 0 "" LineStyle.BOXES = .error Fault.assertion ∧
    histogram (construct true false) [3, 3] 2 "" LineStyle.BOXES = .error Fault.undefined ∧
    histogram (construct true false) [Double.val (-(10 ^ 308)), Double.val (10 ^ 308)] 1 ""
      LineStyle.BOXES = .error Fault.undefined ∧
    histogram (construct true false) [Double.ninf, 0] 1 "" LineStyle.BOXES
      = .error Fault.undefined ∧
    histogram (construct true false) [0, Double.val (1 / 2 ^ 1074)] 3 "" LineStyle.BOXES
      = .error Fault.undefined ∧
    histogram (construct true false) [0, 2] 2147483649 "" LineStyle.BOXES
      = .error Fault.out_of_range ∧
    plot (construct true false) [(1 : Int), 2] [3] "" LineStyle.LINES
      = .error Fault.undefined := by
  refine ⟨by decide!, by decide!, by decide!, by decide!, by decide!, by decide!, ?_,
    by decide!⟩
  have hb : bin_index (min_element [0, 2])
      ((max_element [0, 2] - min_element [0, 2]) / Double.ofNat 2147483649) 2147483649 0
      = .ok (-1) := by decide!
  unfold histogram
  rw [if_neg (by decide), if_neg (by decide), if_neg (by decide!)]
  simp only [histogram_count_wrapped _ _ _ _ _ _ hb]

/-! ## Range formatter -/

/-- C8 (amended).  `format_range(min, max)` is `[]` when both bounds are NaN,
and otherwise `[lo:hi]` where an unset (NaN) bound is `*` and a set bound is
printed as the stream prints a `double`: `inf` or `-inf` for an infinity, `-0`
for negative zero, and for a finite value a decimal numeral, in fixed or
scientific notation, that denotes the value rounded to six significant digits
(the multiple of the unit of its sixth digit within half a unit of it), hence
the bound itself when it has at most six significant digits.  In particular
the four values listed. -/
theorem format_range_spec (min max : Double) :
    format_range min max
      = (if min.isnan = true ∧ max.isnan = true then "[]"
         else "[" ++ boundText min ++ ":" ++ boundText max ++ "]") ∧
    (boundText Double.nan = "*" ∧ boundText Double.nnan = "*" ∧
      boundText Double.pinf = "inf" ∧
      boundText Double.ninf = "-inf" ∧ boundText Double.nzero = "-0" ∧
      boundText (Double.val 0) = "0") ∧
    (∀ q : ℚ, parseDecimal (boundText (Double.val q)).data = some (sixDigitRounding q)) ∧
    (∀ q : ℚ, q ≠ 0 → IsSixDigitRounding q (sixDigitRounding q)) ∧
    (∀ q : ℚ, SixDigit q → parseDecimal (boundText (Double.val q)).data = some q) ∧
    (format_range Double.nan Double.nan = "[]" ∧
      format_range (Double.val 1) Double.nan = "[1:*]" ∧
      format_range Double.nan (Double.val 2) = "[*:2]" ∧
      format_range (Double.val 1) (Double.val 2) = "[1:2]" ∧
      format_range (Double.val (-5 / 2)) (Double.val 100000) = "[-2.5:100000]" ∧
      format_range (Double.val (1 / 1024)) (Double.val 123456) = "[0.000976562:123456]") := by
  refine ⟨?_, ⟨rfl, rfl, rfl, rfl, rfl, by decide!⟩, parseDecimal_renderDouble,
    sixDigitRounding_nearest, ?_,
    ⟨by decide!, by decide!, by decide!, by decide!, by decide!, by decide!⟩⟩
  · cases min <;> cases max <;>
      simp [format_range, Double.isnan, boundText, render, str_empty_append, String.append_assoc]
  · intro q h6
    show parseDecimal (renderDouble q).data = some q
    rw [parseDecimal_renderDouble, sixDigitRounding_exact q h6]

/-- Witness of `format_range_spec`: the bound `1234567` is printed rounded to
six significant digits; the bound `-2.5` has two significant digits, and its
text denotes it. -/
theorem format_range_spec_witness :
    IsSixDigitRounding 1234567 (sixDigitRounding 1234567) ∧
    parseDecimal (boundText (Double.val (-5 / 2))).data = some (-5 / 2) :=
  ⟨(format_range_spec Double.nan Double.nan).2.2.2.1 1234567 (by decide!),
   (format_range_spec Double.nan Double.nan).2.2.2.2.1 (-5 / 2)
    (Or.inr ⟨250000, -5, by decide, by decide, by decide!⟩)⟩

/-- C8 (as stated) fails for set bounds that the stream does not print as
their decimal value: a bound with more than six significant digits is printed
rounded, in scientific notation from `10^6` on; an infinite bound is a set
bound and is printed as `inf`; negative zero is printed as `-0`. -/
theorem format_range_not_decimal_value :
    format_range (Double.val 1234567) Double.nan = "[1.23457e+06:*]" ∧
    format_range (Double.val (1 / 1024)) Double.nan = "[0.000976562:*]" ∧
    (1 / 1024 : ℚ) = 9765625 / 10000000000 ∧
    format_range Double.ninf Double.pinf = "[-inf:inf]" ∧
    format_range Double.nzero (Double.val 0) = "[-0:0]" := by
  refine ⟨by decide!, by decide!, by norm_num, by decide!, by decide!⟩

/-! ## Reset -/

/-- C10 on the code: `reset()` empties the pending series, puts the x and y
ranges back to `[]` and clears the flag, and leaves the z range as it was; after
`set_zrange(0, 1)` the z range is still `[0:1]`. -/
theorem reset_postcondition (g : Gnuplot) :
    (reset g).series = [] ∧ (reset g).xrange = "[]" ∧ (reset g).yrange = "[]" ∧
    (reset g).is_3dplot = false ∧ (reset g).zrange = g.zrange ∧
    (reset (set_zrange (construct true false) (Double.val 0) (Double.val 1))).zrange = "[0:1]" ∧
    (construct true false).zrange = "[]" := by
  refine ⟨rfl, rfl, rfl, rfl, rfl, by decide!, by decide!⟩

/-! ## Quote escaping -/

theorem escape_fold_data (cs : List Char) (acc : String) :
    (cs.foldl (fun result ch => if ch != '\'' then result.push ch else result ++ "''") acc).data
      = acc.data ++ cs.flatMap fun ch => if ch = '\'' then ['\'', '\''] else [ch] := by
  induction cs generalizing acc with
  | nil => simp
  | cons a cs ih =>
    simp only [List.foldl_cons, List.flatMap_cons]
    rw [ih]
    by_cases ha : a = '\''
    · subst ha
      simp [String.data_append]
    · simp [ha, String.push]

theorem escape_quotes_data (s : String) :
    (escape_quotes s).data = s.data.flatMap fun ch => if ch = '\'' then ['\'', '\''] else [ch] := by
  unfold escape_quotes
  rw [escape_fold_data]
  rfl

theorem collapse_escaped (cs : List Char) :
    collapseQuotes (cs.flatMap fun ch => if ch = '\'' then ['\'', '\''] else [ch]) = cs := by
  induction cs with
  | nil => rfl
  | cons a cs ih =>
    simp only [List.flatMap_cons]
    by_cases ha : a = '\''
    · subst ha
      simp [collapseQuotes, ih]
    · simp only [ha, if_false, List.singleton_append]
      rw [collapseQuotes, ih]
      intro rest h _
      exact ha h

theorem escaped_length (cs : List Char) :
    (cs.flatMap fun ch => if ch = '\'' then ['\'', '\''] else [ch]).length
      = cs.length + cs.count '\'' := by
  induction cs with
  | nil => rfl
  | cons a cs ih =>
    simp only [List.flatMap_cons, List.length_append, ih, List.length_cons, List.count_cons]
    by_cases ha : a = '\''
    · subst ha
      simp
      omega
    · simp [ha]
      omega

/-- C9 (quote escaping).  `escape_quotes(s)` is `s` with every single quote
replaced by two and every other character kept in order; its length is that of
`s` plus the number of quotes in `s`, and collapsing the doubled quotes gives `s`
back.  The four label setters pass `set <name> '` followed by the escaped text
and a closing quote to `sendcommand`.  For `It's a test` the escaped text is
`It''s a test`, and that is what `set_title` writes to an open channel. -/
theorem escape_quotes_spec (s : String) :
    (escape_quotes s).data
      = (s.data.flatMap fun ch => if ch = '\'' then ['\'', '\''] else [ch]) ∧
    (escape_quotes s).length = s.length + s.data.count '\'' ∧
    collapseQuotes (escape_quotes s).data = s.data ∧
    (∀ g : Gnuplot,
      set_title g s = sendcommand g ("set title '" ++ escape_quotes s ++ "'") ∧
      set_xlabel g s = sendcommand g ("set xlabel '" ++ escape_quotes s ++ "'") ∧
      set_ylabel g s = sendcommand g ("set ylabel '" ++ escape_quotes s ++ "'") ∧
      set_zlabel g s = sendcommand g ("set zlabel '" ++ escape_quotes s ++ "'")) ∧
    escape_quotes "It's a test" = "It''s a test" ∧
    (set_title (construct true false) "It's a test").1.pipe
      = (construct true false).pipe ++ "set title 'It''s a test'" ++ "\n" := by
  refine ⟨escape_quotes_data s, ?_, ?_, ?_, by decide, by decide!⟩
  · show (escape_quotes s).data.length = s.data.length + _
    rw [escape_quotes_data, escaped_length]
  · rw [escape_quotes_data, collapse_escaped]
  · intro g
    simp [set_title, set_xlabel, set_ylabel, set_zlabel, str_empty_append]

/-! ## Frame of `reset` and empty input -/

/-- C13 (frame of `reset`).  `reset()` leaves the registered 3D functions, the
staged points and their flag, the function-mode flag and the four accumulator
sequences as they were. -/
theorem reset_frame (g : Gnuplot) :
    (reset g).series3d = g.series3d ∧ (reset g).dots = g.dots ∧
    (reset g).has_dot = g.has_dot ∧ (reset g).is_3dplotfunc = g.is_3dplotfunc ∧
    (reset g).list_of_x = g.list_of_x ∧ (reset g).list_of_y = g.list_of_y ∧
    (reset g).list_of_xerr = g.list_of_xerr ∧ (reset g).list_of_yerr = g.list_of_yerr :=
  ⟨rfl, rfl, rfl, rfl, rfl, rfl, rfl, rfl⟩

/-- C14 (empty input is a no-op).  A call of `_plot` on an empty primary
sequence returns the session unchanged, whatever the label, style, requested
dimensionality and further sequences; so does `histogram` on empty values with
a positive bin count. -/
theorem empty_input_noop {α : Type} [StreamInsert α] (g : Gnuplot) (label : String)
    (style : LineStyle) (d : Bool) (args : List (List α)) (nbins : Nat) (hn : 0 < nbins) :
    _plot g label style d ([] : List α) args = .ok g ∧
    histogram g [] nbins label style = .ok g := by
  constructor
  · rfl
  · unfold histogram
    rw [if_neg (not_not.mpr hn)]
    rfl

/-- Witness of `empty_input_noop`: a 2D add of an empty sequence and a histogram
of no values on the session with a pending 3D series. -/
theorem empty_input_noop_witness :
    _plot session3d "a" LineStyle.LINES false ([] : List Int) [[1, 2]] = .ok session3d ∧
    histogram session3d [] 4 "a" LineStyle.LINES = .ok session3d :=
  empty_input_noop session3d "a" LineStyle.LINES false [[1, 2]] 4 (by decide)

/-! ## Draw-style keywords -/

/-- C18 on the code: `style_to_str` has no case for `PM3D`, which falls to the
default and gets the keyword of `LINES`; the other ten styles have pairwise
distinct keywords. -/
theorem style_to_str_pm3d :
    style_to_str LineStyle.PM3D = "lines" ∧ style_to_str LineStyle.LINES = "lines" ∧
    LineStyle.PM3D ≠ LineStyle.LINES ∧
    ([LineStyle.DOTS, LineStyle.LINES, LineStyle.POINTS, LineStyle.LINESPOINTS,
      LineStyle.STEPS, LineStyle.BOXES, LineStyle.X_ERROR_BARS, LineStyle.Y_ERROR_BARS,
      LineStyle.XY_ERROR_BARS, LineStyle.VECTORS].map style_to_str).Nodup := by
  refine ⟨rfl, rfl, by decide, by decide⟩

/-! ## Point accumulator -/

theorem check_consistency_ok (g : Gnuplot) (h : ¬ Inconsistent g) :
    check_consistency g = .ok () := by
  unfold Inconsistent at h
  simp only [not_or, not_and, ne_eq, not_not] at h
  obtain ⟨h1, h2, h3⟩ := h
  unfold check_consistency
  have e1 : (g.list_of_x.length != g.list_of_y.length) = false := by simp [h1]
  have e2 : (decide (g.list_of_xerr.length > 0)
      && g.list_of_xerr.length != g.list_of_x.length) = false := by
    by_cases hx : g.list_of_xerr = []
    · simp [hx]
    · simp [h2 hx]
  have e3 : (decide (g.list_of_yerr.length > 0)
      && g.list_of_yerr.length != g.list_of_y.length) = false := by
    by_cases hy : g.list_of_yerr = []
    · simp [hy]
    · simp [h3 hy]
  rw [e1, e2, e3]
  rfl

/-- Every accumulator call starts with `check_consistency`: it stops on the
assertion in an inconsistent state and completes otherwise. -/
theorem apply_outcome (op : AccOp) (g : Gnuplot) :
    (Inconsistent g → op.apply g = .error Fault.assertion) ∧
    (¬ Inconsistent g → ∃ g2, op.apply g = .ok g2 ∧
      g2.list_of_x.length = g.list_of_x.length + 1 ∧
      g2.list_of_y.length = g.list_of_y.length + 1) := by
  constructor
  · intro h
    have hc := check_consistency_fails g h
    cases op <;>
      simp [AccOp.apply, add_point, add_point_y, add_point_xerr, add_point_yerr,
        add_point_xyerr, hc]
  · intro h
    have hc := check_consistency_ok g h
    cases op <;>
      simp [AccOp.apply, add_point, add_point_y, add_point_xerr, add_point_yerr,
        add_point_xyerr, hc]

theorem apply_ok_consistent (op : AccOp) (g g2 : Gnuplot) (h : op.apply g = .ok g2) :
    ¬ Inconsistent g := by
  intro hi
  rw [(apply_outcome op g).1 hi] at h
  cases h

theorem run_ops_append (ops : List AccOp) (op : AccOp) (g : Gnuplot) :
    run_ops (ops ++ [op]) g
      = match run_ops ops g with
        | .error e => .error e
        | .ok g1 => op.apply g1 := by
  induction ops generalizing g with
  | nil =>
    simp only [List.nil_append, run_ops]
    cases op.apply g <;> rfl
  | cons a ops ih =>
    simp only [List.cons_append, run_ops]
    cases a.apply g with
    | error e => rfl
    | ok g1 => exact ih g1

theorem run_ops_lengths (ops : List AccOp) (g g1 : Gnuplot)
    (hg : g.list_of_x.length = g.list_of_y.length) (h : run_ops ops g = .ok g1) :
    g1.list_of_x.length = g1.list_of_y.length := by
  induction ops generalizing g with
  | nil =>
    simp only [run_ops, Except.ok.injEq] at h
    subst h
    exact hg
  | cons a ops ih =>
    simp only [run_ops] at h
    cases ha : a.apply g with
    | error e => simp [ha] at h
    | ok g2 =>
      simp only [ha] at h
      have hc := apply_ok_consistent a g g2 ha
      obtain ⟨g3, h3, hx, hy⟩ := (apply_outcome a g).2 hc
      rw [ha] at h3
      cases h3
      exact ih g2 (by omega) h

theorem inconsistent_iff_err (g : Gnuplot) (hxy : g.list_of_x.length = g.list_of_y.length) :
    Inconsistent g ↔
      ((g.list_of_xerr ≠ [] ∧ g.list_of_xerr.length ≠ g.list_of_x.length) ∨
       (g.list_of_yerr ≠ [] ∧ g.list_of_yerr.length ≠ g.list_of_x.length)) := by
  unfold Inconsistent
  rw [hxy]
  constructor
  · rintro (h | h | h)
    · exact absurd rfl h
    · exact Or.inl h
    · exact Or.inr h
  · rintro (h | h)
    · exact Or.inr (Or.inl h)
    · exact Or.inr (Or.inr h)

/-- C12 (amended).  Starting from the empty accumulator, after any sequence of
accumulator calls that all complete: `x` and `y` have equal length; the state
before the last completed call had each error sequence empty or of the length
of `x`; and a further call stops on the consistency check exactly when, before
that call, an error sequence is non-empty and differs in length from `x`, and
completes otherwise.  (The check runs before the call appends, so the state after
the last call need not satisfy the invariant.) -/
theorem accumulator_invariant (g : Gnuplot) (hg : EmptyAccumulator g) (ops : List AccOp) :
    (∀ g1, run_ops ops g = .ok g1 →
      g1.list_of_x.length = g1.list_of_y.length) ∧
    (∀ (op : AccOp) (g2 : Gnuplot), run_ops (ops ++ [op]) g = .ok g2 →
      ∃ g1, run_ops ops g = .ok g1 ∧ op.apply g1 = .ok g2 ∧
        (g1.list_of_xerr = [] ∨ g1.list_of_xerr.length = g1.list_of_x.length) ∧
        (g1.list_of_yerr = [] ∨ g1.list_of_yerr.length = g1.list_of_x.length)) ∧
    (∀ (op : AccOp) (g1 : Gnuplot), run_ops ops g = .ok g1 →
      (op.apply g1 = .error Fault.assertion ↔
        ((g1.list_of_xerr ≠ [] ∧ g1.list_of_xerr.length ≠ g1.list_of_x.length) ∨
         (g1.list_of_yerr ≠ [] ∧ g1.list_of_yerr.length ≠ g1.list_of_x.length))) ∧
      (¬ ((g1.list_of_xerr ≠ [] ∧ g1.list_of_xerr.length ≠ g1.list_of_x.length) ∨
          (g1.list_of_yerr ≠ [] ∧ g1.list_of_yerr.length ≠ g1.list_of_x.length)) →
        ∃ g2, op.apply g1 = .ok g2)) := by
  have h0 : g.list_of_x.length = g.list_of_y.length := by
    rw [hg.1, hg.2.1]
  refine ⟨fun g1 h => run_ops_lengths ops g g1 h0 h, ?_, ?_⟩
  · intro op g2 h
    rw [run_ops_append] at h
    cases h1 : run_ops ops g with
    | error e => simp [h1] at h
    | ok g1 =>
      simp only [h1] at h
      have hxy := run_ops_lengths ops g g1 h0 h1
      have hc := apply_ok_consistent op g1 g2 h
      rw [inconsistent_iff_err g1 hxy] at hc
      simp only [not_or, not_and, ne_eq, not_not] at hc
      refine ⟨g1, rfl, h, ?_, ?_⟩
      · by_cases hx : g1.list_of_xerr = []
        · exact Or.inl hx
        · exact Or.inr (hc.1 hx)
      · by_cases hy : g1.list_of_yerr = []
        · exact Or.inl hy
        · exact Or.inr (hc.2 hy)
  · intro op g1 h1
    have hxy := run_ops_lengths ops g g1 h0 h1
    rw [← inconsistent_iff_err g1 hxy]
    refine ⟨⟨?_, (apply_outcome op g1).1⟩, ?_⟩
    · intro he
      by_contra hc
      obtain ⟨g2, h2, _⟩ := (apply_outcome op g1).2 hc
      rw [h2] at he
      cases he
    · intro hc
      obtain ⟨g2, h2, _⟩ := (apply_outcome op g1).2 hc
      exact ⟨g2, h2⟩

/-- Witness of `accumulator_invariant`: the session after one `add_point_xerr`
on a freshly constructed session. -/
theorem accumulator_invariant_witness :
    (∀ g1, run_ops [AccOp.add_point_xerr 1 1 (1 / 2)] (construct true false) = .ok g1 →
      g1.list_of_x.length = g1.list_of_y.length) ∧
    (∀ (op : AccOp) (g2 : Gnuplot),
      run_ops ([AccOp.add_point_xerr 1 1 (1 / 2)] ++ [op]) (construct true false) = .ok g2 →
      ∃ g1, run_ops [AccOp.add_point_xerr 1 1 (1 / 2)] (construct true false) = .ok g1 ∧
        op.apply g1 = .ok g2 ∧
        (g1.list_of_xerr = [] ∨ g1.list_of_xerr.length = g1.list_of_x.length) ∧
        (g1.list_of_yerr = [] ∨ g1.list_of_yerr.length = g1.list_of_x.length)) ∧
    (∀ (op : AccOp) (g1 : Gnuplot),
      run_ops [AccOp.add_point_xerr 1 1 (1 / 2)] (construct true false) = .ok g1 →
      (op.apply g1 = .error Fault.assertion ↔
        ((g1.list_of_xerr ≠ [] ∧ g1.list_of_xerr.length ≠ g1.list_of_x.length) ∨
         (g1.list_of_yerr ≠ [] ∧ g1.list_of_yerr.length ≠ g1.list_of_x.length))) ∧
      (¬ ((g1.list_of_xerr ≠ [] ∧ g1.list_of_xerr.length ≠ g1.list_of_x.length) ∨
          (g1.list_of_yerr ≠ [] ∧ g1.list_of_yerr.length ≠ g1.list_of_x.length)) →
        ∃ g2, op.apply g1 = .ok g2)) :=
  accumulator_invariant (construct true false) ⟨rfl, rfl, rfl, rfl⟩
    [AccOp.add_point_xerr 1 1 (1 / 2)]

/-- C12 (as stated) fails: `add_point_xerr(1, 1, 0.5)` and then `add_point(2, 2)`
both complete on a freshly constructed session, and leave an x-error sequence
of length 1 beside an `x` of length 2; the third call is the one that stops. -/
theorem accumulator_check_is_late :
    run_ops [AccOp.add_point_xerr 1 1 (1 / 2), AccOp.add_point 2 2] (construct true false)
      = .ok mixedAccumulator ∧
    mixedAccumulator.list_of_xerr.length = 1 ∧ mixedAccumulator.list_of_x.length = 2 ∧
    run_ops [AccOp.add_point_xerr 1 1 (1 / 2), AccOp.add_point 2 2, AccOp.add_point 3 3]
      (construct true false) = .error Fault.assertion := by
  refine ⟨by decide!, by decide!, by decide!, by decide!⟩

/-! ## Auto-incrementing index -/

theorem add_point_y_ok (g : Gnuplot) (y : ℚ) (h : ¬ Inconsistent g) :
    add_point_y g y
      = .ok { g with
          list_of_x := g.list_of_x ++ [(g.list_of_x.length : ℚ)]
          list_of_y := g.list_of_y ++ [y] } := by
  simp [add_point_y, add_point, check_consistency_ok g h]

/-- A run of `add_point(y)` calls on a session without error sequences appends
the running indices to `x` and the values to `y`. -/
theorem run_add_points (ys : List ℚ) (g : Gnuplot)
    (hxy : g.list_of_x.length = g.list_of_y.length)
    (hxe : g.list_of_xerr = []) (hye : g.list_of_yerr = []) :
    run_ops (ys.map AccOp.add_point_y) g
      = .ok { g with
          list_of_x := g.list_of_x
            ++ (List.range' g.list_of_x.length ys.length).map fun (i : Nat) => (i : ℚ)
          list_of_y := g.list_of_y ++ ys } := by
  induction ys generalizing g with
  | nil => simp [run_ops]
  | cons y ys ih =>
    have hc : ¬ Inconsistent g := by
      unfold Inconsistent
      simp [hxy, hxe, hye]
    simp only [List.map_cons, run_ops, AccOp.apply, add_point_y_ok g y hc]
    have hstep := ih
      { g with
        list_of_x := g.list_of_x ++ [(g.list_of_x.length : ℚ)]
        list_of_y := g.list_of_y ++ [y] }
      (by simp [hxy]) hxe hye
    rw [hstep]
    simp [List.range'_succ]

/-- The outcome of `n` calls of `add_point(y)` on an empty accumulator, and the
count reported afterwards. -/
theorem run_add_points_empty (g : Gnuplot) (hg : EmptyAccumulator g) (ys : List ℚ) :
    ∃ g1, run_ops (ys.map AccOp.add_point_y) g = .ok g1 ∧
      g1.list_of_x = (List.range ys.length).map (fun (i : Nat) => (i : ℚ)) ∧
      g1.list_of_y = ys ∧
      get_num_of_points g1 = .ok (int_of_size_t ys.length) := by
  obtain ⟨hx, hy, hxe, hye⟩ := hg
  refine ⟨_, run_add_points ys g (by rw [hx, hy]) hxe hye, ?_, ?_, ?_⟩
  · simp [hx, List.range_eq_range']
  · simp [hy]
  · have hc : ¬ Inconsistent
        { g with
          list_of_x := g.list_of_x
            ++ (List.range' g.list_of_x.length ys.length).map fun (i : Nat) => (i : ℚ)
          list_of_y := g.list_of_y ++ ys } := by
      unfold Inconsistent
      simp [hx, hy, hxe, hye]
    unfold get_num_of_points
    rw [check_consistency_ok _ hc]
    simp [hx]

/-- C15 (amended).  On an empty accumulator, `n` calls `add_point(y_i)` in order
all complete and yield `get_points_x() = [0, 1, ..., n-1]` and
`get_points_y() = [y_0, ..., y_(n-1)]`; `get_num_of_points()` returns `n`
converted to `int`, which is `n` for `n ≤ 2^31 - 1`.  In general `add_point(y)`,
when the consistency check passes, appends `(len(x), y)`. -/
theorem add_point_auto_index (g : Gnuplot) (hg : EmptyAccumulator g) (ys : List ℚ) :
    (∃ g1, run_ops (ys.map AccOp.add_point_y) g = .ok g1 ∧
      get_points_x g1 = (List.range ys.length).map (fun (i : Nat) => (i : ℚ)) ∧
      get_points_y g1 = ys ∧
      get_num_of_points g1 = .ok (int_of_size_t ys.length) ∧
      (ys.length ≤ 2147483647 → get_num_of_points g1 = .ok (ys.length : Int))) ∧
    (∀ (h : Gnuplot) (y : ℚ), ¬ Inconsistent h →
      add_point_y h y
        = .ok { h with
            list_of_x := h.list_of_x ++ [(h.list_of_x.length : ℚ)]
            list_of_y := h.list_of_y ++ [y] }) := by
  obtain ⟨g1, h1, hx, hy, hn⟩ := run_add_points_empty g hg ys
  refine ⟨⟨g1, h1, hx, hy, hn, ?_⟩, add_point_y_ok⟩
  intro hle
  rw [hn, int_of_size_t_small _ hle]

/-- Witness of `add_point_auto_index`: three values on a freshly constructed
session. -/
theorem add_point_auto_index_witness :
    (∃ g1, run_ops (([7, 8, 9] : List ℚ).map AccOp.add_point_y) (construct true false) = .ok g1 ∧
      get_points_x g1
        = (List.range ([7, 8, 9] : List ℚ).length).map (fun (i : Nat) => (i : ℚ)) ∧
      get_points_y g1 = [7, 8, 9] ∧
      get_num_of_points g1 = .ok (int_of_size_t ([7, 8, 9] : List ℚ).length) ∧
      (([7, 8, 9] : List ℚ).length ≤ 2147483647 →
        get_num_of_points g1 = .ok ((([7, 8, 9] : List ℚ).length : Nat) : Int))) ∧
    (∀ (h : Gnuplot) (y : ℚ), ¬ Inconsistent h →
      add_point_y h y
        = .ok { h with
            list_of_x := h.list_of_x ++ [(h.list_of_x.length : ℚ)]
            list_of_y := h.list_of_y ++ [y] }) :=
  add_point_auto_index (construct true false) ⟨rfl, rfl, rfl, rfl⟩ [7, 8, 9]

/-- C15 (as stated) fails for `n = 2^31`: after that many `add_point(y)` calls
on a freshly constructed session, `get_num_of_points()` returns the size
converted to `int`, which is `-2^31`. -/
theorem num_of_points_wraps :
    ∃ g1, run_ops ((List.replicate 2147483648 (0 : ℚ)).map AccOp.add_point_y)
        (construct true false) = .ok g1 ∧
      get_num_of_points g1 = .ok (-2147483648) := by
  obtain ⟨g1, h1, _, _, hn⟩ :=
    run_add_points_empty (construct true false) ⟨rfl, rfl, rfl, rfl⟩
      (List.replicate 2147483648 (0 : ℚ))
  refine ⟨g1, h1, ?_⟩
  rw [hn, List.length_replicate]
  rfl

/-! ## The script of the point-series branch -/

theorem intercalate_singleton (sep a : String) : String.intercalate sep [a] = a := rfl

theorem intercalate_cons_cons (sep a b : String) (l : List String) :
    String.intercalate sep (a :: b :: l) = a ++ sep ++ String.intercalate sep (b :: l) := by
  simp only [String.intercalate, intercalate_go_eq, List.map_cons, join_cons]
  simp [String.append_assoc]

theorem show_blocks_eq (l : List GnuplotSeries) (i : Nat) (os : String) :
    show_blocks l i os
      = os ++ String.join ((List.enumFrom i l).map fun p => blockText p.1 p.2) := by
  induction l generalizing i os with
  | nil => simp [show_blocks, join_nil]
  | cons s rest ih =>
    simp only [show_blocks, ih, List.enumFrom_cons, List.map_cons, join_cons, blockText]
    simp [String.append_assoc]

theorem show_clauses_eq (l : List GnuplotSeries) (i size : Nat) (os : String)
    (hsize : size = i + l.length) :
    show_clauses size l i os
      = os ++ String.intercalate ", " ((List.enumFrom i l).map fun p => clauseText p.1 p.2) := by
  induction l generalizing i os with
  | nil => simp [show_clauses, String.intercalate]
  | cons s rest ih =>
    simp only [show_clauses, List.enumFrom_cons, List.map_cons]
    cases rest with
    | nil =>
      have : ¬ (i + 1 < size) := by simp [hsize]
      simp only [this, if_false, show_clauses, List.enumFrom_nil, List.map_nil,
        intercalate_singleton, clauseText]
      simp [String.append_assoc]
    | cons s2 rest2 =>
      have hlt : i + 1 < size := by simp [hsize]
      rw [if_pos hlt, ih (i + 1) _ (by simp [hsize]; omega)]
      simp only [List.enumFrom_cons, List.map_cons, intercalate_cons_cons, clauseText]
      simp [String.append_assoc]

/-- The text composed by the point-series branch is the script of the
specification. -/
theorem point_text_eq (g : Gnuplot) :
    show_clauses g.series.length g.series 0
        (if g.is_3dplot = true then
          show_blocks g.series 0 ("" ++ "set style fill transparent solid 0.5\n")
            ++ "set hidden3d\n" ++ "set dgrid3d 40,40\nset pm3d \n"
            ++ "splot " ++ g.xrange ++ " " ++ g.yrange ++ " " ++ g.zrange ++ " "
        else
          show_blocks g.series 0 ("" ++ "set style fill transparent solid 0.5\n")
            ++ "plot " ++ g.xrange ++ " " ++ g.yrange ++ " ")
      = pointScript g := by
  rw [show_clauses_eq g.series 0 g.series.length _ (by simp)]
  unfold pointScript plotHeader List.enum
  cases g.is_3dplot <;>
    simp [show_blocks_eq, str_empty_append, String.append_assoc]

/-- With function mode off, `show` sends the script of the specification, returns
the result of that send and resets exactly when the send succeeded and
`call_reset` is set. -/
theorem show_point_branch (g : Gnuplot) (call_reset : Bool) (hf : g.is_3dplotfunc = false) :
    show_ g call_reset
      = .ok (if (sendcommand { g with useAutoshow := false } (pointScript g)).2 && call_reset
              then reset (sendcommand { g with useAutoshow := false } (pointScript g)).1
              else (sendcommand { g with useAutoshow := false } (pointScript g)).1,
             (sendcommand { g with useAutoshow := false } (pointScript g)).2) := by
  unfold show_
  simp only []
  rw [if_neg (by simp [hf])]
  have := point_text_eq g
  simp only [] at this
  rw [this]

/-! ## The function-plot branch of `show` -/

/-- The command channel only touches the pipe. -/
theorem sendcommand_fields (g : Gnuplot) (str : String) :
    (sendcommand g str).1.series3d = g.series3d ∧ (sendcommand g str).1.dots = g.dots ∧
    (sendcommand g str).1.has_dot = g.has_dot ∧ (sendcommand g str).1.os3d = g.os3d ∧
    (sendcommand g str).1.xrange = g.xrange ∧ (sendcommand g str).1.yrange = g.yrange ∧
    (sendcommand g str).1.zrange = g.zrange ∧
    (sendcommand g str).1.is_3dplotfunc = g.is_3dplotfunc ∧
    (sendcommand g str).1.series = g.series ∧ (sendcommand g str).1.is_3dplot = g.is_3dplot ∧
    (sendcommand g str).1.connection = g.connection ∧
    (sendcommand g str).2 = g.connection := by
  unfold sendcommand
  cases hc : g.connection <;> simp [hc]

/-- With function mode on, `show` sends the ranges, builds the function-plot
script onto `os3d`, sends it, and returns `false` without resetting. -/
theorem show_function_branch (g : Gnuplot) (call_reset : Bool) (hf : g.is_3dplotfunc = true) :
    show_ g call_reset
      = match function_script g.series3d g.xrange g.yrange g.has_dot g.dots g.os3d with
        | .error e => .error e
        | .ok t =>
          .ok ((sendcommand
            { (sendcommand { g with useAutoshow := false } (rangesText g)).1 with os3d := t } t).1,
            false) := by
  have hs := sendcommand_fields { g with useAutoshow := false } (rangesText g)
  obtain ⟨h1, h2, h3, h4, h5, h6, _⟩ := hs
  unfold show_ function_script
  simp only []
  rw [if_pos hf]
  simp only [rangesText] at h1 h2 h3 h4 h5 h6
  simp only [h1, h2, h3, h4, h5, h6, rangesText]
  cases hd : g.has_dot
  · simp
  · simp only [if_true]
    cases show_dots g.dots _ <;> simp

theorem show_functions_append (l : List Gnuplot3dFunctionSeries) (i : Nat) (os : String) :
    show_functions l i os = os ++ show_functions l i "" := by
  induction l generalizing i os with
  | nil => simp [show_functions]
  | cons s rest ih =>
    simp only [show_functions]
    rw [ih (i + 1) (os ++ _ ++ _ ++ _ ++ _), ih (i + 1) ("" ++ _ ++ _ ++ _ ++ _)]
    simp [String.append_assoc, str_empty_append]

theorem show_surfaces_append (size : Nat) (l : List Gnuplot3dFunctionSeries) (i : Nat)
    (os : String) :
    show_surfaces size l i os = os ++ show_surfaces size l i "" := by
  induction l generalizing i os with
  | nil => simp [show_surfaces]
  | cons s rest ih =>
    simp only [show_surfaces]
    rw [ih (i + 1) (if i + 1 < size then _ else _)]
    conv_rhs => rw [ih (i + 1) (if i + 1 < size then _ else _)]
    cases s.is_plane <;> by_cases hlt : i + 1 < size <;>
      simp [hlt, String.append_assoc, str_empty_append]

theorem show_dots_append (l : List GnuplotDots) (os : String) :
    show_dots l os
      = match show_dots l "" with
        | .error e => .error e
        | .ok t => .ok (os ++ t) := by
  induction l generalizing os with
  | nil => simp [show_dots]
  | cons p rest ih =>
    simp only [show_dots]
    split
    · rename_i c0 c1 c2 h0 h1 h2
      rw [ih (os ++ _ ++ _ ++ _ ++ _ ++ _ ++ _ ++ _ ++ _),
        ih ("" ++ _ ++ _ ++ _ ++ _ ++ _ ++ _ ++ _ ++ _)]
      cases show_dots rest "" <;> simp [String.append_assoc, str_empty_append]
    · rfl

theorem show_functions_eq (l : List Gnuplot3dFunctionSeries) (i : Nat) (os : String) :
    show_functions l i os = os ++ functionsText l i :=
  show_functions_append l i os

theorem show_surfaces_eq (size : Nat) (l : List Gnuplot3dFunctionSeries) (i : Nat)
    (os : String) :
    show_surfaces size l i os = os ++ surfacesText size l i :=
  show_surfaces_append size l i os

theorem show_dots_eq (l : List GnuplotDots) (os : String) :
    show_dots l os
      = match dotsText l with
        | .error e => .error e
        | .ok t => .ok (os ++ t) :=
  show_dots_append l os

/-- The function-plot script only appends to the buffer: on `os3d` it is the
script on the empty buffer, written after `os3d`. -/
theorem function_script_append (series3d : List Gnuplot3dFunctionSeries)
    (xrange yrange : String) (has_dot : Bool) (dots : List GnuplotDots) (os3d : String) :
    function_script series3d xrange yrange has_dot dots os3d
      = match function_script series3d xrange yrange has_dot dots "" with
        | .error e => .error e
        | .ok tail => .ok (os3d ++ tail) := by
  unfold function_script
  simp only [show_functions_eq, show_surfaces_eq, show_dots_eq]
  cases has_dot
  · simp [String.append_assoc, str_empty_append]
  · simp only [if_true]
    cases dotsText dots <;> simp [String.append_assoc, str_empty_append]

/-- The script written by one call is never empty. -/
theorem function_script_tail_ne (series3d : List Gnuplot3dFunctionSeries)
    (xrange yrange : String) (has_dot : Bool) (dots : List GnuplotDots) (tail : String)
    (h : function_script series3d xrange yrange has_dot dots "" = .ok tail) : tail ≠ "" := by
  unfold function_script at h
  simp only [show_functions_eq, show_surfaces_eq, show_dots_eq] at h
  have h7 : ("\nsplot " : String).length = 7 := by decide
  intro ht
  subst ht
  cases has_dot
  · simp only [Bool.false_eq_true, if_false, Except.ok.injEq] at h
    have := congrArg String.length h
    simp only [String.length_append, h7] at this
    have h0 : ("" : String).length = 0 := rfl
    omega
  · simp only [if_true] at h
    cases hd : dotsText dots with
    | error e => simp [hd] at h
    | ok t =>
      simp only [hd, Except.ok.injEq] at h
      have := congrArg String.length h
      simp only [String.length_append, h7] at this
      have h0 : ("" : String).length = 0 := rfl
      omega

/-- With three coordinates in every staged point, the overlay loop writes one
overlay statement per point, in order. -/
theorem show_dots_three (l : List GnuplotDots) (os : String)
    (h : ∀ p ∈ l, p.coordinates.length = 3) :
    show_dots l os = .ok (os ++ String.join (l.map overlayText)) := by
  induction l generalizing os with
  | nil => simp [show_dots, join_nil]
  | cons p rest ih =>
    have hp := h p (List.mem_cons_self _ _)
    have hrest : ∀ q ∈ rest, q.coordinates.length = 3 :=
      fun q hq => h q (List.mem_cons_of_mem _ hq)
    obtain ⟨coords, title⟩ := p
    match coords, hp with
    | [c0, c1, c2], _ =>
      simp only [show_dots, List.getElem?_cons_zero, List.getElem?_cons_succ]
      rw [ih _ hrest]
      simp only [List.map_cons, join_cons, overlayText, List.map_nil, intercalate_cons_cons,
        intercalate_singleton]
      simp [String.append_assoc]

/-- The overlay loop returns exactly when every staged point has at least three
coordinates; otherwise it reads a coordinate past the end. -/
theorem show_dots_ok_iff (l : List GnuplotDots) (os : String) :
    (∃ t, show_dots l os = .ok t) ↔ ∀ p ∈ l, 3 ≤ p.coordinates.length := by
  induction l generalizing os with
  | nil => simp [show_dots]
  | cons p rest ih =>
    simp only [show_dots, List.mem_cons, forall_eq_or_imp]
    split
    · rename_i c0 c1 c2 h0 h1 h2
      rw [ih]
      have : 3 ≤ p.coordinates.length := by
        by_contra hlt
        rw [List.getElem?_eq_none (by omega)] at h2
        cases h2
      simp [this]
    · rename_i hnot
      constructor
      · rintro ⟨t, ht⟩
        cases ht
      · rintro ⟨h3, _⟩
        exfalso
        exact hnot _ _ _ (List.getElem?_eq_getElem (by omega))
          (List.getElem?_eq_getElem (by omega)) (List.getElem?_eq_getElem (by omega))

/-! ## Result of `show` -/

theorem c_str_of_no_nul (str : String) (h : Char.ofNat 0 ∉ str.data) : c_str str = str := by
  unfold c_str
  have : str.data.takeWhile (fun ch => ch != Char.ofNat 0) = str.data := by
    rw [List.takeWhile_eq_self_iff]
    intro ch hch
    simp only [bne_iff_ne, ne_eq]
    rintro rfl
    exact h hch
  rw [this]

/-- What `show` leaves alone when it returns `false`. -/
theorem show_false_frame (g g1 : Gnuplot) (call_reset : Bool)
    (h : show_ g call_reset = .ok (g1, false)) :
    g1.series = g.series ∧ g1.xrange = g.xrange ∧ g1.yrange = g.yrange ∧
    g1.zrange = g.zrange ∧ g1.is_3dplot = g.is_3dplot := by
  by_cases hf : g.is_3dplotfunc = true
  · rw [show_function_branch g call_reset hf] at h
    split at h
    · cases h
    · rename_i t _
      simp only [Except.ok.injEq, Prod.mk.injEq, and_true] at h
      subst h
      have a := sendcommand_fields { g with useAutoshow := false } (rangesText g)
      obtain ⟨_, _, _, _, a5, a6, a7, _, a9, a10, _⟩ := a
      have b := sendcommand_fields
        { (sendcommand { g with useAutoshow := false } (rangesText g)).1 with os3d := t } t
      obtain ⟨_, _, _, _, b5, b6, b7, _, b9, b10, _⟩ := b
      exact ⟨b9.trans a9, b5.trans a5, b6.trans a6, b7.trans a7, b10.trans a10⟩
  · have hf0 : g.is_3dplotfunc = false := by simpa using hf
    rw [show_point_branch g call_reset hf0] at h
    simp only [Except.ok.injEq, Prod.mk.injEq] at h
    obtain ⟨h1, h2⟩ := h
    rw [h2] at h1
    simp only [Bool.false_and, Bool.false_eq_true, if_false] at h1
    subst h1
    have a := sendcommand_fields { g with useAutoshow := false } (pointScript g)
    obtain ⟨_, _, _, _, a5, a6, a7, _, a9, a10, _⟩ := a
    exact ⟨a9, a5, a6, a7, a10⟩

/-- C11 (result of `show` and reset).  `sendcommand` returns `false` and leaves
the session as it is when the channel is not open, and otherwise appends the
text (as a C string) and a newline to the pipe and returns `true`.  With
function mode off, `show` returns whether the channel is open, that is whether
its send succeeded, and the session it leaves is the reset one exactly when the
send succeeded and `call_reset` is set.  Whenever `show` returns `false` the
pending series, the three ranges and the flag are unchanged.  With function
mode on, `show` returns `false` whenever it returns, also on an open channel. -/
theorem show_result_and_reset (g : Gnuplot) (call_reset : Bool) :
    (∀ str : String,
      (g.connection = false → sendcommand g str = (g, false)) ∧
      (g.connection = true →
        sendcommand g str = ({ g with pipe := g.pipe ++ c_str str ++ "\n" }, true) ∧
        (Char.ofNat 0 ∉ str.data → c_str str = str))) ∧
    (g.is_3dplotfunc = false →
      ∃ text : String,
        show_ g call_reset
          = .ok (if g.connection && call_reset
                  then reset (sendcommand { g with useAutoshow := false } text).1
                  else (sendcommand { g with useAutoshow := false } text).1,
                 g.connection)) ∧
    (∀ g1, show_ g call_reset = .ok (g1, false) →
      g1.series = g.series ∧ g1.xrange = g.xrange ∧ g1.yrange = g.yrange ∧
      g1.zrange = g.zrange ∧ g1.is_3dplot = g.is_3dplot) ∧
    (g.is_3dplotfunc = true →
      (∀ g1 b, show_ g call_reset = .ok (g1, b) → b = false) ∧
      ((g.has_dot = false ∨ ∀ p ∈ g.dots, 3 ≤ p.coordinates.length) →
        ∃ g1, show_ g call_reset = .ok (g1, false))) := by
  refine ⟨?_, ?_, fun g1 h => show_false_frame g g1 call_reset h, ?_⟩
  · intro str
    refine ⟨fun hc => by simp [sendcommand, hc], fun hc => ⟨by simp [sendcommand, hc], ?_⟩⟩
    exact c_str_of_no_nul str
  · intro hf
    refine ⟨pointScript g, ?_⟩
    rw [show_point_branch g call_reset hf]
    have a := (sendcommand_fields { g with useAutoshow := false } (pointScript g)).2.2.2.2.2.2.2.2.2.2.2
    rw [a]
  · intro hf
    rw [show_function_branch g call_reset hf]
    constructor
    · intro g1 b h
      split at h
      · cases h
      · simp only [Except.ok.injEq, Prod.mk.injEq] at h
        exact h.2.symm
    · intro hd
      have hok : ∃ t, function_script g.series3d g.xrange g.yrange g.has_dot g.dots g.os3d
          = .ok t := by
        unfold function_script
        simp only []
        generalize show_surfaces _ _ _ _ = buf
        cases hh : g.has_dot
        · exact ⟨_, rfl⟩
        · have h3 : ∀ p ∈ g.dots, 3 ≤ p.coordinates.length := by
            rcases hd with hd | hd
            · rw [hh] at hd; cases hd
            · exact hd
          obtain ⟨t, ht⟩ := (show_dots_ok_iff g.dots buf).mpr h3
          exact ⟨t ++ "\ne", by simp [ht]⟩
      obtain ⟨t, ht⟩ := hok
      rw [ht]
      exact ⟨_, rfl⟩

/-- Witness of `show_result_and_reset`: a send on a closed and on an open
channel, `show(true)` on a session with one pending series, and `show(true)` in
function mode on an open channel. -/
theorem show_result_and_reset_witness :
    sendcommand (construct false false) "x" = (construct false false, false) ∧
    (sendcommand plottedSession "x"
        = ({ plottedSession with pipe := plottedSession.pipe ++ c_str "x" ++ "\n" }, true) ∧
      (Char.ofNat 0 ∉ "x".data → c_str "x" = "x")) ∧
    (∃ text : String,
      show_ plottedSession true
        = .ok (if plottedSession.connection && true
                then reset (sendcommand { plottedSession with useAutoshow := false } text).1
                else (sendcommand { plottedSession with useAutoshow := false } text).1,
               plottedSession.connection)) ∧
    ((∀ g1 b, show_ functionSession true = .ok (g1, b) → b = false) ∧
      ((functionSession.has_dot = false ∨ ∀ p ∈ functionSession.dots, 3 ≤ p.coordinates.length) →
        ∃ g1, show_ functionSession true = .ok (g1, false))) :=
  ⟨((show_result_and_reset (construct false false) true).1 "x").1 (by decide!),
   ((show_result_and_reset plottedSession true).1 "x").2 (by decide!),
   (show_result_and_reset plottedSession true).2.1 (by decide!),
   (show_result_and_reset functionSession true).2.2.2 (by decide!)⟩

/-- C16 (script of the point-series branch).  With function mode off, `show`
passes to `sendcommand` the fill-style directive, then the named block of every
pending series in order, then `plot` with the x and y ranges (2D) or the three
surface directives and `splot` with the three ranges (3D), then one clause per
pending series, numbered like its block, the clauses being joined by a comma
and a space with no trailing separator; it returns the result of the send and
resets when the send succeeded and `call_reset` is set. -/
theorem show_point_script (g : Gnuplot) (call_reset : Bool) (hf : g.is_3dplotfunc = false) :
    ∃ text : String,
      text = "set style fill transparent solid 0.5\n"
        ++ String.join (g.series.enum.map fun p =>
            "$Datablock" ++ toString p.1 ++ " << EOD\n" ++ p.2.data_string ++ "\nEOD\n")
        ++ (if g.is_3dplot then
              "set hidden3d\n" ++ "set dgrid3d 40,40\nset pm3d \n"
                ++ "splot " ++ g.xrange ++ " " ++ g.yrange ++ " " ++ g.zrange ++ " "
            else "plot " ++ g.xrange ++ " " ++ g.yrange ++ " ")
        ++ String.intercalate ", " (g.series.enum.map fun p =>
            "$Datablock" ++ toString p.1 ++ " using " ++ p.2.column_range ++ " with "
              ++ style_to_str p.2.line_style ++ " title '" ++ escape_quotes p.2.title ++ "'") ∧
      show_ g call_reset
        = .ok (if (sendcommand { g with useAutoshow := false } text).2 && call_reset
                then reset (sendcommand { g with useAutoshow := false } text).1
                else (sendcommand { g with useAutoshow := false } text).1,
               (sendcommand { g with useAutoshow := false } text).2) :=
  ⟨pointScript g, rfl, show_point_branch g call_reset hf⟩

/-- Witness of `show_point_script` on the session with the pending series of
`plot([1, 2], [3, 4], "a'b")`. -/
theorem show_point_script_witness :
    ∃ text : String,
      text = "set style fill transparent solid 0.5\n"
        ++ String.join (plottedSession.series.enum.map fun p =>
            "$Datablock" ++ toString p.1 ++ " << EOD\n" ++ p.2.data_string ++ "\nEOD\n")
        ++ (if plottedSession.is_3dplot then
              "set hidden3d\n" ++ "set dgrid3d 40,40\nset pm3d \n"
                ++ "splot " ++ plottedSession.xrange ++ " " ++ plottedSession.yrange ++ " "
                ++ plottedSession.zrange ++ " "
            else "plot " ++ plottedSession.xrange ++ " " ++ plottedSession.yrange ++ " ")
        ++ String.intercalate ", " (plottedSession.series.enum.map fun p =>
            "$Datablock" ++ toString p.1 ++ " using " ++ p.2.column_range ++ " with "
              ++ style_to_str p.2.line_style ++ " title '" ++ escape_quotes p.2.title ++ "'") ∧
      show_ plottedSession false
        = .ok (if (sendcommand { plottedSession with useAutoshow := false } text).2 && false
                then reset (sendcommand { plottedSession with useAutoshow := false } text).1
                else (sendcommand { plottedSession with useAutoshow := false } text).1,
               (sendcommand { plottedSession with useAutoshow := false } text).2) :=
  show_point_script plottedSession false (by decide!)

/-- The script `show` composes for the pending series of
`plot([1, 2], [3, 4], "a'b")`, in full. -/
theorem show_point_script_example :
    pointScript plottedSession
      = "set style fill transparent solid 0.5\n$Datablock0 << EOD\n1 3 \n2 4 \n\nEOD\nplot [] [] $Datablock0 using 1:2 with lines title 'a''b'" := by
  decide!

/-! ## Staged points -/

/-- C17 (amended).  In function mode, with points staged by `plot_dot` that all
have exactly three coordinates, `show` returns, every coordinate it reads exists,
and the script it sends is the function-plot script without points followed by
one overlay statement per staged point, in order, each holding the title and the
three coordinates of its point separated by spaces, and by the end marker. -/
theorem show_overlay_three (g : Gnuplot) (call_reset : Bool)
    (hf : g.is_3dplotfunc = true) (hd : g.has_dot = true)
    (h3 : ∀ p ∈ g.dots, p.coordinates.length = 3) :
    ∃ base : String,
      function_script g.series3d g.xrange g.yrange false g.dots g.os3d = .ok base ∧
      (∃ g1, show_ g call_reset = .ok (g1, false) ∧
        SentFunctionScript g (base ++ String.join (g.dots.map overlayText) ++ "\ne") g1) ∧
      ∀ p ∈ g.dots, ∃ c0 c1 c2 : ℚ, p.coordinates = [c0, c1, c2] ∧
        overlayText p
          = ", '-'  with points pt 7 lc rgb 'red' title '" ++ p.title ++ "'\n"
            ++ render c0 ++ " " ++ render c1 ++ " " ++ render c2 := by
  refine ⟨_, rfl, ?_, ?_⟩
  · refine ⟨_, ?_, rfl⟩
    rw [show_function_branch g call_reset hf]
    have : function_script g.series3d g.xrange g.yrange g.has_dot g.dots g.os3d
        = .ok (show_surfaces g.series3d.length g.series3d 0
            (show_functions g.series3d 0 g.os3d ++ "\nset samples 100"
              ++ "\nset isosamples 301" ++ "\nset hidden3d" ++ "\nset parametric"
              ++ "\nset urange " ++ g.xrange ++ "\nset vrange " ++ g.yrange ++ "\nsplot ")
          ++ String.join (g.dots.map overlayText) ++ "\ne") := by
      unfold function_script
      simp only [hd, if_true]
      rw [show_dots_three g.dots _ h3]
    rw [this]
  · intro p hp
    have hlen := h3 p hp
    obtain ⟨coords, title⟩ := p
    match coords, hlen with
    | [c0, c1, c2], _ =>
      refine ⟨c0, c1, c2, rfl, ?_⟩
      simp only [overlayText, List.map_cons, List.map_nil, intercalate_cons_cons,
        intercalate_singleton]
      simp [String.append_assoc]

/-- Witness of `show_overlay_three` on the session with one registered function
and the staged point `(1, 2, 3)`. -/
theorem show_overlay_three_witness :
    ∃ base : String,
      function_script dottedSession.series3d dottedSession.xrange dottedSession.yrange false
        dottedSession.dots dottedSession.os3d = .ok base ∧
      (∃ g1, show_ dottedSession true = .ok (g1, false) ∧
        SentFunctionScript dottedSession
          (base ++ String.join (dottedSession.dots.map overlayText) ++ "\ne") g1) ∧
      ∀ p ∈ dottedSession.dots, ∃ c0 c1 c2 : ℚ, p.coordinates = [c0, c1, c2] ∧
        overlayText p
          = ", '-'  with points pt 7 lc rgb 'red' title '" ++ p.title ++ "'\n"
            ++ render c0 ++ " " ++ render c1 ++ " " ++ render c2 :=
  show_overlay_three dottedSession true (by decide!) (by decide!) (by decide!)

/-- C17 (as stated) fails for a point of two values: `show` reads
`coordinates[2]` of every staged point, which is past the end of the tuple. -/
theorem show_overlay_two_values :
    show_ (plot_dot functionSession [1, 2] "p") true = .error Fault.undefined ∧
    (plot_dot functionSession [1, 2] "p").dots = [⟨[1, 2], "p"⟩] ∧
    ([1, 2] : List ℚ)[2]? = none := by
  refine ⟨by decide!, by decide!, by decide⟩

/-! ## Accumulation of the function-plot script -/

/-- One returning call of `show` in function mode: the script it sends is the
buffer `os3d` followed by a non-empty text that depends only on the registered
functions, the x and y ranges and the staged points; the script stays in the
buffer and those inputs are left as they were. -/
theorem show_function_sent (g g1 : Gnuplot) (call_reset b : Bool)
    (hf : g.is_3dplotfunc = true) (h : show_ g call_reset = .ok (g1, b)) :
    ∃ tail : String,
      function_script g.series3d g.xrange g.yrange g.has_dot g.dots "" = .ok tail ∧
      tail ≠ "" ∧ SentFunctionScript g (g.os3d ++ tail) g1 ∧ g1.os3d = g.os3d ++ tail ∧
      g1.series3d = g.series3d ∧ g1.xrange = g.xrange ∧ g1.yrange = g.yrange ∧
      g1.has_dot = g.has_dot ∧ g1.dots = g.dots ∧ g1.is_3dplotfunc = true := by
  rw [show_function_branch g call_reset hf, function_script_append] at h
  cases ht : function_script g.series3d g.xrange g.yrange g.has_dot g.dots "" with
  | error e => simp [ht] at h
  | ok tail =>
    simp only [ht, Except.ok.injEq, Prod.mk.injEq] at h
    obtain ⟨hg1, _⟩ := h
    have a := sendcommand_fields { g with useAutoshow := false } (rangesText g)
    obtain ⟨a1, a2, a3, _, a5, a6, _, a8, _⟩ := a
    have c := sendcommand_fields
      { (sendcommand { g with useAutoshow := false } (rangesText g)).1 with
        os3d := g.os3d ++ tail } (g.os3d ++ tail)
    obtain ⟨c1, c2, c3, c4, c5, c6, _, c8, _⟩ := c
    rw [hg1] at c1 c2 c3 c4 c5 c6 c8
    refine ⟨tail, rfl, function_script_tail_ne _ _ _ _ _ _ ht, hg1.symm, c4, c1.trans a1,
      c5.trans a5, c6.trans a6, c3.trans a3, c2.trans a2, ?_⟩
    rw [c8]
    exact a8.trans hf

theorem show_functions_closed (l : List Gnuplot3dFunctionSeries) (i : Nat) (os : String) :
    show_functions l i os
      = os ++ String.join ((List.enumFrom i l).map fun p => functionDefText p.1 p.2) := by
  induction l generalizing i os with
  | nil => simp [show_functions, join_nil]
  | cons s rest ih =>
    simp only [show_functions, ih, List.enumFrom_cons, List.map_cons, join_cons, functionDefText]
    simp [String.append_assoc]

theorem show_surfaces_closed (l : List Gnuplot3dFunctionSeries) (i size : Nat) (os : String)
    (hsize : size = i + l.length) :
    show_surfaces size l i os
      = os ++ String.intercalate ", \\\n"
          ((List.enumFrom i l).map fun p => surfaceText p.1 p.2) := by
  induction l generalizing i os with
  | nil => simp [show_surfaces, String.intercalate]
  | cons s rest ih =>
    simp only [show_surfaces, List.enumFrom_cons, List.map_cons]
    cases rest with
    | nil =>
      have : ¬ (i + 1 < size) := by simp [hsize]
      simp only [this, if_false, show_surfaces, List.enumFrom_nil, List.map_nil,
        intercalate_singleton, surfaceText]
      cases s.is_plane <;> simp [String.append_assoc]
    | cons s2 rest2 =>
      have hlt : i + 1 < size := by simp [hsize]
      rw [if_pos hlt, ih (i + 1) _ (by simp [hsize]; omega)]
      simp only [List.enumFrom_cons, List.map_cons, intercalate_cons_cons, surfaceText]
      cases s.is_plane <;> simp [String.append_assoc]

/-- With at least three coordinates in every staged point, the overlay loop
returns and writes one overlay statement per point, in order, from the first
three coordinates. -/
theorem show_dots_closed (l : List GnuplotDots) (os : String)
    (h : ∀ p ∈ l, 3 ≤ p.coordinates.length) :
    show_dots l os = .ok (os ++ String.join (l.map overlayHead)) := by
  induction l generalizing os with
  | nil => simp [show_dots, join_nil]
  | cons p rest ih =>
    have hp := h p (List.mem_cons_self _ _)
    have hrest : ∀ q ∈ rest, 3 ≤ q.coordinates.length :=
      fun q hq => h q (List.mem_cons_of_mem _ hq)
    obtain ⟨coords, title⟩ := p
    match coords, hp with
    | c0 :: c1 :: c2 :: more, _ =>
      simp only [show_dots, List.getElem?_cons_zero, List.getElem?_cons_succ]
      rw [ih _ hrest]
      simp only [List.map_cons, join_cons, overlayHead, List.take_succ_cons, List.take_zero,
        List.map_nil, intercalate_cons_cons, intercalate_singleton]
      simp [String.append_assoc]

/-- The function-plot script of a session whose staged points, if any are
drawn, have three coordinates: the buffer followed by the text of the
specification. -/
theorem function_script_closed (g : Gnuplot) (os : String)
    (hd : g.has_dot = true → ∀ p ∈ g.dots, 3 ≤ p.coordinates.length) :
    function_script g.series3d g.xrange g.yrange g.has_dot g.dots os
      = .ok (os ++ functionPlotText g) := by
  unfold function_script functionPlotText List.enum
  simp only [show_functions_closed, show_surfaces_closed g.series3d 0 g.series3d.length _ (by simp)]
  cases hh : g.has_dot
  · simp [String.append_assoc]
  · simp only [if_true]
    rw [show_dots_closed g.dots _ (hd hh)]
    simp [String.append_assoc]

/-- The call of `show` in function mode, for staged points with three
coordinates: it returns `false`, having sent the ranges and then the buffer
followed by the text of the specification, which stays in the buffer. -/
theorem show_function_closed (g : Gnuplot) (call_reset : Bool) (hf : g.is_3dplotfunc = true)
    (hd : g.has_dot = true → ∀ p ∈ g.dots, 3 ≤ p.coordinates.length) :
    show_ g call_reset
      = .ok ((sendcommand
          { (sendcommand { g with useAutoshow := false } (rangesText g)).1 with
            os3d := g.os3d ++ functionPlotText g } (g.os3d ++ functionPlotText g)).1, false) := by
  rw [show_function_branch g call_reset hf, function_script_closed g g.os3d hd]

theorem newline_head (a rest : String) (h : ∃ t : String, a = "\n" ++ t) :
    ∃ t : String, a ++ rest = "\n" ++ t := by
  obtain ⟨t, rfl⟩ := h
  exact ⟨t ++ rest, String.append_assoc _ _ _⟩

/-- The text added by one call starts with a newline. -/
theorem functionPlotText_head (g : Gnuplot) :
    ∃ t : String, functionPlotText g = "\n" ++ t := by
  unfold functionPlotText List.enum
  cases g.series3d with
  | nil =>
    simp only [List.enumFrom_nil, List.map_nil, join_nil, str_empty_append,
      String.append_assoc]
    exact newline_head _ _ ⟨"set samples 100", rfl⟩
  | cons s rest =>
    simp only [List.enumFrom_cons, List.map_cons, join_cons, functionDefText,
      String.append_assoc]
    exact newline_head _ _ ⟨"f", rfl⟩

theorem sendcommand_open (g : Gnuplot) (str : String) (ho : g.connection = true)
    (hn : NulFree str) :
    (sendcommand g str).1 = { g with pipe := g.pipe ++ str ++ "\n" } := by
  unfold sendcommand
  rw [c_str_of_no_nul str hn]
  simp [ho]

theorem nulFree_append (a b : String) : NulFree (a ++ b) ↔ NulFree a ∧ NulFree b := by
  unfold NulFree
  simp [String.data_append, not_or]

/-- The session one call of `show` in function mode leaves on an open channel,
for texts without NUL: the ranges and the script are on the pipe, the script is
in the buffer, nothing else changes but `useAutoshow`. -/
theorem show_function_open (g : Gnuplot) (call_reset : Bool) (hf : g.is_3dplotfunc = true)
    (ho : g.connection = true)
    (hd : g.has_dot = true → ∀ p ∈ g.dots, 3 ≤ p.coordinates.length)
    (hr : NulFree (rangesText g)) (hs : NulFree (g.os3d ++ functionPlotText g)) :
    show_ g call_reset
      = .ok ({ g with
          useAutoshow := false
          pipe := g.pipe ++ sentText g (g.os3d ++ functionPlotText g)
          os3d := g.os3d ++ functionPlotText g }, false) := by
  rw [show_function_closed g call_reset hf hd]
  simp [sendcommand, ho, c_str_of_no_nul _ hr, c_str_of_no_nul _ hs, sentText,
    String.append_assoc]

/-- C20 (amended).  In function mode, on an open channel, with texts free of
NUL and staged points of at least three coordinates, two calls of `show` in a
row both return `false`; each writes the three range assignments and then the
whole buffer `os3d` to the pipe, and adds to the buffer the function
definitions, the settings and the `splot` statement (with the overlays of the
staged points).  So the text written by the second call is the text written by
the first followed by a non-empty rest (the definitions and the `splot`
statement once more).  `reset()` leaves the buffer as it is, so a call of
`show` after `reset()` again sends the old script followed by a new one. -/
theorem function_script_accumulates (g : Gnuplot) (r1 r2 : Bool)
    (hf : g.is_3dplotfunc = true) (ho : g.connection = true)
    (hd : g.has_dot = true → ∀ p ∈ g.dots, 3 ≤ p.coordinates.length)
    (hr : NulFree (rangesText g)) (hs : NulFree (g.os3d ++ functionPlotText g)) :
    ∃ g1 g2 : Gnuplot,
      show_ g r1 = .ok (g1, false) ∧ show_ g1 r2 = .ok (g2, false) ∧
      g1.pipe = g.pipe ++ sentText g (g.os3d ++ functionPlotText g) ∧
      g2.pipe = g1.pipe ++ sentText g (g.os3d ++ functionPlotText g ++ functionPlotText g) ∧
      (∃ rest : String, rest ≠ "" ∧
        sentText g (g.os3d ++ functionPlotText g ++ functionPlotText g)
          = sentText g (g.os3d ++ functionPlotText g) ++ rest) ∧
      g1.os3d = g.os3d ++ functionPlotText g ∧
      g2.os3d = g.os3d ++ functionPlotText g ++ functionPlotText g ∧
      (reset g1).os3d = g1.os3d ∧
      ∃ g3 : Gnuplot, show_ (reset g1) r2 = .ok (g3, false) ∧
        g3.os3d = g1.os3d ++ functionPlotText (reset g1) := by
  have h1 := show_function_open g r1 hf ho hd hr hs
  obtain ⟨hs0, hs1⟩ := (nulFree_append _ _).mp hs
  have hs2 : NulFree (g.os3d ++ functionPlotText g ++ functionPlotText g) :=
    (nulFree_append _ _).mpr ⟨hs, hs1⟩
  have h2 := show_function_open
    { g with
      useAutoshow := false
      pipe := g.pipe ++ sentText g (g.os3d ++ functionPlotText g)
      os3d := g.os3d ++ functionPlotText g } r2 hf ho hd hr hs2
  have h3 := show_function_closed
    (reset { g with
      useAutoshow := false
      pipe := g.pipe ++ sentText g (g.os3d ++ functionPlotText g)
      os3d := g.os3d ++ functionPlotText g }) r2 hf hd
  refine ⟨_, _, h1, h2, rfl, rfl, ?_, rfl, rfl, rfl, _, h3, ?_⟩
  · obtain ⟨t, ht⟩ := functionPlotText_head g
    refine ⟨t ++ "\n", ?_, ?_⟩
    · intro h
      have hl := congrArg String.length h
      have h1 : ("\n" : String).length = 1 := by decide
      have h0 : ("" : String).length = 0 := rfl
      simp only [String.length_append, h1, h0] at hl
      omega
    · unfold sentText
      rw [ht]
      simp [String.append_assoc]
  · exact (sendcommand_fields _ _).2.2.2.1

/-- Witness of `function_script_accumulates`: two calls of `show(true)` on the
session with one registered function. -/
theorem function_script_accumulates_witness :
    ∃ g1 g2 : Gnuplot,
      show_ functionSession true = .ok (g1, false) ∧ show_ g1 true = .ok (g2, false) ∧
      g1.pipe = functionSession.pipe
        ++ sentText functionSession (functionSession.os3d ++ functionPlotText functionSession) ∧
      g2.pipe = g1.pipe ++ sentText functionSession
        (functionSession.os3d ++ functionPlotText functionSession
          ++ functionPlotText functionSession) ∧
      (∃ rest : String, rest ≠ "" ∧
        sentText functionSession
            (functionSession.os3d ++ functionPlotText functionSession
              ++ functionPlotText functionSession)
          = sentText functionSession (functionSession.os3d ++ functionPlotText functionSession)
            ++ rest) ∧
      g1.os3d = functionSession.os3d ++ functionPlotText functionSession ∧
      g2.os3d = functionSession.os3d ++ functionPlotText functionSession
        ++ functionPlotText functionSession ∧
      (reset g1).os3d = g1.os3d ∧
      ∃ g3 : Gnuplot, show_ (reset g1) true = .ok (g3, false) ∧
        g3.os3d = g1.os3d ++ functionPlotText (reset g1) :=
  function_script_accumulates functionSession true true (by decide!) (by decide!)
    (by decide!) (by decide!) (by decide!)

set_option maxRecDepth 8192 in
/-- The texts two calls of `show` in a row write for the function `x*y`: the
second repeats the definitions and the `splot` statement after the first. -/
theorem function_script_example :
    (afterShow functionSession).os3d
      = "\nf1(x,y)=x*y\nset samples 100\nset isosamples 301\nset hidden3d\nset parametric\nset urange []\nset vrange []\nsplot u, v, f1(u,v) title 'f'\ne" ∧
    (afterShow (afterShow functionSession)).os3d
      = (afterShow functionSession).os3d ++ (afterShow functionSession).os3d ∧
    (afterShow functionSession).pipe
      = functionSession.pipe ++ "set xrange []\nset yrange []\nset zrange []\n\n"
        ++ (afterShow functionSession).os3d ++ "\n" ∧
    (afterShow (afterShow functionSession)).pipe
      = (afterShow functionSession).pipe ++ "set xrange []\nset yrange []\nset zrange []\n\n"
        ++ (afterShow functionSession).os3d ++ (afterShow functionSession).os3d ++ "\n" := by
  refine ⟨by decide!, by decide!, by decide!, by decide!⟩

set_option maxRecDepth 8192 in
/-- C20 (as stated) fails for some sessions with a registered function.  On a
closed channel `sendcommand` writes nothing, so neither call sends any text.
With a NUL character in the expression, `c_str()` cuts the script there, and
both calls write the same text.  And with a staged point of two coordinates
`show` reads a third one past the end. -/
theorem function_script_not_always_longer :
    (afterShow closedFunctionSession).pipe = closedFunctionSession.pipe ∧
    (afterShow (afterShow closedFunctionSession)).pipe = closedFunctionSession.pipe ∧
    (∃ t : String, t ≠ "" ∧
      (afterShow nulFunctionSession).pipe = nulFunctionSession.pipe ++ t ∧
      (afterShow (afterShow nulFunctionSession)).pipe = (afterShow nulFunctionSession).pipe ++ t) ∧
    show_ (plot_dot functionSession [1, 2] "p") true = .error Fault.undefined := by
  refine ⟨by decide!, by decide!, ⟨"set xrange []\nset yrange []\nset zrange []\n\n\nf1(x,y)=x\n",
    by decide, by decide!, by decide!⟩, by decide!⟩

/-! ## Conservation of the histogram counts -/

theorem sum_set_incr (l : List Nat) (k : Nat) (hk : k < l.length) :
    (l.set k (l.getD k 0 + 1)).sum = l.sum + 1 := by
  induction l generalizing k with
  | nil => simp at hk
  | cons a l ih =>
    cases k with
    | zero => simp; omega
    | succ k =>
      have hk1 : k < l.length := by simpa using hk
      have := ih k hk1
      simp only [List.set_cons_succ, List.sum_cons, List.getD_cons_succ] at this ⊢
      omega

/-- When the counting loop returns, it has added one to some bin for every
value. -/
theorem histogram_count_sum (min binwidth : Double) (nbins : Nat) (values : List Double)
    (bins out : List Nat)
    (h : histogram_count min binwidth nbins values bins = .ok out) :
    out.length = bins.length ∧ out.sum = bins.sum + values.length := by
  induction values generalizing bins with
  | nil =>
    simp only [histogram_count, Except.ok.injEq] at h
    subst h
    simp
  | cons v rest ih =>
    simp only [histogram_count] at h
    split at h
    · cases h
    · rename_i index _
      split at h
      · cases h
      · rename_i bins1 hinc
        unfold vector_at_incr at hinc
        split at hinc
        · rename_i hidx
          simp only [Except.ok.injEq] at hinc
          subst hinc
          obtain ⟨hl, hs⟩ := ih _ h
          rw [List.length_set] at hl
          rw [sum_set_incr bins _ hidx.2] at hs
          refine ⟨hl, ?_⟩
          simp only [List.length_cons]
          omega
        · cases hinc

/-- C19 (amended).  For non-empty values, whenever `histogram` returns it has
appended a series whose `nbins` rows carry counts that sum to the number of
values, the count of row `i` being the number of values whose computed index is
`i`; it returns exactly when `nbins > 0`, the dimensionality check passes
and every index the counting loop computes lies in `[0, nbins - 1]`; and it does
return when `0 < nbins < 2^31`, the check passes, every value is finite and the
spread `max - min` lies between `nbins * 2^-1021` and `2^1023`.  For the
values `1..10` and three bins it returns the counts `3, 3, 4`. -/
theorem histogram_conservation (g : Gnuplot) (values : List Double) (nbins : Nat)
    (label : String) (style : LineStyle) (hne : values ≠ []) :
    (∀ g1, histogram g values nbins label style = .ok g1 →
      ∃ counts : List Nat, counts.length = nbins ∧ counts.sum = values.length ∧
        (∀ i : Nat, i < nbins → counts.getD i 0 = values.countP fun v => decide
          (bin_index (min_element values) (binWidth values nbins) nbins v = .ok (i : Int))) ∧
        g1.series = g.series ++
          [⟨String.join ((List.range nbins).map fun i =>
              histogramRow (min_element values) (binWidth values nbins) (counts.getD i 0) i),
            style, label, "1:2"⟩]) ∧
    ((∃ g1, histogram g values nbins label style = .ok g1) ↔
      0 < nbins ∧ dimOk g false ∧
      binsInRange (min_element values) (binWidth values nbins) nbins values = true) ∧
    ((∀ v ∈ values, v.isfinite = true) → 0 < nbins → nbins ≤ 2147483647 → dimOk g false →
      (nbins : ℚ) * (2 : ℚ) ^ (-1021 : Int)
        ≤ (max_element values).toRat - (min_element values).toRat →
      (max_element values).toRat - (min_element values).toRat ≤ (2 : ℚ) ^ (1023 : Nat) →
      ∃ g1, histogram g values nbins label style = .ok g1) ∧
    histogram (construct true false) [1, 2, 3, 4, 5, 6, 7, 8, 9, 10] 3 "" LineStyle.BOXES
      = .ok { construct true false with
          series := [⟨"2.5 3\n5.5 3\n8.5 4\n", LineStyle.BOXES, "", "1:2"⟩]
          is_3dplot := false } := by
  refine ⟨?_, histogram_returns_iff g values nbins label style hne,
    fun hfin hn hmax hdim hlo hhi => ⟨_, histogram_eq g values nbins label style hne hn hdim
      (binsInRange_of_spread values nbins hne hfin hn hmax hlo hhi)⟩, by decide!⟩
  intro g1 h
  obtain ⟨_, _, _, hr⟩ := histogram_ok_inv g g1 values nbins label style hne h
  have hempty : values.isEmpty = false := by cases values <;> simp_all
  unfold histogram at h
  split at h
  · cases h
  · rw [if_neg (by simp [hempty])] at h
    split at h
    · cases h
    · simp only [] at h
      split at h
      · cases h
      · rename_i bins hc
        simp only [Except.ok.injEq] at h
        subst h
        obtain ⟨hl, hs⟩ := histogram_count_sum _ _ _ _ _ _ hc
        obtain ⟨out, hout, _, hget⟩ :=
          histogram_count_ok (min_element values) (binWidth values nbins) nbins values
            (List.replicate nbins 0) (List.length_replicate _ _) hr
        have hob : out = bins := by
          have := hout.symm.trans hc
          simpa using this
        subst hob
        refine ⟨out, by simpa using hl, by simpa using hs, ?_, ?_⟩
        · intro i hi
          rw [hget i]
          simp [List.getD_eq_getElem?_getD, List.getElem?_replicate, hi]
        · simp [histogram_rows_eq, str_empty_append, List.range_eq_range', binWidth]

/-- Witness of `histogram_conservation` on the values `1..10` with three bins,
whose spread 9 lies within the stated bounds. -/
theorem histogram_conservation_witness :
    (∀ g1, histogram (construct true false) [1, 2, 3, 4, 5, 6, 7, 8, 9, 10] 3 "" LineStyle.BOXES
        = .ok g1 →
      ∃ counts : List Nat, counts.length = 3 ∧
        counts.sum = ([1, 2, 3, 4, 5, 6, 7, 8, 9, 10] : List Double).length ∧
        (∀ i : Nat, i < 3 → counts.getD i 0
          = ([1, 2, 3, 4, 5, 6, 7, 8, 9, 10] : List Double).countP fun v => decide
            (bin_index (min_element [1, 2, 3, 4, 5, 6, 7, 8, 9, 10])
              (binWidth [1, 2, 3, 4, 5, 6, 7, 8, 9, 10] 3) 3 v = .ok (i : Int))) ∧
        g1.series = (construct true false).series ++
          [⟨String.join ((List.range 3).map fun i =>
              histogramRow (min_element [1, 2, 3, 4, 5, 6, 7, 8, 9, 10])
                (binWidth [1, 2, 3, 4, 5, 6, 7, 8, 9, 10] 3) (counts.getD i 0) i),
            LineStyle.BOXES, "", "1:2"⟩]) ∧
    ((∃ g1, histogram (construct true false) [1, 2, 3, 4, 5, 6, 7, 8, 9, 10] 3 ""
        LineStyle.BOXES = .ok g1) ↔
      0 < 3 ∧ dimOk (construct true false) false ∧
      binsInRange (min_element [1, 2, 3, 4, 5, 6, 7, 8, 9, 10])
        (binWidth [1, 2, 3, 4, 5, 6, 7, 8, 9, 10] 3) 3 [1, 2, 3, 4, 5, 6, 7, 8, 9, 10] = true) ∧
    (∃ g1, histogram (construct true false) [1, 2, 3, 4, 5, 6, 7, 8, 9, 10] 3 ""
        LineStyle.BOXES = .ok g1) ∧
    histogram (construct true false) [1, 2, 3, 4, 5, 6, 7, 8, 9, 10] 3 "" LineStyle.BOXES
      = .ok { construct true false with
          series := [⟨"2.5 3\n5.5 3\n8.5 4\n", LineStyle.BOXES, "", "1:2"⟩]
          is_3dplot := false } :=
  ⟨(histogram_conservation (construct true false) [1, 2, 3, 4, 5, 6, 7, 8, 9, 10] 3 ""
      LineStyle.BOXES (by decide)).1,
   (histogram_conservation (construct true false) [1, 2, 3, 4, 5, 6, 7, 8, 9, 10] 3 ""
      LineStyle.BOXES (by decide)).2.1,
   (histogram_conservation (construct true false) [1, 2, 3, 4, 5, 6, 7, 8, 9, 10] 3 ""
      LineStyle.BOXES (by decide)).2.2.1
      (by decide!) (by decide) (by decide) (by decide!) (by decide!) (by decide!),
   (histogram_conservation (construct true false) [1, 2, 3, 4, 5, 6, 7, 8, 9, 10] 3 ""
      LineStyle.BOXES (by decide)).2.2.2⟩

/-- C19 (as stated) fails: rows are not produced for every input with minimum
below maximum and `nbins > 0`.  For the values `0` and `5 * 2^-1074` with four
bins the bin width `1.25 * 2^-1074` rounds to `2^-1074`, the larger value gets
the index 5, which the single decrement leaves at 4, and `bins.at(4)` throws:
no row is written and nothing is appended.  Nor are rows produced when the
difference overflows (`-2^1023` and `2^1023`), when a value is infinite, when
`nbins` is `2^31`, or when a 3D series is pending. -/
theorem histogram_rows_not_always_produced :
    (min_element [0, Double.val (5 / 2 ^ 1074)]).lt (max_element [0, Double.val (5 / 2 ^ 1074)])
      = true ∧
    binWidth [0, Double.val (5 / 2 ^ 1074)] 4 = Double.val (1 / 2 ^ 1074) ∧
    bin_index (min_element [0, Double.val (5 / 2 ^ 1074)])
      (binWidth [0, Double.val (5 / 2 ^ 1074)] 4) 4 (Double.val (5 / 2 ^ 1074)) = .ok 4 ∧
    histogram (construct true false) [0, Double.val (5 / 2 ^ 1074)] 4 "" LineStyle.BOXES
      = .error Fault.out_of_range ∧
    histogram (construct true false) [Double.val (-(2 ^ 1023)), Double.val (2 ^ 1023)] 2 ""
      LineStyle.BOXES = .error Fault.undefined ∧
    histogram (construct true false) [1, Double.pinf] 2 "" LineStyle.BOXES
      = .error Fault.undefined ∧
    histogram (construct true false) [0, 3] 2147483648 "" LineStyle.BOXES
      = .error Fault.out_of_range ∧
    ((plot3d (construct true false) [(4 : Int)] [5] [6] "" LineStyle.LINES).bind fun g =>
        histogram g [1, 3] 2 "" LineStyle.BOXES)
      = .error Fault.assertion := by
  refine ⟨by decide!, by decide!, by decide!, by decide!, by decide!, by decide!, ?_,
    by decide!⟩
  have hb : bin_index (min_element [0, 3])
      ((max_element [0, 3] - min_element [0, 3]) / Double.ofNat 2147483648) 2147483648 0
      = .ok (-1) := by decide!
  unfold histogram
  rw [if_neg (by decide), if_neg (by decide), if_neg (by decide!)]
  simp only [histogram_count_wrapped _ _ _ _ _ _ hb]

end GnuplotHpp
